import Mathlib

/-!
# Buffer pool of Unibase: LRU replacer and buffer pool manager

Shallow embedding of `src/replacer/lru_replacer.cpp` and
`src/storage/buffer_pool_manager.cpp`.

Conventions of the embedding.

* A frame id (`frame_id_t`) is an index into the frame array `pages_`, a natural number.
  A `Page *` into `pages_` is represented by the index of the frame it points to.
* `pin_count_` is a C++ `int`; it is embedded as an unbounded `Int` (overflow of the
  counter is outside the model).
* Undefined behaviour of the C++ code (reading `back()` of an empty `std::list`, erasing
  through an iterator that designates no element, indexing `pages_` out of range) makes
  the embedded operation return `none`.
* A `std::list<frame_id_t>` is a list of nodes, front first; every node carries the
  identity of its iterator.  A `std::unordered_map` is a function into `Option`.
* The pool-wide latch and the replacer latch serialise the operations; the embedding
  is the sequential behaviour of one operation at a time.
-/

namespace Unibase

/-! ## Part I. Definitions -/

/-! ### LRU replacer (`src/replacer/lru_replacer.cpp`) -/

/-- Index of a frame in the frame array of the pool. -/
abbrev frame_id_t := Nat

/-- One element of `LRUlist_`: the iterator designating the element and the frame id
stored in it. -/
structure LRUNode where
  iter : Nat
  frame : frame_id_t
deriving DecidableEq, Repr

/-- State of an `LRUReplacer`: `LRUlist_` is ordered from the front (most recently
unpinned) to the back (least recently unpinned); `LRUhash_` maps a frame id to the
iterator of its list element; `next_iter_` is the identity the next inserted list
element receives (list iterators of live elements are pairwise different). -/
structure LRUReplacer where
  max_size_ : Nat
  LRUlist_ : List LRUNode
  LRUhash_ : frame_id_t → Option Nat
  next_iter_ : Nat

/-- The call `m.erase(k)` of a `std::unordered_map`. -/
def umap_erase {κ ν : Type} [DecidableEq κ] (m : κ → Option ν) (k : κ) : κ → Option ν :=
  fun x => if x = k then none else m x

/-- The assignment `m[k] = v` of a `std::unordered_map`. -/
def umap_set {κ ν : Type} [DecidableEq κ] (m : κ → Option ν) (k : κ) (v : ν) : κ → Option ν :=
  fun x => if x = k then some v else m x

/-- The call `l.erase(it)` of a `std::list`: removes the element designated by `it`;
undefined (`none`) when `it` designates no element of the list. -/
def list_erase : List LRUNode → Nat → Option (List LRUNode)
  | [], _ => none
  | n :: l, it => if n.iter = it then some l else (list_erase l it).map (fun t => n :: t)

/-- The constructor `LRUReplacer::LRUReplacer(num_pages)`. -/
def LRUReplacer.create (num_pages : Nat) : LRUReplacer :=
  { max_size_ := num_pages, LRUlist_ := [], LRUhash_ := fun _ => none, next_iter_ := 0 }

/-- The member `LRUReplacer::victim`: the new state and the frame id written to
`*frame_id` (`none` when the function returns `false`). -/
def LRUReplacer.victim (r : LRUReplacer) : LRUReplacer × Option frame_id_t :=
  match r.LRUlist_.getLast? with
  | none => (r, none)
  | some back =>
    ({ r with LRUlist_ := r.LRUlist_.dropLast, LRUhash_ := umap_erase r.LRUhash_ back.frame },
      some back.frame)

/-- The member `LRUReplacer::pin`. -/
def LRUReplacer.pin (r : LRUReplacer) (frame_id : frame_id_t) : Option LRUReplacer :=
  match r.LRUhash_ frame_id with
  | none => some r
  | some it =>
    match list_erase r.LRUlist_ it with
    | none => none
    | some l => some { r with LRUlist_ := l, LRUhash_ := umap_erase r.LRUhash_ frame_id }

/-- The statements `LRUlist_.push_front(frame_id); LRUhash_[frame_id] = LRUlist_.begin();`. -/
def LRUReplacer.push_front (r : LRUReplacer) (frame_id : frame_id_t) : LRUReplacer :=
  { r with
    LRUlist_ := { iter := r.next_iter_, frame := frame_id } :: r.LRUlist_,
    LRUhash_ := umap_set r.LRUhash_ frame_id r.next_iter_,
    next_iter_ := r.next_iter_ + 1 }

/-- The member `LRUReplacer::unpin`; `none` when `LRUlist_.back()` is evaluated on an
empty list. -/
def LRUReplacer.unpin (r : LRUReplacer) (frame_id : frame_id_t) : Option LRUReplacer :=
  match r.LRUhash_ frame_id with
  | some _ => some r
  | none =>
    if r.LRUlist_.length = r.max_size_ then
      match r.LRUlist_.getLast? with
      | none => none
      | some back =>
        some (LRUReplacer.push_front
          { r with LRUhash_ := umap_erase r.LRUhash_ back.frame,
                   LRUlist_ := r.LRUlist_.dropLast } frame_id)
    else some (LRUReplacer.push_front r frame_id)

/-- The member `LRUReplacer::Size`. -/
def LRUReplacer.Size (r : LRUReplacer) : Nat :=
  r.LRUlist_.length

/-- The frame ids held by `LRUlist_`, front first: the tracked sequence. -/
def LRUReplacer.tracked (r : LRUReplacer) : List frame_id_t :=
  r.LRUlist_.map (fun n => n.frame)

/-- Consistency of the list and the index of a replacer. -/
structure LRUReplacer.Consistent (r : LRUReplacer) : Prop where
  iter_nodup : (r.LRUlist_.map (fun n => n.iter)).Nodup
  frame_nodup : (r.LRUlist_.map (fun n => n.frame)).Nodup
  iter_lt : ∀ n ∈ r.LRUlist_, n.iter < r.next_iter_
  hash_iff : ∀ f it, r.LRUhash_ f = some it ↔ ({ iter := it, frame := f } : LRUNode) ∈ r.LRUlist_

/-- Calls `unpin` on the frames of a list, in order. -/
def LRUReplacer.unpin_all : LRUReplacer → List frame_id_t → Option LRUReplacer
  | r, [] => some r
  | r, f :: fs =>
    match r.unpin f with
    | none => none
    | some r1 => LRUReplacer.unpin_all r1 fs

/-- Calls `victim` the given number of times: the results in call order, paired with the
value of `Size()` after the call, and the final state. -/
def LRUReplacer.victim_times : LRUReplacer → Nat → List (Option frame_id_t × Nat) × LRUReplacer
  | r, 0 => ([], r)
  | r, k + 1 =>
    let r1 := r.victim
    let rest := LRUReplacer.victim_times r1.1 k
    ((r1.2, r1.1.Size) :: rest.1, rest.2)

/-- The replacer states reachable from a constructed replacer by calls of `victim`, `pin`
and `unpin`. -/
inductive LRUReplacer.Reachable : LRUReplacer → Prop where
  | create (n : Nat) : LRUReplacer.Reachable (LRUReplacer.create n)
  | victim (r : LRUReplacer) (h : LRUReplacer.Reachable r) : LRUReplacer.Reachable r.victim.1
  | pin (r r1 : LRUReplacer) (f : frame_id_t) (h : LRUReplacer.Reachable r)
      (hpin : r.pin f = some r1) : LRUReplacer.Reachable r1
  | unpin (r r1 : LRUReplacer) (f : frame_id_t) (h : LRUReplacer.Reachable r)
      (hunpin : r.unpin f = some r1) : LRUReplacer.Reachable r1

/-! ### Pages and the disk collaborator -/

/-- Modelled from the spec: the constant `INVALID_PAGE_ID` is declared outside the given
sources; a page number equal to it denotes "no page". -/
def INVALID_PAGE_ID : Int := -1

/-- Modelled from the spec: the constant `PAGE_SIZE` is declared outside the given
sources; the fixed size in bytes of a page. -/
def PAGE_SIZE : Nat := 4096

/-- Modelled from the spec: the type `PageId` is declared outside the given sources; a
file handle and a page number, equal iff both fields are equal. -/
structure PageId where
  fd : Int
  page_no : Int
deriving DecidableEq, Repr

/-- The content of a page buffer: exactly `PAGE_SIZE` bytes. -/
abbrev PageData := { l : List (Fin 256) // l.length = PAGE_SIZE }

/-- The buffer with every byte zero. -/
def PageData.zero : PageData := ⟨List.replicate PAGE_SIZE 0, List.length_replicate _ _⟩

/-- The buffer with every byte equal to `c`. -/
def PageData.fill (c : Fin 256) : PageData := ⟨List.replicate PAGE_SIZE c, List.length_replicate _ _⟩

/-- Modelled from the spec: the class `Page` is declared outside the given sources; a
frame is a byte buffer with the fields `id_`, `is_dirty_` and `pin_count_` that the
buffer pool manager reads and writes. -/
structure Page where
  id_ : PageId
  data_ : PageData
  is_dirty_ : Bool
  pin_count_ : Int

/-- Modelled from the spec: `Page::reset_memory` is declared outside the given sources;
it zeroes the content of the frame. -/
def Page.reset_memory (p : Page) : Page :=
  { p with data_ := PageData.zero }

/-- A call received by the disk collaborator. -/
inductive DiskCall where
  | write_page (fd : Int) (page_no : Int) (data : PageData)
  | read_page (fd : Int) (page_no : Int)
  | allocate_page (fd : Int)
  | deallocate_page (page_no : Int)

/-- Modelled from the spec: the class `DiskManager` is declared outside the given
sources; the disk is a map from page ids to page bytes, written only by `write_page`,
together with the trace of the calls received, oldest first. -/
structure DiskManager where
  content : PageId → PageData
  trace : List DiskCall

/-- Modelled from the spec: `DiskManager::write_page` stores the bytes of the buffer
under the page id. -/
def DiskManager.write_page (d : DiskManager) (fd page_no : Int) (data : PageData) : DiskManager :=
  { content := fun k => if k = { fd := fd, page_no := page_no } then data else d.content k,
    trace := d.trace ++ [DiskCall.write_page fd page_no data] }

/-- Modelled from the spec: `DiskManager::read_page` returns the bytes stored under the
page id. -/
def DiskManager.read_page (d : DiskManager) (fd page_no : Int) : DiskManager × PageData :=
  ({ d with trace := d.trace ++ [DiskCall.read_page fd page_no] },
    d.content { fd := fd, page_no := page_no })

/-- Modelled from the spec: `DiskManager::allocate_page`; the page number it returns is
chosen by the disk collaborator and is an input of the operation that calls it. -/
def DiskManager.allocate_page (d : DiskManager) (fd : Int) : DiskManager :=
  { d with trace := d.trace ++ [DiskCall.allocate_page fd] }

/-- Modelled from the spec: `DiskManager::deallocate_page`. -/
def DiskManager.deallocate_page (d : DiskManager) (page_no : Int) : DiskManager :=
  { d with trace := d.trace ++ [DiskCall.deallocate_page page_no] }

/-! ### Buffer pool manager (`src/storage/buffer_pool_manager.cpp`) -/

/-- State of a `BufferPoolManager`. -/
structure BufferPoolManager where
  pool_size_ : Nat
  pages_ : List Page
  page_table_ : PageId → Option frame_id_t
  free_list_ : List frame_id_t
  replacer_ : LRUReplacer
  disk_manager_ : DiskManager

/-- The largest value of the C++ type `int`, the type of `Page::pin_count_`. -/
def INT_MAX : Int := 2147483647

/-- The member `BufferPoolManager::find_victim_page`: the new state and the frame id
written to `*frame_id` (`none` when the function returns `false`). -/
def BufferPoolManager.find_victim_page (s : BufferPoolManager) :
    BufferPoolManager × Option frame_id_t :=
  match s.free_list_ with
  | front :: rest => ({ s with free_list_ := rest }, some front)
  | [] => ({ s with replacer_ := s.replacer_.victim.1 }, s.replacer_.victim.2)

/-- The member `BufferPoolManager::update_page`; `page` is the index of the frame the
argument `Page *page` points to. -/
def BufferPoolManager.update_page (s : BufferPoolManager) (page : frame_id_t)
    (new_page_id : PageId) (new_frame_id : frame_id_t) : Option BufferPoolManager :=
  match s.pages_[page]? with
  | none => none
  | some pg =>
    -- if (page->is_dirty()) { write_page; is_dirty_ = false; pin_count_ = 0; }
    let disk1 := if pg.is_dirty_ then
        s.disk_manager_.write_page pg.id_.fd pg.id_.page_no pg.data_ else s.disk_manager_
    let pg1 : Page := if pg.is_dirty_ then { pg with is_dirty_ := false, pin_count_ := 0 } else pg
    -- page_table_.erase(page->id_); page_table_[new_page_id] = new_frame_id;
    let table1 := umap_set (umap_erase s.page_table_ pg1.id_) new_page_id new_frame_id
    -- page->reset_memory();
    let pages1 := s.pages_.set page pg1.reset_memory
    -- Page *newpage = pages_ + new_frame_id; newpage->id_ = ...; newpage->pin_count_ = 1;
    match pages1[new_frame_id]? with
    | none => none
    | some np =>
      let pages2 := pages1.set new_frame_id { np with id_ := new_page_id, pin_count_ := 1 }
      -- disk_manager_->read_page(new_page_id.fd, new_page_id.page_no, page->get_data(), PAGE_SIZE);
      let rd := disk1.read_page new_page_id.fd new_page_id.page_no
      match pages2[page]? with
      | none => none
      | some pg2 =>
        let pages3 := pages2.set page { pg2 with data_ := rd.2 }
        -- replacer_->pin(new_frame_id);
        match s.replacer_.pin new_frame_id with
        | none => none
        | some r =>
          some { s with pages_ := pages3, page_table_ := table1, replacer_ := r,
                        disk_manager_ := rd.1 }

/-- The member `BufferPoolManager::fetch_page`: the new state and the returned frame
(`none` for `nullptr`). -/
def BufferPoolManager.fetch_page (s : BufferPoolManager) (page_id : PageId) :
    Option (BufferPoolManager × Option frame_id_t) :=
  match s.page_table_ page_id with
  | some f =>
    match s.pages_[f]? with
    | none => none
    | some pg =>
      match (if pg.pin_count_ = 0 then s.replacer_.pin f else some s.replacer_) with
      | none => none
      | some r =>
        -- page->pin_count_++; incrementing an `int` that holds INT_MAX is undefined
        if pg.pin_count_ < INT_MAX then
          some ({ s with replacer_ := r,
                         pages_ := s.pages_.set f { pg with pin_count_ := pg.pin_count_ + 1 } },
                some f)
        else none
  | none =>
    match s.find_victim_page with
    | (s1, none) => some (s1, none)
    | (s1, some frameid) =>
      match s1.update_page frameid page_id frameid with
      | none => none
      | some s2 => some (s2, some frameid)

/-- The member `BufferPoolManager::unpin_page`: the new state and the returned flag. -/
def BufferPoolManager.unpin_page (s : BufferPoolManager) (page_id : PageId) (is_dirty : Bool) :
    Option (BufferPoolManager × Bool) :=
  match s.page_table_ page_id with
  | none => some (s, false)
  | some f =>
    match s.pages_[f]? with
    | none => none
    | some pg =>
      if pg.pin_count_ ≤ 0 then some (s, false)
      else
        -- page->pin_count_--; if (!page->pin_count_) replacer_->unpin(...);
        match (if pg.pin_count_ - 1 = 0 then s.replacer_.unpin f else some s.replacer_) with
        | none => none
        | some r =>
          -- page->is_dirty_ = is_dirty;
          some ({ s with replacer_ := r,
                         pages_ := s.pages_.set f
                           { pg with pin_count_ := pg.pin_count_ - 1, is_dirty_ := is_dirty } },
                true)

/-- The member `BufferPoolManager::flush_page`. -/
def BufferPoolManager.flush_page (s : BufferPoolManager) (page_id : PageId) :
    Option (BufferPoolManager × Bool) :=
  match s.page_table_ page_id with
  | none => some (s, false)
  | some f =>
    match s.pages_[f]? with
    | none => none
    | some pg =>
      some ({ s with
              disk_manager_ := s.disk_manager_.write_page pg.id_.fd pg.id_.page_no pg.data_,
              pages_ := s.pages_.set f { pg with is_dirty_ := false } },
            true)

/-- The member `BufferPoolManager::new_page`.  The argument `fd` is the file handle
stored in `*page_id` by the caller and `allocated` is the page number returned by
`allocate_page`; the result holds the new state and, on success, the frame together with
the page id written to `*page_id`. -/
def BufferPoolManager.new_page (s : BufferPoolManager) (fd : Int) (allocated : Int) :
    Option (BufferPoolManager × Option (frame_id_t × PageId)) :=
  match s.find_victim_page with
  | (s1, none) => some (s1, none)
  | (s1, some frameid) =>
    match s1.pages_[frameid]? with
    | none => none
    | some pg =>
      -- if (page->is_dirty()) { write_page; pin_count_ = 0; is_dirty_ = false; }
      let disk1 := if pg.is_dirty_ then
          s1.disk_manager_.write_page pg.id_.fd pg.id_.page_no pg.data_ else s1.disk_manager_
      let pg1 : Page := if pg.is_dirty_ then { pg with pin_count_ := 0, is_dirty_ := false } else pg
      -- page_id->page_no = disk_manager_->allocate_page(page_id->fd);
      let disk2 := disk1.allocate_page fd
      let page_id : PageId := { fd := fd, page_no := allocated }
      -- page->reset_memory();
      let pg2 := pg1.reset_memory
      -- page_table_.erase(page->get_page_id()); page_table_[*page_id] = frameid;
      let table1 := umap_set (umap_erase s1.page_table_ pg2.id_) page_id frameid
      -- page->pin_count_ = 1; page->id_ = *page_id;
      let pg3 : Page := { pg2 with pin_count_ := 1, id_ := page_id }
      -- replacer_->pin(frameid);
      match s1.replacer_.pin frameid with
      | none => none
      | some r =>
        some ({ s1 with pages_ := s1.pages_.set frameid pg3, page_table_ := table1,
                        replacer_ := r, disk_manager_ := disk2 },
              some (frameid, page_id))

/-- The member `BufferPoolManager::delete_page`. -/
def BufferPoolManager.delete_page (s : BufferPoolManager) (page_id : PageId) :
    Option (BufferPoolManager × Bool) :=
  match s.page_table_ page_id with
  | none => some (s, true)
  | some f =>
    match s.pages_[f]? with
    | none => none
    | some pg =>
      if pg.pin_count_ > 0 then some (s, false)
      else
        some ({ s with
                disk_manager_ := s.disk_manager_.deallocate_page page_id.page_no,
                free_list_ := s.free_list_ ++ [f],
                page_table_ := umap_erase s.page_table_ page_id,
                pages_ := s.pages_.set f
                  { pg with is_dirty_ := false, pin_count_ := 0,
                            id_ := { pg.id_ with page_no := INVALID_PAGE_ID } } },
              true)

/-- One iteration of the loop of `BufferPoolManager::flush_all_pages`, for frame `i`. -/
def BufferPoolManager.flush_all_pages_body (fd : Int) (s : BufferPoolManager) (i : Nat) :
    Option BufferPoolManager :=
  match s.pages_[i]? with
  | none => none
  | some pg =>
    if pg.id_.fd = fd ∧ pg.id_.page_no ≠ INVALID_PAGE_ID then
      some { s with
             disk_manager_ := s.disk_manager_.write_page pg.id_.fd pg.id_.page_no pg.data_,
             pages_ := s.pages_.set i { pg with is_dirty_ := false } }
    else some s

/-- The loop of `BufferPoolManager::flush_all_pages` over the frames of a list. -/
def BufferPoolManager.flush_all_pages_loop (fd : Int) :
    BufferPoolManager → List Nat → Option BufferPoolManager
  | s, [] => some s
  | s, i :: is =>
    match BufferPoolManager.flush_all_pages_body fd s i with
    | none => none
    | some s1 => BufferPoolManager.flush_all_pages_loop fd s1 is

/-- The member `BufferPoolManager::flush_all_pages`. -/
def BufferPoolManager.flush_all_pages (s : BufferPoolManager) (fd : Int) :
    Option BufferPoolManager :=
  BufferPoolManager.flush_all_pages_loop fd s (List.range s.pool_size_)

/-- Modelled from the spec: the accessor `Page::get_data` is declared outside the given
sources; a caller that holds a frame handle overwrites the content of the frame. -/
def BufferPoolManager.write_data (s : BufferPoolManager) (f : frame_id_t) (data : PageData) :
    Option BufferPoolManager :=
  match s.pages_[f]? with
  | none => none
  | some pg => some { s with pages_ := s.pages_.set f { pg with data_ := data } }

/-- Modelled from the spec: the constructor of `BufferPoolManager` is declared outside
the given sources; every frame holds the invalid page id with pin count 0, the free list
holds all frame indices, the page table is empty and the replacer, sized to the pool
capacity, is empty. -/
def BufferPoolManager.create (pool_size : Nat) (disk : DiskManager) : BufferPoolManager :=
  { pool_size_ := pool_size,
    pages_ := List.replicate pool_size
      { id_ := { fd := 0, page_no := INVALID_PAGE_ID }, data_ := PageData.zero,
        is_dirty_ := false, pin_count_ := 0 },
    page_table_ := fun _ => none,
    free_list_ := List.range pool_size,
    replacer_ := LRUReplacer.create pool_size,
    disk_manager_ := disk }

/-- The initial states of a pool: all frames on the free list, every pin count 0, empty
page table, empty replacer sized to the pool. -/
structure BufferPoolManager.Initial (s : BufferPoolManager) : Prop where
  pages_length : s.pages_.length = s.pool_size_
  pages_unpinned : ∀ pg ∈ s.pages_, pg.pin_count_ = 0
  table_empty : s.page_table_ = fun _ => none
  free_all : s.free_list_ = List.range s.pool_size_
  replacer_empty : s.replacer_ = LRUReplacer.create s.pool_size_

/-- The initial states of a pool in which, moreover, every frame holds the invalid page
id. -/
structure BufferPoolManager.Fresh (s : BufferPoolManager) : Prop where
  initial : s.Initial
  pages_invalid : ∀ pg ∈ s.pages_, pg.id_.page_no = INVALID_PAGE_ID

/-- The operations a caller can issue against the pool. -/
inductive Op where
  | fetch_page (page_id : PageId)
  | new_page (fd : Int) (allocated : Int)
  | unpin_page (page_id : PageId) (is_dirty : Bool)
  | flush_page (page_id : PageId)
  | delete_page (page_id : PageId)
  | flush_all_pages (fd : Int)
  | write_data (f : frame_id_t) (data : PageData)

/-- The state after one operation (the returned value is dropped). -/
def BufferPoolManager.step (s : BufferPoolManager) : Op → Option BufferPoolManager
  | Op.fetch_page page_id => (s.fetch_page page_id).map (fun r => r.1)
  | Op.new_page fd allocated => (s.new_page fd allocated).map (fun r => r.1)
  | Op.unpin_page page_id is_dirty => (s.unpin_page page_id is_dirty).map (fun r => r.1)
  | Op.flush_page page_id => (s.flush_page page_id).map (fun r => r.1)
  | Op.delete_page page_id => (s.delete_page page_id).map (fun r => r.1)
  | Op.flush_all_pages fd => s.flush_all_pages fd
  | Op.write_data f data => s.write_data f data

/-- The state after a sequence of operations. -/
def BufferPoolManager.run : BufferPoolManager → List Op → Option BufferPoolManager
  | s, [] => some s
  | s, op :: ops =>
    match s.step op with
    | none => none
    | some s1 => BufferPoolManager.run s1 ops

/-- The pool states reachable from an initial state by any sequence of operations. -/
inductive BufferPoolManager.Reachable : BufferPoolManager → Prop where
  | init (s : BufferPoolManager) (h : s.Initial) : BufferPoolManager.Reachable s
  | step (s s1 : BufferPoolManager) (op : Op) (h : BufferPoolManager.Reachable s)
      (hstep : s.step op = some s1) : BufferPoolManager.Reachable s1

/-- The invariant of the pool states: the frame array has `pool_size_` frames, the
replacer is sized to the pool and consistent, the frames on the free list and the frames
tracked by the replacer are frames of the pool with pin count 0, the free list has no
duplicate and no page table entry maps to a free frame, every page table entry maps a
page id to a frame of the pool that holds this page id, and no pin count is negative. -/
structure BufferPoolManager.Inv (s : BufferPoolManager) : Prop where
  pages_length : s.pages_.length = s.pool_size_
  replacer_size : s.replacer_.max_size_ = s.pool_size_
  replacer_ok : s.replacer_.Consistent
  free_lt : ∀ f ∈ s.free_list_, f < s.pool_size_
  free_nodup : s.free_list_.Nodup
  free_unpinned : ∀ f ∈ s.free_list_, ∀ pg : Page, s.pages_[f]? = some pg → pg.pin_count_ = 0
  free_unmapped : ∀ f ∈ s.free_list_, ∀ k, s.page_table_ k ≠ some f
  tracked_lt : ∀ f ∈ s.replacer_.tracked, f < s.pool_size_
  tracked_unpinned : ∀ f ∈ s.replacer_.tracked, ∀ pg : Page, s.pages_[f]? = some pg →
    pg.pin_count_ = 0
  table_lt : ∀ k f, s.page_table_ k = some f → f < s.pool_size_
  table_id : ∀ k f, ∀ pg : Page, s.page_table_ k = some f → s.pages_[f]? = some pg →
    pg.id_ = k
  pin_nonneg : ∀ f : frame_id_t, ∀ pg : Page, s.pages_[f]? = some pg → 0 ≤ pg.pin_count_

/-! ### Sequences of calls and concrete pools used to instantiate the theorems -/

/-- The state after a sequence of operations, or the start state when an operation of
the sequence is undefined. -/
def BufferPoolManager.run_or (s : BufferPoolManager) (ops : List Op) : BufferPoolManager :=
  match s.run ops with
  | some s1 => s1
  | none => s

/-- A disk on which every page is zero and that has received no call. -/
def Example.disk : DiskManager := { content := fun _ => PageData.zero, trace := [] }

/-- Page 0 of file 3. -/
def Example.pageA : PageId := { fd := 3, page_no := 0 }

/-- Page 1 of file 3. -/
def Example.pageB : PageId := { fd := 3, page_no := 1 }

/-- A pool of two frames after `fetch_page(A)` and `unpin_page(A, true)`: frame 0 is
tracked by the replacer and frame 1 is on the free list. -/
def Example.pool_unpinned : BufferPoolManager :=
  (BufferPoolManager.create 2 Example.disk).run_or
    [Op.fetch_page Example.pageA, Op.unpin_page Example.pageA true]

/-- A pool of one frame after `fetch_page(A)`, `fetch_page(A)` and `unpin_page(A, true)`:
page A is dirty and still pinned once. -/
def Example.pool_dirty_pinned : BufferPoolManager :=
  (BufferPoolManager.create 1 Example.disk).run_or
    [Op.fetch_page Example.pageA, Op.fetch_page Example.pageA,
     Op.unpin_page Example.pageA true]

/-- A pool of two frames after `fetch_page(A)`: page A is pinned in frame 0. -/
def Example.pool_one_pinned : BufferPoolManager :=
  (BufferPoolManager.create 2 Example.disk).run_or [Op.fetch_page Example.pageA]

/-- A pool of two frames after `fetch_page(A)` and `fetch_page(B)`, neither unpinned. -/
def Example.pool_full : BufferPoolManager :=
  (BufferPoolManager.create 2 Example.disk).run_or
    [Op.fetch_page Example.pageA, Op.fetch_page Example.pageB]

/-- A pool of one frame after `fetch_page(A)`, a caller writing the byte 7 everywhere
into the frame, and `unpin_page(A, true)`. -/
def Example.pool_dirty : BufferPoolManager :=
  (BufferPoolManager.create 1 Example.disk).run_or
    [Op.fetch_page Example.pageA, Op.write_data 0 (PageData.fill 7),
     Op.unpin_page Example.pageA true]

/-- A pool of two frames after `fetch_page(A)` and `unpin_page(A, false)`. -/
def Example.pool_free_and_tracked : BufferPoolManager :=
  (BufferPoolManager.create 2 Example.disk).run_or
    [Op.fetch_page Example.pageA, Op.unpin_page Example.pageA false]

/-- A replacer of capacity 3 after `unpin(1)` and `unpin(2)`. -/
def Example.replacer : LRUReplacer :=
  ((LRUReplacer.create 3).push_front 1).push_front 2

/-- Calls `fetch_page(p)` the given number of times: the final state and the returned
frames in call order. -/
def BufferPoolManager.fetch_times (p : PageId) :
    BufferPoolManager → Nat → Option (BufferPoolManager × List (Option frame_id_t))
  | s, 0 => some (s, [])
  | s, n + 1 =>
    match s.fetch_page p with
    | none => none
    | some r1 =>
      match BufferPoolManager.fetch_times p r1.1 n with
      | none => none
      | some r2 => some (r2.1, r1.2 :: r2.2)

/-- Calls `unpin_page(p, d)` for every flag `d` of a list, in order: the final state and
the returned values in call order. -/
def BufferPoolManager.unpin_each (p : PageId) :
    BufferPoolManager → List Bool → Option (BufferPoolManager × List Bool)
  | s, [] => some (s, [])
  | s, d :: ds =>
    match s.unpin_page p d with
    | none => none
    | some r1 =>
      match BufferPoolManager.unpin_each p r1.1 ds with
      | none => none
      | some r2 => some (r2.1, r1.2 :: r2.2)

/-! ### Well-formed calls and the round trip of a page through eviction -/

/-- The arguments of an operation are well formed in state `s`: a page id passed to
`fetch_page` has a valid page number, and the page number returned by `allocate_page`
is valid and is not the number of a page that is currently resident. -/
def Op.WellFormed (s : BufferPoolManager) : Op → Prop
  | Op.fetch_page page_id => page_id.page_no ≠ INVALID_PAGE_ID
  | Op.new_page fd allocated =>
    allocated ≠ INVALID_PAGE_ID ∧ s.page_table_ { fd := fd, page_no := allocated } = none
  | _ => True

/-- The operation is not an operation on page `p` in state `s`: it is a call for another
page id, a `flush_all_pages`, or a caller write into a frame that does not hold `p`. -/
def Op.Quiet (p : PageId) (s : BufferPoolManager) : Op → Prop
  | Op.fetch_page page_id => page_id ≠ p
  | Op.new_page fd allocated => ({ fd := fd, page_no := allocated } : PageId) ≠ p
  | Op.unpin_page page_id _ => page_id ≠ p
  | Op.flush_page page_id => page_id ≠ p
  | Op.delete_page page_id => page_id ≠ p
  | Op.flush_all_pages _ => True
  | Op.write_data f _ => s.page_table_ p ≠ some f

/-- The states reached from `s` by operations that satisfy `P` in the state in which
they are issued. -/
inductive Steps (P : BufferPoolManager → Op → Prop) :
    BufferPoolManager → BufferPoolManager → Prop where
  | refl (s : BufferPoolManager) : Steps P s s
  | step (s s1 s2 : BufferPoolManager) (op : Op) (h : Steps P s s1) (hop : P s1 op)
      (hstep : s1.step op = some s2) : Steps P s s2

/-- The pool states reachable by operations with well-formed arguments from an initial
state whose frames hold the invalid page id. -/
def BufferPoolManager.WFReachable (s : BufferPoolManager) : Prop :=
  ∃ s0 : BufferPoolManager, s0.Fresh ∧ Steps Op.WellFormed s0 s

/-- Every key of the page table is a valid page id, and every frame that holds a valid
page id is the frame the page table maps this page id to. -/
structure BufferPoolManager.Mapped (s : BufferPoolManager) : Prop where
  keys_valid : ∀ (k : PageId) (f : frame_id_t), s.page_table_ k = some f →
    k.page_no ≠ INVALID_PAGE_ID
  held_mapped : ∀ (f : frame_id_t) (pg : Page), s.pages_[f]? = some pg →
    pg.id_.page_no ≠ INVALID_PAGE_ID → s.page_table_ pg.id_ = some f

/-- Page `p` is resident in frame `f` with bytes `b`, and the frame is dirty or the disk
already holds `b` under `p`. -/
def BufferPoolManager.Cached (p : PageId) (f : frame_id_t) (b : PageData)
    (s : BufferPoolManager) : Prop :=
  s.page_table_ p = some f ∧
    ∃ pg : Page, s.pages_[f]? = some pg ∧ pg.data_ = b ∧
      (pg.is_dirty_ = true ∨ s.disk_manager_.content p = b)

/-- Page `p` is not resident, no frame holds its page id, and the disk holds the bytes
`b` under `p`. -/
def BufferPoolManager.Evicted (p : PageId) (b : PageData) (s : BufferPoolManager) : Prop :=
  s.page_table_ p = none ∧ s.disk_manager_.content p = b ∧
    ∀ (g : frame_id_t) (pg : Page), s.pages_[g]? = some pg → pg.id_ ≠ p

/-- A pool of one frame after `fetch_page(A)` and a caller writing the byte 7 everywhere
into the frame: page A is pinned once. -/
def Example.pool_written : BufferPoolManager :=
  (BufferPoolManager.create 1 Example.disk).run_or
    [Op.fetch_page Example.pageA, Op.write_data 0 (PageData.fill 7)]

/-- The pool `Example.pool_written` after `unpin_page(A, true)`, `fetch_page(B)`, which
evicts page A, and `unpin_page(B, false)`. -/
def Example.pool_evicted : BufferPoolManager :=
  Example.pool_dirty.run_or [Op.fetch_page Example.pageB, Op.unpin_page Example.pageB false]

/-- A pool of two frames after `fetch_page(A)`, `fetch_page(B)` and
`unpin_page(A, false)`: page B is pinned, page A is evictable. -/
def Example.pool_one_evictable : BufferPoolManager :=
  (BufferPoolManager.create 2 Example.disk).run_or
    [Op.fetch_page Example.pageA, Op.fetch_page Example.pageB,
     Op.unpin_page Example.pageA false]

/-! ### The frames written by `flush_all_pages` -/

/-- The condition under which the loop of `flush_all_pages(fd)` writes frame `g`: the
frame holds a page id with file handle `fd` and a valid page number. -/
def BufferPoolManager.flushed (s : BufferPoolManager) (fd : Int) (g : frame_id_t) : Bool :=
  match s.pages_[g]? with
  | some pg => decide (pg.id_.fd = fd ∧ pg.id_.page_no ≠ INVALID_PAGE_ID)
  | none => false

/-- The call `write_page` of the bytes of frame `g` addressed to the page id held by the
frame. -/
def BufferPoolManager.write_of (s : BufferPoolManager) (g : frame_id_t) : Option DiskCall :=
  (s.pages_[g]?).map (fun pg => DiskCall.write_page pg.id_.fd pg.id_.page_no pg.data_)

/-! ### The page table invariant without a valid allocation -/

/-- A weaker condition on the arguments of an operation in state `s`: a page id passed to
`fetch_page` has a valid page number, and the page number returned by `allocate_page` is
not the number of a page that is currently resident; nothing is required of the validity
of the number returned by `allocate_page`. -/
def Op.Assumed (s : BufferPoolManager) : Op → Prop
  | Op.fetch_page page_id => page_id.page_no ≠ INVALID_PAGE_ID
  | Op.new_page fd allocated => s.page_table_ { fd := fd, page_no := allocated } = none
  | _ => True

/-- A pool of one frame after a `new_page` for file 3 in which `allocate_page` returned
`INVALID_PAGE_ID`. -/
def Example.pool_invalid_allocation : BufferPoolManager :=
  (BufferPoolManager.create 1 Example.disk).run_or [Op.new_page 3 INVALID_PAGE_ID]

/-! ### The frames tracked by the replacer of the pool -/

/-- Frame `f` is resident with pin count 0: the page table maps the page id held by the
frame to the frame, and the pin count of the frame is 0. -/
def BufferPoolManager.evictable (s : BufferPoolManager) (f : frame_id_t) : Bool :=
  match s.pages_[f]? with
  | some pg => decide (s.page_table_ pg.id_ = some f ∧ pg.pin_count_ = 0)
  | none => false

/-- Every resident frame with pin count 0 is tracked by the replacer. -/
def BufferPoolManager.EvictableTracked (s : BufferPoolManager) : Prop :=
  ∀ (k : PageId) (f : frame_id_t) (pg : Page), s.page_table_ k = some f →
    s.pages_[f]? = some pg → pg.pin_count_ = 0 → f ∈ s.replacer_.tracked

/-- Every frame tracked by the replacer is resident or on the free list. -/
def BufferPoolManager.TrackedHeld (s : BufferPoolManager) : Prop :=
  ∀ f ∈ s.replacer_.tracked, (∃ k : PageId, s.page_table_ k = some f) ∨ f ∈ s.free_list_

/-- A pool of two frames after `fetch_page(A)`, `unpin_page(A, false)` and
`delete_page(A)`: frame 0 is back on the free list. -/
def Example.pool_deleted : BufferPoolManager :=
  (BufferPoolManager.create 2 Example.disk).run_or
    [Op.fetch_page Example.pageA, Op.unpin_page Example.pageA false,
     Op.delete_page Example.pageA]

/-! ### Operations of the pool when a call of the disk collaborator fails -/

/-- Modelled from the spec: the disk collaborator is declared outside the given sources;
its calls are synchronous and either succeed or raise an error, and an error aborts the
operation of the pool that issued the call.  The result of such an operation is the state
in which it returned together with the returned value, or the state in which the error
was raised. -/
inductive DiskOutcome (α : Type) where
  | returned (s : BufferPoolManager) (r : α)
  | raised (s : BufferPoolManager)

/-- The state in which the operation ended. -/
def DiskOutcome.state {α : Type} : DiskOutcome α → BufferPoolManager
  | DiskOutcome.returned s _ => s
  | DiskOutcome.raised s => s

/-- The member `BufferPoolManager::update_page` when the call of `write_page` succeeds
if `write_ok` and the call of `read_page` succeeds if `read_ok`; a failing call leaves the
disk as it is and raises an error at the statement that issues it. -/
def BufferPoolManager.update_page_faulty (s : BufferPoolManager) (page : frame_id_t)
    (new_page_id : PageId) (new_frame_id : frame_id_t) (write_ok read_ok : Bool) :
    Option (DiskOutcome Unit) :=
  match s.pages_[page]? with
  | none => none
  | some pg =>
    -- if (page->is_dirty()) { write_page; is_dirty_ = false; pin_count_ = 0; }
    if pg.is_dirty_ = true ∧ write_ok = false then some (DiskOutcome.raised s)
    else
      let disk1 := if pg.is_dirty_ then
          s.disk_manager_.write_page pg.id_.fd pg.id_.page_no pg.data_ else s.disk_manager_
      let pg1 : Page := if pg.is_dirty_ then { pg with is_dirty_ := false, pin_count_ := 0 } else pg
      -- page_table_.erase(page->id_); page_table_[new_page_id] = new_frame_id;
      let table1 := umap_set (umap_erase s.page_table_ pg1.id_) new_page_id new_frame_id
      -- page->reset_memory();
      let pages1 := s.pages_.set page pg1.reset_memory
      -- Page *newpage = pages_ + new_frame_id; newpage->id_ = ...; newpage->pin_count_ = 1;
      match pages1[new_frame_id]? with
      | none => none
      | some np =>
        let pages2 := pages1.set new_frame_id { np with id_ := new_page_id, pin_count_ := 1 }
        -- disk_manager_->read_page(new_page_id.fd, new_page_id.page_no, page->get_data(), PAGE_SIZE);
        if read_ok = false then
          some (DiskOutcome.raised
            { s with pages_ := pages2, page_table_ := table1, disk_manager_ := disk1 })
        else
          let rd := disk1.read_page new_page_id.fd new_page_id.page_no
          match pages2[page]? with
          | none => none
          | some pg2 =>
            let pages3 := pages2.set page { pg2 with data_ := rd.2 }
            -- replacer_->pin(new_frame_id);
            match s.replacer_.pin new_frame_id with
            | none => none
            | some r =>
              some (DiskOutcome.returned
                { s with pages_ := pages3, page_table_ := table1, replacer_ := r,
                         disk_manager_ := rd.1 } ())

/-- The member `BufferPoolManager::fetch_page` when the calls of the disk collaborator
can fail. -/
def BufferPoolManager.fetch_page_faulty (s : BufferPoolManager) (page_id : PageId)
    (write_ok read_ok : Bool) : Option (DiskOutcome (Option frame_id_t)) :=
  match s.page_table_ page_id with
  | some f =>
    match s.pages_[f]? with
    | none => none
    | some pg =>
      match (if pg.pin_count_ = 0 then s.replacer_.pin f else some s.replacer_) with
      | none => none
      | some r =>
        -- page->pin_count_++; incrementing an `int` that holds INT_MAX is undefined
        if pg.pin_count_ < INT_MAX then
          some (DiskOutcome.returned
            { s with replacer_ := r,
                     pages_ := s.pages_.set f { pg with pin_count_ := pg.pin_count_ + 1 } }
            (some f))
        else none
  | none =>
    match s.find_victim_page with
    | (s1, none) => some (DiskOutcome.returned s1 none)
    | (s1, some frameid) =>
      match s1.update_page_faulty frameid page_id frameid write_ok read_ok with
      | none => none
      | some (DiskOutcome.returned s2 _) => some (DiskOutcome.returned s2 (some frameid))
      | some (DiskOutcome.raised s2) => some (DiskOutcome.raised s2)

/-- The member `BufferPoolManager::flush_page` when the call of `write_page` can fail. -/
def BufferPoolManager.flush_page_faulty (s : BufferPoolManager) (page_id : PageId)
    (write_ok : Bool) : Option (DiskOutcome Bool) :=
  match s.page_table_ page_id with
  | none => some (DiskOutcome.returned s false)
  | some f =>
    match s.pages_[f]? with
    | none => none
    | some pg =>
      -- disk_manager_->write_page(...); page->is_dirty_ = false;
      if write_ok = false then some (DiskOutcome.raised s)
      else
        some (DiskOutcome.returned
          { s with
            disk_manager_ := s.disk_manager_.write_page pg.id_.fd pg.id_.page_no pg.data_,
            pages_ := s.pages_.set f { pg with is_dirty_ := false } }
          true)

/-- The member `BufferPoolManager::new_page` when the call of `write_page` can fail. -/
def BufferPoolManager.new_page_faulty (s : BufferPoolManager) (fd : Int) (allocated : Int)
    (write_ok : Bool) : Option (DiskOutcome (Option (frame_id_t × PageId))) :=
  match s.find_victim_page with
  | (s1, none) => some (DiskOutcome.returned s1 none)
  | (s1, some frameid) =>
    match s1.pages_[frameid]? with
    | none => none
    | some pg =>
      -- if (page->is_dirty()) { write_page; pin_count_ = 0; is_dirty_ = false; }
      if pg.is_dirty_ = true ∧ write_ok = false then some (DiskOutcome.raised s1)
      else
        let disk1 := if pg.is_dirty_ then
            s1.disk_manager_.write_page pg.id_.fd pg.id_.page_no pg.data_ else s1.disk_manager_
        let pg1 : Page := if pg.is_dirty_ then { pg with pin_count_ := 0, is_dirty_ := false } else pg
        let disk2 := disk1.allocate_page fd
        let page_id : PageId := { fd := fd, page_no := allocated }
        let pg2 := pg1.reset_memory
        let table1 := umap_set (umap_erase s1.page_table_ pg2.id_) page_id frameid
        let pg3 : Page := { pg2 with pin_count_ := 1, id_ := page_id }
        match s1.replacer_.pin frameid with
        | none => none
        | some r =>
          some (DiskOutcome.returned
            { s1 with pages_ := s1.pages_.set frameid pg3, page_table_ := table1,
                      replacer_ := r, disk_manager_ := disk2 }
            (some (frameid, page_id)))

/-! ### Concrete pools reached by calls with arguments that are not well formed -/

/-- The pool `Example.pool_one_pinned`, in which page A is pinned once, after one more
`fetch_page(A)` and one `unpin_page(A, false)`. -/
def Example.pool_rebalanced : BufferPoolManager :=
  Example.pool_one_pinned.run_or
    [Op.fetch_page Example.pageA, Op.unpin_page Example.pageA false]

/-- A pool of two frames after `fetch_page(A)`, a caller writing the byte 9 everywhere
into frame 0, a `new_page` for file 3 in which `allocate_page` returned 0, the page number
of the resident page A, and a caller writing the byte 7 everywhere into frame 1: both
frames hold the page id A and the page table maps A to frame 1. -/
def Example.pool_twice_allocated : BufferPoolManager :=
  (BufferPoolManager.create 2 Example.disk).run_or
    [Op.fetch_page Example.pageA, Op.write_data 0 (PageData.fill 9), Op.new_page 3 0,
     Op.write_data 1 (PageData.fill 7)]

/-- The pool `Example.pool_twice_allocated` after `unpin_page(A, true)`, `fetch_page(B)`,
which evicts frame 1, `flush_all_pages(3)` and `unpin_page(B, false)`. -/
def Example.pool_flushed_stale : BufferPoolManager :=
  Example.pool_twice_allocated.run_or
    [Op.unpin_page Example.pageA true, Op.fetch_page Example.pageB, Op.flush_all_pages 3,
     Op.unpin_page Example.pageB false]

/-- The pool `Example.pool_flushed_stale` after `fetch_page(A)`. -/
def Example.pool_refetched : BufferPoolManager :=
  Example.pool_flushed_stale.run_or [Op.fetch_page Example.pageA]

/-- A pool of one frame after `fetch_page` of the page id (3, `INVALID_PAGE_ID`). -/
def Example.pool_invalid_fetch : BufferPoolManager :=
  (BufferPoolManager.create 1 Example.disk).run_or
    [Op.fetch_page { fd := 3, page_no := INVALID_PAGE_ID }]

/-! ## Part II. Lemmas and theorems -/

/-! ### Maps and lists -/

theorem umap_erase_self {κ ν : Type} [DecidableEq κ] (m : κ → Option ν) (k : κ) :
    umap_erase m k k = none := by
  simp [umap_erase]

theorem umap_erase_ne {κ ν : Type} [DecidableEq κ] (m : κ → Option ν) (k x : κ) (h : x ≠ k) :
    umap_erase m k x = m x := by
  simp [umap_erase, h]

theorem umap_set_self {κ ν : Type} [DecidableEq κ] (m : κ → Option ν) (k : κ) (v : ν) :
    umap_set m k v k = some v := by
  simp [umap_set]

theorem umap_set_ne {κ ν : Type} [DecidableEq κ] (m : κ → Option ν) (k x : κ) (v : ν)
    (h : x ≠ k) : umap_set m k v x = m x := by
  simp [umap_set, h]

theorem list_split_last (l : List LRUNode) (b : LRUNode) (h : l.getLast? = some b) :
    l = l.dropLast ++ [b] :=
  (List.dropLast_append_getLast? b (by simp [h])).symm

theorem list_erase_eq_filter (l : List LRUNode) (it : Nat)
    (hnd : (l.map (fun n => n.iter)).Nodup) (hex : ∃ n ∈ l, n.iter = it) :
    list_erase l it = some (l.filter (fun n => !decide (n.iter = it))) := by
  induction l with
  | nil => simp at hex
  | cons a l ih =>
    simp only [List.map_cons, List.nodup_cons, List.mem_map, not_exists, not_and] at hnd
    by_cases ha : a.iter = it
    · have hfil : l.filter (fun n => !decide (n.iter = it)) = l := by
        apply List.filter_eq_self.2
        intro n hn
        have := hnd.1 n hn
        simp only [Bool.not_eq_eq_eq_not, Bool.not_true, decide_eq_false_iff_not]
        intro hc
        exact this (hc.trans ha.symm)
      simp [list_erase, ha, hfil]
    · have hex1 : ∃ n ∈ l, n.iter = it := by
        obtain ⟨n, hn, hit⟩ := hex
        rcases List.mem_cons.1 hn with rfl | hn
        · exact absurd hit ha
        · exact ⟨n, hn, hit⟩
      simp [list_erase, ha, ih hnd.2 hex1]

/-! ### The replacer: consistency of the list and the index -/

theorem LRUReplacer.create_consistent (n : Nat) : (LRUReplacer.create n).Consistent := by
  constructor <;> simp [LRUReplacer.create]

theorem LRUReplacer.mem_tracked_iff (r : LRUReplacer) (h : r.Consistent) (f : frame_id_t) :
    f ∈ r.tracked ↔ ∃ it, r.LRUhash_ f = some it := by
  constructor
  · intro hf
    obtain ⟨n, hn, rfl⟩ := List.mem_map.1 hf
    exact ⟨n.iter, (h.hash_iff n.frame n.iter).2 hn⟩
  · rintro ⟨it, hit⟩
    exact List.mem_map.2 ⟨_, (h.hash_iff f it).1 hit, rfl⟩

theorem LRUReplacer.hash_none_iff (r : LRUReplacer) (h : r.Consistent) (f : frame_id_t) :
    r.LRUhash_ f = none ↔ f ∉ r.tracked := by
  rw [LRUReplacer.mem_tracked_iff r h]
  cases r.LRUhash_ f <;> simp

theorem LRUReplacer.node_eq_of_iter (r : LRUReplacer) (h : r.Consistent) (a b : LRUNode)
    (ha : a ∈ r.LRUlist_) (hb : b ∈ r.LRUlist_) (hab : a.iter = b.iter) : a = b :=
  List.inj_on_of_nodup_map h.iter_nodup ha hb hab

theorem LRUReplacer.node_eq_of_frame (r : LRUReplacer) (h : r.Consistent) (a b : LRUNode)
    (ha : a ∈ r.LRUlist_) (hb : b ∈ r.LRUlist_) (hab : a.frame = b.frame) : a = b :=
  List.inj_on_of_nodup_map h.frame_nodup ha hb hab

/-- Dropping the back element of the list and erasing its frame from the index keeps the
replacer consistent. -/
theorem LRUReplacer.consistent_drop_back (r : LRUReplacer) (h : r.Consistent) (b : LRUNode)
    (hb : r.LRUlist_.getLast? = some b) :
    ({ r with LRUlist_ := r.LRUlist_.dropLast,
              LRUhash_ := umap_erase r.LRUhash_ b.frame } : LRUReplacer).Consistent := by
  have hsplit := list_split_last r.LRUlist_ b hb
  have hsub : r.LRUlist_.dropLast.Sublist r.LRUlist_ := List.dropLast_sublist _
  have hfn := h.frame_nodup
  rw [hsplit, List.map_append, List.nodup_append] at hfn
  refine ⟨h.iter_nodup.sublist (hsub.map _), h.frame_nodup.sublist (hsub.map _),
    fun n hn => h.iter_lt n (hsub.subset hn), ?_⟩
  intro f it
  show umap_erase r.LRUhash_ b.frame f = some it ↔ _ ∈ r.LRUlist_.dropLast
  by_cases hf : f = b.frame
  · subst hf
    rw [umap_erase_self]
    constructor
    · intro hc; cases hc
    · intro hmem
      exfalso
      exact hfn.2.2 (List.mem_map.2 ⟨_, hmem, rfl⟩) (by simp)
  · rw [umap_erase_ne _ _ _ hf, h.hash_iff f it]
    constructor
    · intro hmem
      rw [hsplit, List.mem_append] at hmem
      rcases hmem with hmem | hmem
      · exact hmem
      · exfalso
        rw [List.mem_singleton] at hmem
        exact hf (by rw [← hmem])
    · intro hmem
      exact hsub.subset hmem

theorem LRUReplacer.tracked_dropLast (l : List LRUNode) :
    (l.dropLast).map (fun n => n.frame) = (l.map (fun n => n.frame)).dropLast := by
  simp [List.dropLast_eq_take, List.map_take]

theorem LRUReplacer.victim_spec (r : LRUReplacer) (h : r.Consistent) :
    r.victim.1.Consistent ∧ r.victim.2 = r.tracked.getLast? ∧
      r.victim.1.tracked = r.tracked.dropLast ∧ r.victim.1.max_size_ = r.max_size_ := by
  unfold LRUReplacer.victim
  cases hb : r.LRUlist_.getLast? with
  | none =>
    have hnil : r.LRUlist_ = [] := List.getLast?_eq_none_iff.1 hb
    simp [LRUReplacer.tracked, hnil, h]
  | some b =>
    refine ⟨LRUReplacer.consistent_drop_back r h b hb, ?_, ?_, rfl⟩
    · simp [LRUReplacer.tracked, List.getLast?_map, hb]
    · simp [LRUReplacer.tracked, LRUReplacer.tracked_dropLast]

theorem LRUReplacer.victim_none (r : LRUReplacer) (h : r.LRUlist_ = []) :
    r.victim = (r, none) := by
  simp [LRUReplacer.victim, h]

theorem LRUReplacer.pin_untracked (r : LRUReplacer) (f : frame_id_t)
    (h : r.LRUhash_ f = none) : r.pin f = some r := by
  simp [LRUReplacer.pin, h]

theorem LRUReplacer.pin_spec (r : LRUReplacer) (h : r.Consistent) (f : frame_id_t) :
    ∃ r1, r.pin f = some r1 ∧ r1.Consistent ∧
      r1.tracked = r.tracked.filter (fun g => !decide (g = f)) ∧
      r1.max_size_ = r.max_size_ := by
  cases hf : r.LRUhash_ f with
  | none =>
    refine ⟨r, LRUReplacer.pin_untracked r f hf, h, ?_, rfl⟩
    have hnot := (LRUReplacer.hash_none_iff r h f).1 hf
    symm
    apply List.filter_eq_self.2
    intro g hg
    simp only [Bool.not_eq_eq_eq_not, Bool.not_true, decide_eq_false_iff_not]
    rintro rfl
    exact hnot hg
  | some it =>
    have hmem := (h.hash_iff f it).1 hf
    have herase := list_erase_eq_filter r.LRUlist_ it h.iter_nodup ⟨_, hmem, rfl⟩
    have hcongr : r.LRUlist_.filter (fun n => !decide (n.iter = it)) =
        r.LRUlist_.filter (fun n => !decide (n.frame = f)) := by
      apply List.filter_congr
      intro n hn
      have hiff : n.iter = it ↔ n.frame = f := by
        constructor
        · intro hi
          have := LRUReplacer.node_eq_of_iter r h n _ hn hmem hi
          rw [this]
        · intro hfr
          have := LRUReplacer.node_eq_of_frame r h n _ hn hmem hfr
          rw [this]
      simp [hiff]
    have hsub : (r.LRUlist_.filter (fun n => !decide (n.frame = f))).Sublist r.LRUlist_ :=
      List.filter_sublist _
    refine ⟨{ r with LRUlist_ := r.LRUlist_.filter (fun n => !decide (n.frame = f)),
                     LRUhash_ := umap_erase r.LRUhash_ f }, ?_, ?_, ?_, rfl⟩
    · simp [LRUReplacer.pin, hf, herase, hcongr]
    · refine ⟨h.iter_nodup.sublist (hsub.map _), h.frame_nodup.sublist (hsub.map _),
        fun n hn => h.iter_lt n (hsub.subset hn), ?_⟩
      intro g it1
      show umap_erase r.LRUhash_ f g = some it1 ↔
        _ ∈ r.LRUlist_.filter (fun n => !decide (n.frame = f))
      by_cases hg : g = f
      · subst hg
        simp [umap_erase_self]
      · rw [umap_erase_ne _ _ _ hg, h.hash_iff g it1]
        simp [List.mem_filter, hg]
    · simp [LRUReplacer.tracked, List.filter_map, Function.comp_def]

theorem LRUReplacer.push_front_consistent (r : LRUReplacer) (h : r.Consistent) (f : frame_id_t)
    (hf : f ∉ r.tracked) : (r.push_front f).Consistent := by
  refine ⟨?_, ?_, ?_, ?_⟩
  · simp only [LRUReplacer.push_front, List.map_cons, List.nodup_cons, List.mem_map, not_exists,
      not_and]
    refine ⟨fun n hn hc => ?_, h.iter_nodup⟩
    have := h.iter_lt n hn
    omega
  · simp only [LRUReplacer.push_front, List.map_cons, List.nodup_cons]
    exact ⟨hf, h.frame_nodup⟩
  · intro n hn
    simp only [LRUReplacer.push_front, List.mem_cons] at hn ⊢
    rcases hn with rfl | hn
    · simp
    · have := h.iter_lt n hn
      omega
  · intro g it
    show umap_set r.LRUhash_ f r.next_iter_ g = some it ↔ _ ∈ _ :: r.LRUlist_
    by_cases hg : g = f
    · subst hg
      rw [umap_set_self, List.mem_cons]
      constructor
      · intro hc
        left
        cases hc
        rfl
      · rintro (hc | hc)
        · cases hc
          rfl
        · exact absurd (List.mem_map.2 ⟨_, hc, rfl⟩) hf
    · rw [umap_set_ne _ _ _ _ hg, h.hash_iff g it, List.mem_cons]
      constructor
      · intro hc
        exact Or.inr hc
      · rintro (hc | hc)
        · cases hc
          exact absurd rfl hg
        · exact hc

theorem LRUReplacer.unpin_tracked (r : LRUReplacer) (h : r.Consistent) (f : frame_id_t)
    (hf : f ∈ r.tracked) : r.unpin f = some r := by
  obtain ⟨it, hit⟩ := (LRUReplacer.mem_tracked_iff r h f).1 hf
  simp [LRUReplacer.unpin, hit]

theorem LRUReplacer.unpin_spec (r : LRUReplacer) (h : r.Consistent) (f : frame_id_t)
    (hf : f ∉ r.tracked) (hcap : r.LRUlist_.length = r.max_size_ → r.max_size_ ≠ 0) :
    ∃ r1, r.unpin f = some r1 ∧ r1.Consistent ∧ r1.max_size_ = r.max_size_ ∧
      r1.tracked = f :: (if r.LRUlist_.length = r.max_size_ then r.tracked.dropLast
        else r.tracked) := by
  have hnone := (LRUReplacer.hash_none_iff r h f).2 hf
  by_cases hfull : r.LRUlist_.length = r.max_size_
  · cases hb : r.LRUlist_.getLast? with
    | none =>
      exfalso
      have hnil : r.LRUlist_ = [] := List.getLast?_eq_none_iff.1 hb
      apply hcap hfull
      rw [← hfull, hnil]
      rfl
    | some b =>
      have hc1 := LRUReplacer.consistent_drop_back r h b hb
      have hf1 : f ∉ LRUReplacer.tracked { r with
          LRUlist_ := r.LRUlist_.dropLast, LRUhash_ := umap_erase r.LRUhash_ b.frame } := by
        intro hc
        apply hf
        simp only [LRUReplacer.tracked] at hc ⊢
        exact ((List.dropLast_sublist _).map _).subset hc
      refine ⟨_, ?_, LRUReplacer.push_front_consistent _ hc1 f hf1, rfl, ?_⟩
      · simp [LRUReplacer.unpin, hnone, hfull, hb]
      · simp [LRUReplacer.tracked, LRUReplacer.push_front, hfull,
          LRUReplacer.tracked_dropLast]
  · refine ⟨_, ?_, LRUReplacer.push_front_consistent r h f hf, rfl, ?_⟩
    · simp [LRUReplacer.unpin, hnone, hfull]
    · simp [LRUReplacer.tracked, LRUReplacer.push_front, hfull]

/-! ### The replacer: reachable states and sequences of calls -/

theorem LRUReplacer.unpin_defined_cap (r r1 : LRUReplacer) (f : frame_id_t)
    (hnone : r.LRUhash_ f = none) (hun : r.unpin f = some r1) :
    r.LRUlist_.length = r.max_size_ → r.max_size_ ≠ 0 := by
  intro hfull hzero
  have hnil : r.LRUlist_ = [] := List.length_eq_zero.1 (hfull.trans hzero)
  simp [LRUReplacer.unpin, hnone, hnil] at hun
  exact hun.1 hzero.symm

theorem LRUReplacer.reachable_consistent (r : LRUReplacer) (h : r.Reachable) : r.Consistent := by
  induction h with
  | create n => exact LRUReplacer.create_consistent n
  | victim r _ ih => exact (LRUReplacer.victim_spec r ih).1
  | pin r r1 f _ hpin ih =>
    obtain ⟨r2, h2, hc, _⟩ := LRUReplacer.pin_spec r ih f
    rw [hpin] at h2
    cases h2
    exact hc
  | unpin r r1 f _ hun ih =>
    by_cases hf : f ∈ r.tracked
    · rw [LRUReplacer.unpin_tracked r ih f hf] at hun
      cases hun
      exact ih
    · have hnone := (LRUReplacer.hash_none_iff r ih f).2 hf
      obtain ⟨r2, h2, hc, _⟩ := LRUReplacer.unpin_spec r ih f hf
        (LRUReplacer.unpin_defined_cap r r1 f hnone hun)
      rw [hun] at h2
      cases h2
      exact hc

theorem LRUReplacer.size_eq_tracked_length (r : LRUReplacer) : r.Size = r.tracked.length := by
  simp [LRUReplacer.Size, LRUReplacer.tracked]

theorem LRUReplacer.unpin_all_spec (fs : List frame_id_t) :
    ∀ (r : LRUReplacer), r.Consistent → fs.Nodup → (∀ f ∈ fs, f ∉ r.tracked) →
      r.tracked.length + fs.length ≤ r.max_size_ →
      ∃ r1, r.unpin_all fs = some r1 ∧ r1.Consistent ∧ r1.max_size_ = r.max_size_ ∧
        r1.tracked = fs.reverse ++ r.tracked := by
  induction fs with
  | nil =>
    intro r hc _ _ _
    exact ⟨r, rfl, hc, rfl, by simp⟩
  | cons f fs ih =>
    intro r hc hnd hdisj hlen
    have hf : f ∉ r.tracked := hdisj f (List.mem_cons_self _ _)
    have hlt : r.LRUlist_.length ≠ r.max_size_ := by
      have : r.LRUlist_.length = r.tracked.length := by simp [LRUReplacer.tracked]
      simp only [List.length_cons] at hlen
      omega
    obtain ⟨r1, h1, hc1, hm1, ht1⟩ := LRUReplacer.unpin_spec r hc f hf (fun h => absurd h hlt)
    rw [if_neg hlt] at ht1
    rw [List.nodup_cons] at hnd
    have hdisj1 : ∀ g ∈ fs, g ∉ r1.tracked := by
      intro g hg hmem
      rw [ht1, List.mem_cons] at hmem
      rcases hmem with rfl | hmem
      · exact hnd.1 hg
      · exact hdisj g (List.mem_cons_of_mem _ hg) hmem
    have hlen1 : r1.tracked.length + fs.length ≤ r1.max_size_ := by
      rw [ht1, hm1]
      simp only [List.length_cons] at hlen ⊢
      omega
    obtain ⟨r2, h2, hc2, hm2, ht2⟩ := ih r1 hc1 hnd.2 hdisj1 hlen1
    refine ⟨r2, ?_, hc2, hm2.trans hm1, ?_⟩
    · simp [LRUReplacer.unpin_all, h1, h2]
    · rw [ht2, ht1]
      simp

theorem LRUReplacer.victim_times_spec (k : Nat) :
    ∀ (r : LRUReplacer), r.Consistent → r.tracked.length = k →
      (r.victim_times (k + 1)).1.map Prod.fst = r.tracked.reverse.map some ++ [none] ∧
      (r.victim_times (k + 1)).1.map Prod.snd = (List.range k).reverse ++ [0] := by
  induction k with
  | zero =>
    intro r _ hlen
    have hnil : r.LRUlist_ = [] := by
      have : r.LRUlist_.length = 0 := by simpa [LRUReplacer.tracked] using hlen
      exact List.length_eq_zero.1 this
    simp [LRUReplacer.victim_times, LRUReplacer.victim_none r hnil, LRUReplacer.tracked, hnil,
      LRUReplacer.Size]
  | succ k ih =>
    intro r hc hlen
    obtain ⟨hc1, hres, htr, _⟩ := LRUReplacer.victim_spec r hc
    have hlen1 : r.victim.1.tracked.length = k := by
      rw [htr, List.length_dropLast, hlen]
      rfl
    obtain ⟨ih1, ih2⟩ := ih r.victim.1 hc1 hlen1
    have hne : r.tracked ≠ [] := by
      intro hnil
      rw [hnil] at hlen
      cases hlen
    have hsplit : r.tracked = r.tracked.dropLast ++ [r.tracked.getLast hne] :=
      (List.dropLast_append_getLast hne).symm
    have hlast : r.tracked.getLast? = some (r.tracked.getLast hne) :=
      List.getLast?_eq_getLast _ hne
    constructor
    · show (r.victim.2 :: (r.victim.1.victim_times (k + 1)).1.map Prod.fst) = _
      rw [ih1, hres, htr, hlast]
      conv_rhs => rw [hsplit]
      simp
    · show (r.victim.1.Size :: (r.victim.1.victim_times (k + 1)).1.map Prod.snd) = _
      rw [ih2, LRUReplacer.size_eq_tracked_length, hlen1, List.range_succ]
      simp

theorem LRUReplacer.victim_times_tracked (j : Nat) :
    ∀ (r : LRUReplacer), r.Consistent →
      (r.victim_times j).2.tracked = (r.tracked.reverse.drop j).reverse := by
  induction j with
  | zero =>
    intro r _
    simp [LRUReplacer.victim_times]
  | succ j ih =>
    intro r hc
    obtain ⟨hc1, _, htr, _⟩ := LRUReplacer.victim_spec r hc
    show (r.victim.1.victim_times j).2.tracked = _
    rw [ih r.victim.1 hc1, htr]
    rw [← List.tail_reverse, ← List.drop_one, List.drop_drop, Nat.add_comm]

theorem LRUReplacer.unpin_twice (r r1 : LRUReplacer) (f : frame_id_t)
    (h : r.unpin f = some r1) : r1.unpin f = some r1 := by
  cases hh : r.LRUhash_ f with
  | some it =>
    have : r.unpin f = some r := by simp [LRUReplacer.unpin, hh]
    rw [this] at h
    cases h
    exact this
  | none =>
    have hset : r1.LRUhash_ f = some r.next_iter_ := by
      by_cases hfull : r.LRUlist_.length = r.max_size_
      · cases hb : r.LRUlist_.getLast? with
        | none => simp [LRUReplacer.unpin, hh, hfull, hb] at h
        | some b =>
          simp only [LRUReplacer.unpin, hh, hfull, hb, if_true, Option.some.injEq] at h
          rw [← h]
          simp [LRUReplacer.push_front, umap_set]
      · simp only [LRUReplacer.unpin, hh, hfull, if_false, Option.some.injEq] at h
        rw [← h]
        simp [LRUReplacer.push_front, umap_set]
    simp [LRUReplacer.unpin, hset]

theorem LRUReplacer.pin_twice (r r1 : LRUReplacer) (f : frame_id_t)
    (h : r.pin f = some r1) : r1.pin f = some r1 := by
  apply LRUReplacer.pin_untracked
  cases hh : r.LRUhash_ f with
  | none =>
    rw [LRUReplacer.pin_untracked r f hh] at h
    cases h
    exact hh
  | some it =>
    cases he : list_erase r.LRUlist_ it with
    | none => simp [LRUReplacer.pin, hh, he] at h
    | some l =>
      simp only [LRUReplacer.pin, hh, he, Option.some.injEq] at h
      rw [← h]
      simp [umap_erase]

theorem filter_ne_length (l : List frame_id_t) (f : frame_id_t) (hnd : l.Nodup) (hf : f ∈ l) :
    (l.filter (fun g => !decide (g = f))).length + 1 = l.length := by
  have h1 : l.filter (fun g => !decide (g = f)) = l.erase f := by
    rw [hnd.erase_eq_filter f]
    apply List.filter_congr
    intro g _
    by_cases hg : g = f <;> simp [hg]
  rw [h1, List.length_erase_of_mem hf]
  have : 0 < l.length := List.length_pos_of_mem hf
  omega

/-! ### The frame array -/

theorem pages_get_of_lt (s : BufferPoolManager) (h : s.pages_.length = s.pool_size_)
    (f : frame_id_t) (hf : f < s.pool_size_) : ∃ pg, s.pages_[f]? = some pg := by
  have hlt : f < s.pages_.length := by rw [h]; exact hf
  exact ⟨s.pages_[f], List.getElem?_eq_getElem hlt⟩

theorem pages_lt_of_get (l : List Page) (f : Nat) (pg : Page) (h : l[f]? = some pg) :
    f < l.length := by
  obtain ⟨hlt, _⟩ := List.getElem?_eq_some_iff.1 h
  exact hlt

theorem pages_set_self (l : List Page) (f : Nat) (pg a : Page) (h : l[f]? = some pg) :
    (l.set f a)[f]? = some a :=
  List.getElem?_set_self (pages_lt_of_get l f pg h)

theorem pages_set_get (l : List Page) (f g : Nat) (pg a b : Page) (h : l[f]? = some pg)
    (hg : (l.set f a)[g]? = some b) : (g = f ∧ b = a) ∨ (g ≠ f ∧ l[g]? = some b) := by
  by_cases hgf : g = f
  · subst hgf
    rw [pages_set_self l g pg a h] at hg
    cases hg
    exact Or.inl ⟨rfl, rfl⟩
  · rw [List.getElem?_set_ne (Ne.symm hgf)] at hg
    exact Or.inr ⟨hgf, hg⟩

theorem BufferPoolManager.update_page_same (s : BufferPoolManager) (f : frame_id_t)
    (pid : PageId) (pg : Page) (r : LRUReplacer) (hpg : s.pages_[f]? = some pg)
    (hpin : s.replacer_.pin f = some r) :
    s.update_page f pid f = some { s with
      pages_ := s.pages_.set f
        { id_ := pid,
          data_ := (if pg.is_dirty_ then
              s.disk_manager_.write_page pg.id_.fd pg.id_.page_no pg.data_
            else s.disk_manager_).content pid,
          is_dirty_ := false, pin_count_ := 1 },
      page_table_ := umap_set (umap_erase s.page_table_ pg.id_) pid f,
      replacer_ := r,
      disk_manager_ := ((if pg.is_dirty_ then
              s.disk_manager_.write_page pg.id_.fd pg.id_.page_no pg.data_
            else s.disk_manager_).read_page pid.fd pid.page_no).1 } := by
  have hlt := pages_lt_of_get _ _ _ hpg
  cases hd : pg.is_dirty_ <;>
    simp [BufferPoolManager.update_page, hpg, hpin, hd, hlt, Page.reset_memory,
      DiskManager.read_page]

/-! ### The invariant of the pool and its preservation -/

theorem BufferPoolManager.initial_inv (s : BufferPoolManager) (h : s.Initial) : s.Inv := by
  have hfresh : ∀ (f : frame_id_t) (pg : Page), s.pages_[f]? = some pg → pg.pin_count_ = 0 :=
    fun f pg hpg => h.pages_unpinned pg (List.mem_iff_getElem?.2 ⟨f, hpg⟩)
  refine ⟨h.pages_length, ?_, ?_, ?_, ?_, ?_, ?_, ?_, ?_, ?_, ?_, ?_⟩
  · rw [h.replacer_empty]; rfl
  · rw [h.replacer_empty]; exact LRUReplacer.create_consistent _
  · intro f hf
    rw [h.free_all] at hf
    exact List.mem_range.1 hf
  · rw [h.free_all]; exact List.nodup_range _
  · intro f _ pg hpg
    exact hfresh f pg hpg
  · intro f _ k
    rw [h.table_empty]
    simp
  · intro f hf
    rw [h.replacer_empty] at hf
    simp [LRUReplacer.tracked, LRUReplacer.create] at hf
  · intro f hf
    rw [h.replacer_empty] at hf
    simp [LRUReplacer.tracked, LRUReplacer.create] at hf
  · intro k f hk
    rw [h.table_empty] at hk
    cases hk
  · intro k f pg hk
    rw [h.table_empty] at hk
    cases hk
  · intro f pg hpg
    rw [hfresh f pg hpg]

theorem BufferPoolManager.create_initial (n : Nat) (d : DiskManager) :
    (BufferPoolManager.create n d).Initial := by
  refine ⟨by simp [BufferPoolManager.create], ?_, rfl, rfl, rfl⟩
  intro pg hpg
  simp only [BufferPoolManager.create] at hpg
  rw [List.eq_of_mem_replicate hpg]

theorem BufferPoolManager.create_fresh (n : Nat) (d : DiskManager) :
    (BufferPoolManager.create n d).Fresh := by
  refine ⟨BufferPoolManager.create_initial n d, ?_⟩
  intro pg hpg
  simp only [BufferPoolManager.create] at hpg
  rw [List.eq_of_mem_replicate hpg]

/-- Changing only the content and the dirty flag of frames keeps the invariant. -/
theorem BufferPoolManager.Inv.transfer (s s1 : BufferPoolManager) (h : s.Inv)
    (hps : s1.pool_size_ = s.pool_size_) (ht : s1.page_table_ = s.page_table_)
    (hfl : s1.free_list_ = s.free_list_) (hr : s1.replacer_ = s.replacer_)
    (hlen : s1.pages_.length = s.pages_.length)
    (hpages : ∀ (f : frame_id_t) (pg1 : Page), s1.pages_[f]? = some pg1 →
      ∃ pg, s.pages_[f]? = some pg ∧ pg.id_ = pg1.id_ ∧ pg.pin_count_ = pg1.pin_count_) :
    s1.Inv := by
  refine ⟨?_, ?_, ?_, ?_, ?_, ?_, ?_, ?_, ?_, ?_, ?_, ?_⟩
  · rw [hlen, hps]; exact h.pages_length
  · rw [hr, hps]; exact h.replacer_size
  · rw [hr]; exact h.replacer_ok
  · rw [hfl, hps]; exact h.free_lt
  · rw [hfl]; exact h.free_nodup
  · intro f hf pg1 hpg1
    rw [hfl] at hf
    obtain ⟨pg, hpg, _, hpin⟩ := hpages f pg1 hpg1
    rw [← hpin]
    exact h.free_unpinned f hf pg hpg
  · intro f hf k
    rw [hfl] at hf
    rw [ht]
    exact h.free_unmapped f hf k
  · rw [hr, hps]; exact h.tracked_lt
  · intro f hf pg1 hpg1
    rw [hr] at hf
    obtain ⟨pg, hpg, _, hpin⟩ := hpages f pg1 hpg1
    rw [← hpin]
    exact h.tracked_unpinned f hf pg hpg
  · rw [ht, hps]; exact h.table_lt
  · intro k f pg1 hk hpg1
    rw [ht] at hk
    obtain ⟨pg, hpg, hid, _⟩ := hpages f pg1 hpg1
    rw [← hid]
    exact h.table_id k f pg hk hpg
  · intro f pg1 hpg1
    obtain ⟨pg, hpg, _, hpin⟩ := hpages f pg1 hpg1
    rw [← hpin]
    exact h.pin_nonneg f pg hpg

/-- Overwriting one frame by a frame with the same page id and pin count. -/
theorem pages_set_same_meta (l : List Page) (f : frame_id_t) (pg a : Page)
    (hpg : l[f]? = some pg) (hid : a.id_ = pg.id_) (hpin : a.pin_count_ = pg.pin_count_) :
    ∀ (g : frame_id_t) (pg1 : Page), (l.set f a)[g]? = some pg1 →
      ∃ pg0, l[g]? = some pg0 ∧ pg0.id_ = pg1.id_ ∧ pg0.pin_count_ = pg1.pin_count_ := by
  intro g pg1 hg
  rcases pages_set_get l f g pg a pg1 hpg hg with ⟨rfl, rfl⟩ | ⟨_, h1⟩
  · exact ⟨pg, hpg, hid.symm, hpin.symm⟩
  · exact ⟨pg1, h1, rfl, rfl⟩

theorem BufferPoolManager.write_data_inv (s s1 : BufferPoolManager) (h : s.Inv)
    (f : frame_id_t) (data : PageData) (hs : s.write_data f data = some s1) : s1.Inv := by
  unfold BufferPoolManager.write_data at hs
  cases hpg : s.pages_[f]? with
  | none => simp [hpg] at hs
  | some pg =>
    simp only [hpg, Option.some.injEq] at hs
    subst hs
    exact BufferPoolManager.Inv.transfer s _ h rfl rfl rfl rfl (by simp)
      (pages_set_same_meta _ f pg _ hpg rfl rfl)

theorem BufferPoolManager.flush_page_inv (s s1 : BufferPoolManager) (h : s.Inv)
    (pid : PageId) (b : Bool) (hs : s.flush_page pid = some (s1, b)) : s1.Inv := by
  unfold BufferPoolManager.flush_page at hs
  cases hk : s.page_table_ pid with
  | none =>
    simp only [hk, Option.some.injEq, Prod.mk.injEq] at hs
    rw [← hs.1]
    exact h
  | some f =>
    cases hpg : s.pages_[f]? with
    | none => simp [hk, hpg] at hs
    | some pg =>
      simp only [hk, hpg, Option.some.injEq, Prod.mk.injEq] at hs
      rw [← hs.1]
      exact BufferPoolManager.Inv.transfer s _ h rfl rfl rfl rfl (by simp)
        (pages_set_same_meta _ f pg _ hpg rfl rfl)

theorem BufferPoolManager.flush_all_pages_body_inv (fd : Int) (s s1 : BufferPoolManager)
    (h : s.Inv) (i : Nat) (hs : BufferPoolManager.flush_all_pages_body fd s i = some s1) :
    s1.Inv := by
  unfold BufferPoolManager.flush_all_pages_body at hs
  cases hpg : s.pages_[i]? with
  | none => simp [hpg] at hs
  | some pg =>
    simp only [hpg] at hs
    split at hs
    · simp only [Option.some.injEq] at hs
      rw [← hs]
      exact BufferPoolManager.Inv.transfer s _ h rfl rfl rfl rfl (by simp)
        (pages_set_same_meta _ i pg _ hpg rfl rfl)
    · simp only [Option.some.injEq] at hs
      rw [← hs]
      exact h

theorem BufferPoolManager.flush_all_pages_loop_inv (fd : Int) (is : List Nat) :
    ∀ (s s1 : BufferPoolManager), s.Inv →
      BufferPoolManager.flush_all_pages_loop fd s is = some s1 → s1.Inv := by
  induction is with
  | nil =>
    intro s s1 h hs
    simp only [BufferPoolManager.flush_all_pages_loop, Option.some.injEq] at hs
    rw [← hs]
    exact h
  | cons i is ih =>
    intro s s1 h hs
    simp only [BufferPoolManager.flush_all_pages_loop] at hs
    cases hb : BufferPoolManager.flush_all_pages_body fd s i with
    | none => simp [hb] at hs
    | some s2 =>
      simp only [hb] at hs
      exact ih s2 s1 (BufferPoolManager.flush_all_pages_body_inv fd s s2 h i hb) hs

/-- A frame that some page table entry maps to is a frame of the pool. -/
theorem BufferPoolManager.Inv.table_get (s : BufferPoolManager) (h : s.Inv) (k : PageId)
    (f : frame_id_t) (hk : s.page_table_ k = some f) :
    ∃ pg, s.pages_[f]? = some pg ∧ pg.id_ = k := by
  obtain ⟨pg, hpg⟩ := pages_get_of_lt s h.pages_length f (h.table_lt k f hk)
  exact ⟨pg, hpg, h.table_id k f pg hk hpg⟩

theorem BufferPoolManager.Inv.table_not_free (s : BufferPoolManager) (h : s.Inv) (k : PageId)
    (f : frame_id_t) (hk : s.page_table_ k = some f) : f ∉ s.free_list_ :=
  fun hf => h.free_unmapped f hf k hk

/-- The explicit result of a successful `unpin_page`. -/
theorem BufferPoolManager.unpin_page_eq (s : BufferPoolManager) (pid : PageId) (d : Bool)
    (f : frame_id_t) (pg : Page) (r : LRUReplacer) (hk : s.page_table_ pid = some f)
    (hpg : s.pages_[f]? = some pg) (hpos : 0 < pg.pin_count_)
    (hr : (if pg.pin_count_ - 1 = 0 then s.replacer_.unpin f else some s.replacer_) = some r) :
    s.unpin_page pid d = some ({ s with
        replacer_ := r,
        pages_ := s.pages_.set f { pg with pin_count_ := pg.pin_count_ - 1, is_dirty_ := d } },
      true) := by
  have hnot : ¬ pg.pin_count_ ≤ 0 := by omega
  simp only [BufferPoolManager.unpin_page, hk, hpg, hnot, if_false, hr]

theorem BufferPoolManager.unpin_page_fail (s : BufferPoolManager) (pid : PageId) (d : Bool)
    (f : frame_id_t) (pg : Page) (hk : s.page_table_ pid = some f)
    (hpg : s.pages_[f]? = some pg) (hpos : pg.pin_count_ ≤ 0) :
    s.unpin_page pid d = some (s, false) := by
  simp only [BufferPoolManager.unpin_page, hk, hpg, hpos, if_true]

theorem BufferPoolManager.unpin_page_absent (s : BufferPoolManager) (pid : PageId) (d : Bool)
    (hk : s.page_table_ pid = none) : s.unpin_page pid d = some (s, false) := by
  simp only [BufferPoolManager.unpin_page, hk]

/-- In a state satisfying the invariant the replacer call of `unpin_page` is defined. -/
theorem BufferPoolManager.Inv.unpin_replacer (s : BufferPoolManager) (h : s.Inv)
    (f : frame_id_t) (pg : Page) (hlt : f < s.pool_size_) (hpg : s.pages_[f]? = some pg)
    (hpos : 0 < pg.pin_count_) :
    ∃ r, (if pg.pin_count_ - 1 = 0 then s.replacer_.unpin f else some s.replacer_) = some r ∧
      r.Consistent ∧ r.max_size_ = s.replacer_.max_size_ ∧
      (pg.pin_count_ = 1 → r.tracked = f ::
        (if s.replacer_.LRUlist_.length = s.replacer_.max_size_
          then s.replacer_.tracked.dropLast else s.replacer_.tracked)) ∧
      (pg.pin_count_ ≠ 1 → r = s.replacer_) := by
  have hnt : f ∉ s.replacer_.tracked := by
    intro hf
    have := h.tracked_unpinned f hf pg hpg
    omega
  by_cases h1 : pg.pin_count_ - 1 = 0
  · have hcap : s.replacer_.LRUlist_.length = s.replacer_.max_size_ →
        s.replacer_.max_size_ ≠ 0 := by
      intro _ hz
      rw [h.replacer_size] at hz
      rw [hz] at hlt
      exact Nat.not_lt_zero _ hlt
    obtain ⟨r, hun, hc, hm, ht⟩ := LRUReplacer.unpin_spec s.replacer_ h.replacer_ok f hnt hcap
    refine ⟨r, by rw [if_pos h1]; exact hun, hc, hm, fun _ => ht, fun hne => ?_⟩
    exfalso; omega
  · refine ⟨s.replacer_, by rw [if_neg h1], h.replacer_ok, rfl, fun he => ?_, fun _ => rfl⟩
    exfalso; omega

theorem BufferPoolManager.unpin_page_inv (s s1 : BufferPoolManager) (h : s.Inv)
    (pid : PageId) (d b : Bool) (hs : s.unpin_page pid d = some (s1, b)) : s1.Inv := by
  cases hk : s.page_table_ pid with
  | none =>
    rw [BufferPoolManager.unpin_page_absent s pid d hk] at hs
    cases hs
    exact h
  | some f =>
    obtain ⟨pg, hpg, hid⟩ := h.table_get s pid f hk
    have hlt := h.table_lt pid f hk
    by_cases hpos : pg.pin_count_ ≤ 0
    · rw [BufferPoolManager.unpin_page_fail s pid d f pg hk hpg hpos] at hs
      cases hs
      exact h
    · have hpos1 : 0 < pg.pin_count_ := by omega
      obtain ⟨r, hr, hc, hm, ht1, ht2⟩ := h.unpin_replacer s f pg hlt hpg hpos1
      rw [BufferPoolManager.unpin_page_eq s pid d f pg r hk hpg hpos1 hr] at hs
      cases hs
      have hfree : f ∉ s.free_list_ := h.table_not_free s pid f hk
      have htr : ∀ g ∈ r.tracked, g ∈ s.replacer_.tracked ∨ (g = f ∧ pg.pin_count_ = 1) := by
        intro g hg
        by_cases he : pg.pin_count_ = 1
        · rw [ht1 he, List.mem_cons] at hg
          rcases hg with rfl | hg
          · exact Or.inr ⟨rfl, he⟩
          · left
            split at hg
            · exact (List.dropLast_sublist _).subset hg
            · exact hg
        · rw [ht2 he] at hg
          exact Or.inl hg
      refine ⟨?_, ?_, hc, h.free_lt, h.free_nodup, ?_, h.free_unmapped, ?_, ?_, h.table_lt,
        ?_, ?_⟩
      · simp [h.pages_length]
      · exact hm.trans h.replacer_size
      · intro g hg pg1 hpg1
        rcases pages_set_get _ f g pg _ pg1 hpg hpg1 with ⟨rfl, _⟩ | ⟨_, h1⟩
        · exact absurd hg hfree
        · exact h.free_unpinned g hg pg1 h1
      · intro g hg
        rcases htr g hg with hg | ⟨rfl, _⟩
        · exact h.tracked_lt g hg
        · exact hlt
      · intro g hg pg1 hpg1
        rcases pages_set_get _ f g pg _ pg1 hpg hpg1 with ⟨rfl, rfl⟩ | ⟨hne, h1⟩
        · rcases htr g hg with hg | ⟨_, he⟩
          · have := h.tracked_unpinned g hg pg hpg
            omega
          · show pg.pin_count_ - 1 = 0
            omega
        · rcases htr g hg with hg | ⟨he, _⟩
          · exact h.tracked_unpinned g hg pg1 h1
          · exact absurd he hne
      · intro k g pg1 hkg hpg1
        rcases pages_set_get _ f g pg _ pg1 hpg hpg1 with ⟨rfl, rfl⟩ | ⟨_, h1⟩
        · exact h.table_id k g pg hkg hpg
        · exact h.table_id k g pg1 hkg h1
      · intro g pg1 hpg1
        rcases pages_set_get _ f g pg _ pg1 hpg hpg1 with ⟨rfl, rfl⟩ | ⟨_, h1⟩
        · show 0 ≤ pg.pin_count_ - 1
          omega
        · exact h.pin_nonneg g pg1 h1

/-- In a state satisfying the invariant the replacer call of a `fetch_page` hit is defined. -/
theorem BufferPoolManager.Inv.fetch_replacer (s : BufferPoolManager) (h : s.Inv)
    (f : frame_id_t) (pg : Page) (hpg : s.pages_[f]? = some pg) :
    ∃ r, (if pg.pin_count_ = 0 then s.replacer_.pin f else some s.replacer_) = some r ∧
      r.Consistent ∧ r.max_size_ = s.replacer_.max_size_ ∧
      r.tracked = s.replacer_.tracked.filter (fun g => !decide (g = f)) := by
  by_cases h0 : pg.pin_count_ = 0
  · obtain ⟨r, hp, hc, ht, hm⟩ := LRUReplacer.pin_spec s.replacer_ h.replacer_ok f
    exact ⟨r, by rw [if_pos h0]; exact hp, hc, hm, ht⟩
  · refine ⟨s.replacer_, by rw [if_neg h0], h.replacer_ok, rfl, ?_⟩
    symm
    apply List.filter_eq_self.2
    intro g hg
    simp only [Bool.not_eq_eq_eq_not, Bool.not_true, decide_eq_false_iff_not]
    rintro rfl
    exact h0 (h.tracked_unpinned g hg pg hpg)

/-- The explicit result of a `fetch_page` hit. -/
theorem BufferPoolManager.fetch_page_hit (s : BufferPoolManager) (pid : PageId)
    (f : frame_id_t) (pg : Page) (r : LRUReplacer) (hk : s.page_table_ pid = some f)
    (hpg : s.pages_[f]? = some pg)
    (hr : (if pg.pin_count_ = 0 then s.replacer_.pin f else some s.replacer_) = some r)
    (hlt : pg.pin_count_ < INT_MAX) :
    s.fetch_page pid = some ({ s with
        replacer_ := r,
        pages_ := s.pages_.set f { pg with pin_count_ := pg.pin_count_ + 1 } },
      some f) := by
  simp only [BufferPoolManager.fetch_page, hk, hpg, hr, hlt, if_true]

/-- A `fetch_page` hit of a page whose pin count is `INT_MAX` is undefined: the increment
overflows. -/
theorem BufferPoolManager.fetch_page_hit_overflow (s : BufferPoolManager) (pid : PageId)
    (f : frame_id_t) (pg : Page) (hk : s.page_table_ pid = some f)
    (hpg : s.pages_[f]? = some pg) (hge : ¬ pg.pin_count_ < INT_MAX) :
    s.fetch_page pid = none := by
  simp only [BufferPoolManager.fetch_page, hk, hpg, hge, if_false]
  split <;> rfl

/-- A `fetch_page` hit that is defined found a pin count below `INT_MAX`. -/
theorem BufferPoolManager.fetch_page_hit_lt (s : BufferPoolManager) (pid : PageId)
    (f : frame_id_t) (pg : Page) (hk : s.page_table_ pid = some f)
    (hpg : s.pages_[f]? = some pg) (res : BufferPoolManager × Option frame_id_t)
    (hs : s.fetch_page pid = some res) : pg.pin_count_ < INT_MAX := by
  by_contra hge
  rw [BufferPoolManager.fetch_page_hit_overflow s pid f pg hk hpg hge] at hs
  cases hs

theorem BufferPoolManager.fetch_page_hit_inv (s : BufferPoolManager) (h : s.Inv) (pid : PageId)
    (f : frame_id_t) (pg : Page) (r : LRUReplacer) (hk : s.page_table_ pid = some f)
    (hpg : s.pages_[f]? = some pg) (hc : r.Consistent)
    (hm : r.max_size_ = s.replacer_.max_size_)
    (ht : r.tracked = s.replacer_.tracked.filter (fun g => !decide (g = f))) :
    BufferPoolManager.Inv { s with
        replacer_ := r,
        pages_ := s.pages_.set f { pg with pin_count_ := pg.pin_count_ + 1 } } := by
  have hfree : f ∉ s.free_list_ := h.table_not_free s pid f hk
  have htr : ∀ g ∈ r.tracked, g ∈ s.replacer_.tracked ∧ g ≠ f := by
    intro g hg
    rw [ht, List.mem_filter] at hg
    refine ⟨hg.1, ?_⟩
    simpa using hg.2
  refine ⟨?_, hm.trans h.replacer_size, hc, h.free_lt, h.free_nodup, ?_, h.free_unmapped, ?_,
    ?_, h.table_lt, ?_, ?_⟩
  · simp [h.pages_length]
  · intro g hg pg1 hpg1
    rcases pages_set_get _ f g pg _ pg1 hpg hpg1 with ⟨rfl, _⟩ | ⟨_, h1⟩
    · exact absurd hg hfree
    · exact h.free_unpinned g hg pg1 h1
  · intro g hg
    exact h.tracked_lt g (htr g hg).1
  · intro g hg pg1 hpg1
    rcases pages_set_get _ f g pg _ pg1 hpg hpg1 with ⟨rfl, _⟩ | ⟨_, h1⟩
    · exact absurd rfl (htr g hg).2
    · exact h.tracked_unpinned g (htr g hg).1 pg1 h1
  · intro k g pg1 hkg hpg1
    rcases pages_set_get _ f g pg _ pg1 hpg hpg1 with ⟨rfl, rfl⟩ | ⟨_, h1⟩
    · exact h.table_id k g pg hkg hpg
    · exact h.table_id k g pg1 hkg h1
  · intro g pg1 hpg1
    rcases pages_set_get _ f g pg _ pg1 hpg hpg1 with ⟨rfl, rfl⟩ | ⟨_, h1⟩
    · have := h.pin_nonneg g pg hpg
      show 0 ≤ pg.pin_count_ + 1
      omega
    · exact h.pin_nonneg g pg1 h1

/-- What `find_victim_page` returns when the free list is not empty. -/
theorem BufferPoolManager.find_victim_page_free (s : BufferPoolManager) (f : frame_id_t)
    (rest : List frame_id_t) (hfl : s.free_list_ = f :: rest) :
    s.find_victim_page = ({ s with free_list_ := rest }, some f) := by
  simp only [BufferPoolManager.find_victim_page, hfl]

/-- What `find_victim_page` returns when the free list is empty. -/
theorem BufferPoolManager.find_victim_page_replacer (s : BufferPoolManager)
    (hfl : s.free_list_ = []) :
    s.find_victim_page = ({ s with replacer_ := s.replacer_.victim.1 }, s.replacer_.victim.2) := by
  simp only [BufferPoolManager.find_victim_page, hfl]

/-- When neither the free list nor the replacer holds a frame, `find_victim_page` fails
and changes nothing. -/
theorem BufferPoolManager.find_victim_page_none (s : BufferPoolManager)
    (hfl : s.free_list_ = []) (hl : s.replacer_.LRUlist_ = []) :
    s.find_victim_page = (s, none) := by
  rw [BufferPoolManager.find_victim_page_replacer s hfl, LRUReplacer.victim_none _ hl]

/-- When `find_victim_page` fails, the free list and the list of the replacer are empty. -/
theorem BufferPoolManager.find_victim_page_none_iff (s s1 : BufferPoolManager)
    (h : s.find_victim_page = (s1, none)) :
    s.free_list_ = [] ∧ s.replacer_.LRUlist_ = [] ∧ s1 = s := by
  cases hfl : s.free_list_ with
  | cons f rest =>
    rw [BufferPoolManager.find_victim_page_free s f rest hfl] at h
    cases h
  | nil =>
    rw [BufferPoolManager.find_victim_page_replacer s hfl] at h
    cases hb : s.replacer_.LRUlist_.getLast? with
    | none =>
      have hnil : s.replacer_.LRUlist_ = [] := List.getLast?_eq_none_iff.1 hb
      rw [LRUReplacer.victim_none _ hnil] at h
      cases h
      exact ⟨rfl, hnil, rfl⟩
    | some b =>
      simp [LRUReplacer.victim, hb] at h

/-- The frame chosen by `find_victim_page` is a frame of the pool with pin count 0 that
is no longer on the free list; the state after the call satisfies the invariant. -/
theorem BufferPoolManager.find_victim_page_spec (s s1 : BufferPoolManager) (h : s.Inv)
    (f : frame_id_t) (hv : s.find_victim_page = (s1, some f)) :
    s1.Inv ∧ f ∉ s1.free_list_ ∧ s1.pages_ = s.pages_ ∧ s1.page_table_ = s.page_table_ ∧
      s1.pool_size_ = s.pool_size_ ∧ s1.disk_manager_ = s.disk_manager_ ∧
      ∃ pg, s.pages_[f]? = some pg ∧ pg.pin_count_ = 0 := by
  cases hfl : s.free_list_ with
  | cons f0 rest =>
    rw [BufferPoolManager.find_victim_page_free s f0 rest hfl] at hv
    cases hv
    have hmem : f ∈ s.free_list_ := by rw [hfl]; exact List.mem_cons_self _ _
    have hnd := h.free_nodup
    rw [hfl, List.nodup_cons] at hnd
    have hsub : ∀ g ∈ rest, g ∈ s.free_list_ := by
      intro g hg; rw [hfl]; exact List.mem_cons_of_mem _ hg
    obtain ⟨pg, hpg⟩ := pages_get_of_lt s h.pages_length f (h.free_lt f hmem)
    refine ⟨⟨h.pages_length, h.replacer_size, h.replacer_ok, fun g hg => h.free_lt g (hsub g hg),
      hnd.2, fun g hg => h.free_unpinned g (hsub g hg),
      fun g hg => h.free_unmapped g (hsub g hg), h.tracked_lt, h.tracked_unpinned, h.table_lt,
      h.table_id, h.pin_nonneg⟩, hnd.1, rfl, rfl, rfl, rfl, pg, hpg,
      h.free_unpinned f hmem pg hpg⟩
  | nil =>
    rw [BufferPoolManager.find_victim_page_replacer s hfl] at hv
    obtain ⟨hc, hres, htr, hm⟩ := LRUReplacer.victim_spec s.replacer_ h.replacer_ok
    have hv1 : s1 = { s with replacer_ := s.replacer_.victim.1 } := (congrArg Prod.fst hv).symm
    have hv2 : s.replacer_.victim.2 = some f := congrArg Prod.snd hv
    subst hv1
    have hmem : f ∈ s.replacer_.tracked := by
      rw [hres] at hv2
      exact List.mem_of_getLast?_eq_some hv2
    have hsub : ∀ g ∈ s.replacer_.victim.1.tracked, g ∈ s.replacer_.tracked := by
      intro g hg
      rw [htr] at hg
      exact (List.dropLast_sublist _).subset hg
    obtain ⟨pg, hpg⟩ := pages_get_of_lt s h.pages_length f (h.tracked_lt f hmem)
    refine ⟨⟨h.pages_length, hm.trans h.replacer_size, hc, h.free_lt, h.free_nodup,
      h.free_unpinned, h.free_unmapped, fun g hg => h.tracked_lt g (hsub g hg),
      fun g hg => h.tracked_unpinned g (hsub g hg), h.table_lt, h.table_id, h.pin_nonneg⟩,
      ?_, rfl, rfl, rfl, rfl, pg, hpg, h.tracked_unpinned f hmem pg hpg⟩
    show f ∉ s.free_list_
    rw [hfl]
    exact List.not_mem_nil _

/-- Installing a page in a victim frame keeps the invariant. -/
theorem BufferPoolManager.Inv.install (s : BufferPoolManager) (h : s.Inv) (f : frame_id_t)
    (pg pg1 : Page) (pid : PageId) (r : LRUReplacer) (d : DiskManager)
    (hfree : f ∉ s.free_list_) (hpg : s.pages_[f]? = some pg)
    (hpin : s.replacer_.pin f = some r) (hid : pg1.id_ = pid) (hpc : pg1.pin_count_ = 1) :
    BufferPoolManager.Inv { s with
      pages_ := s.pages_.set f pg1,
      page_table_ := umap_set (umap_erase s.page_table_ pg.id_) pid f,
      replacer_ := r,
      disk_manager_ := d } := by
  obtain ⟨r1, hp1, hc, ht, hm⟩ := LRUReplacer.pin_spec s.replacer_ h.replacer_ok f
  rw [hpin] at hp1
  cases hp1
  have hlt : f < s.pool_size_ := by
    have := pages_lt_of_get _ _ _ hpg
    rw [h.pages_length] at this
    exact this
  have htr : ∀ g ∈ r.tracked, g ∈ s.replacer_.tracked ∧ g ≠ f := by
    intro g hg
    rw [ht, List.mem_filter] at hg
    refine ⟨hg.1, ?_⟩
    simpa using hg.2
  have htab : ∀ k g, umap_set (umap_erase s.page_table_ pg.id_) pid f k = some g →
      (k = pid ∧ g = f) ∨ (k ≠ pid ∧ k ≠ pg.id_ ∧ s.page_table_ k = some g) := by
    intro k g hk
    by_cases h1 : k = pid
    · subst h1
      rw [umap_set_self] at hk
      cases hk
      exact Or.inl ⟨rfl, rfl⟩
    · rw [umap_set_ne _ _ _ _ h1] at hk
      by_cases h2 : k = pg.id_
      · subst h2
        rw [umap_erase_self] at hk
        cases hk
      · rw [umap_erase_ne _ _ _ h2] at hk
        exact Or.inr ⟨h1, h2, hk⟩
  refine ⟨?_, hm.trans h.replacer_size, hc, h.free_lt, h.free_nodup, ?_, ?_, ?_, ?_, ?_, ?_, ?_⟩
  · simp [h.pages_length]
  · intro g hg pg2 hpg2
    rcases pages_set_get _ f g pg _ pg2 hpg hpg2 with ⟨rfl, _⟩ | ⟨_, h1⟩
    · exact absurd hg hfree
    · exact h.free_unpinned g hg pg2 h1
  · intro g hg k hk
    rcases htab k g hk with ⟨_, rfl⟩ | ⟨_, _, h1⟩
    · exact hfree hg
    · exact h.free_unmapped g hg k h1
  · intro g hg
    exact h.tracked_lt g (htr g hg).1
  · intro g hg pg2 hpg2
    rcases pages_set_get _ f g pg _ pg2 hpg hpg2 with ⟨rfl, _⟩ | ⟨_, h1⟩
    · exact absurd rfl (htr g hg).2
    · exact h.tracked_unpinned g (htr g hg).1 pg2 h1
  · intro k g hk
    rcases htab k g hk with ⟨_, rfl⟩ | ⟨_, _, h1⟩
    · exact hlt
    · exact h.table_lt k g h1
  · intro k g pg2 hk hpg2
    rcases htab k g hk with ⟨rfl, rfl⟩ | ⟨_, hne, h1⟩
    · rw [pages_set_self _ g pg _ hpg] at hpg2
      cases hpg2
      exact hid
    · rcases pages_set_get _ f g pg _ pg2 hpg hpg2 with ⟨rfl, _⟩ | ⟨_, h2⟩
      · exact absurd (h.table_id k g pg h1 hpg).symm hne
      · exact h.table_id k g pg2 h1 h2
  · intro g pg2 hpg2
    rcases pages_set_get _ f g pg _ pg2 hpg hpg2 with ⟨rfl, rfl⟩ | ⟨_, h1⟩
    · rw [hpc]
      decide
    · exact h.pin_nonneg g pg2 h1

/-- The explicit result of a `fetch_page` miss for which a victim frame is found. -/
theorem BufferPoolManager.fetch_page_miss (s s1 : BufferPoolManager) (pid : PageId)
    (f : frame_id_t) (pg : Page) (r : LRUReplacer) (hk : s.page_table_ pid = none)
    (hv : s.find_victim_page = (s1, some f)) (hpg : s1.pages_[f]? = some pg)
    (hpin : s1.replacer_.pin f = some r) :
    s.fetch_page pid = some ({ s1 with
        pages_ := s1.pages_.set f
          { id_ := pid,
            data_ := (if pg.is_dirty_ then
                s1.disk_manager_.write_page pg.id_.fd pg.id_.page_no pg.data_
              else s1.disk_manager_).content pid,
            is_dirty_ := false, pin_count_ := 1 },
        page_table_ := umap_set (umap_erase s1.page_table_ pg.id_) pid f,
        replacer_ := r,
        disk_manager_ := ((if pg.is_dirty_ then
                s1.disk_manager_.write_page pg.id_.fd pg.id_.page_no pg.data_
              else s1.disk_manager_).read_page pid.fd pid.page_no).1 },
      some f) := by
  simp only [BufferPoolManager.fetch_page, hk, hv,
    BufferPoolManager.update_page_same s1 f pid pg r hpg hpin]

/-- A `fetch_page` miss or a `new_page` without victim frame returns `nullptr`. -/
theorem BufferPoolManager.fetch_page_exhausted (s s1 : BufferPoolManager) (pid : PageId)
    (hk : s.page_table_ pid = none) (hv : s.find_victim_page = (s1, none)) :
    s.fetch_page pid = some (s1, none) := by
  simp only [BufferPoolManager.fetch_page, hk, hv]

theorem BufferPoolManager.new_page_exhausted (s s1 : BufferPoolManager) (fd a : Int)
    (hv : s.find_victim_page = (s1, none)) : s.new_page fd a = some (s1, none) := by
  simp only [BufferPoolManager.new_page, hv]

/-- The explicit result of a `new_page` for which a victim frame is found. -/
theorem BufferPoolManager.new_page_eq (s s1 : BufferPoolManager) (fd a : Int)
    (f : frame_id_t) (pg : Page) (r : LRUReplacer)
    (hv : s.find_victim_page = (s1, some f)) (hpg : s1.pages_[f]? = some pg)
    (hpin : s1.replacer_.pin f = some r) :
    s.new_page fd a = some ({ s1 with
        pages_ := s1.pages_.set f
          { id_ := { fd := fd, page_no := a }, data_ := PageData.zero,
            is_dirty_ := false, pin_count_ := 1 },
        page_table_ := umap_set (umap_erase s1.page_table_ pg.id_) { fd := fd, page_no := a } f,
        replacer_ := r,
        disk_manager_ := (if pg.is_dirty_ then
                s1.disk_manager_.write_page pg.id_.fd pg.id_.page_no pg.data_
              else s1.disk_manager_).allocate_page fd },
      some (f, { fd := fd, page_no := a })) := by
  cases hd : pg.is_dirty_ <;>
    simp [BufferPoolManager.new_page, hv, hpg, hpin, hd, Page.reset_memory]

theorem BufferPoolManager.fetch_page_inv (s s1 : BufferPoolManager) (h : s.Inv)
    (pid : PageId) (res : Option frame_id_t) (hs : s.fetch_page pid = some (s1, res)) :
    s1.Inv := by
  cases hk : s.page_table_ pid with
  | some f =>
    obtain ⟨pg, hpg, _⟩ := h.table_get s pid f hk
    obtain ⟨r, hr, hc, hm, ht⟩ := h.fetch_replacer s f pg hpg
    have hlt := BufferPoolManager.fetch_page_hit_lt s pid f pg hk hpg _ hs
    rw [BufferPoolManager.fetch_page_hit s pid f pg r hk hpg hr hlt] at hs
    cases hs
    exact BufferPoolManager.fetch_page_hit_inv s h pid f pg r hk hpg hc hm ht
  | none =>
    cases hv : s.find_victim_page with
    | mk s2 v =>
      cases v with
      | none =>
        obtain ⟨_, _, he⟩ := BufferPoolManager.find_victim_page_none_iff s s2 hv
        rw [BufferPoolManager.fetch_page_exhausted s s2 pid hk hv, he] at hs
        cases hs
        exact h
      | some f =>
        obtain ⟨h2, hfree, hpages, _, _, _, pg, hpg, _⟩ :=
          BufferPoolManager.find_victim_page_spec s s2 h f hv
        rw [← hpages] at hpg
        obtain ⟨r, hpin, _⟩ := LRUReplacer.pin_spec s2.replacer_ h2.replacer_ok f
        rw [BufferPoolManager.fetch_page_miss s s2 pid f pg r hk hv hpg hpin] at hs
        cases hs
        exact BufferPoolManager.Inv.install s2 h2 f pg _ pid r _ hfree hpg hpin rfl rfl

theorem BufferPoolManager.new_page_inv (s s1 : BufferPoolManager) (h : s.Inv)
    (fd a : Int) (res : Option (frame_id_t × PageId))
    (hs : s.new_page fd a = some (s1, res)) : s1.Inv := by
  cases hv : s.find_victim_page with
  | mk s2 v =>
    cases v with
    | none =>
      obtain ⟨_, _, he⟩ := BufferPoolManager.find_victim_page_none_iff s s2 hv
      rw [BufferPoolManager.new_page_exhausted s s2 fd a hv, he] at hs
      cases hs
      exact h
    | some f =>
      obtain ⟨h2, hfree, hpages, _, _, _, pg, hpg, _⟩ :=
        BufferPoolManager.find_victim_page_spec s s2 h f hv
      rw [← hpages] at hpg
      obtain ⟨r, hpin, _⟩ := LRUReplacer.pin_spec s2.replacer_ h2.replacer_ok f
      rw [BufferPoolManager.new_page_eq s s2 fd a f pg r hv hpg hpin] at hs
      cases hs
      exact BufferPoolManager.Inv.install s2 h2 f pg _ _ r _ hfree hpg hpin rfl rfl

/-- The explicit result of a successful `delete_page`. -/
theorem BufferPoolManager.delete_page_eq (s : BufferPoolManager) (pid : PageId)
    (f : frame_id_t) (pg : Page) (hk : s.page_table_ pid = some f)
    (hpg : s.pages_[f]? = some pg) (hpin : pg.pin_count_ ≤ 0) :
    s.delete_page pid = some ({ s with
        disk_manager_ := s.disk_manager_.deallocate_page pid.page_no,
        free_list_ := s.free_list_ ++ [f],
        page_table_ := umap_erase s.page_table_ pid,
        pages_ := s.pages_.set f
          { pg with is_dirty_ := false, pin_count_ := 0,
                    id_ := { pg.id_ with page_no := INVALID_PAGE_ID } } },
      true) := by
  have hnot : ¬ pg.pin_count_ > 0 := by omega
  simp only [BufferPoolManager.delete_page, hk, hpg, hnot, if_false]

theorem BufferPoolManager.delete_page_pinned (s : BufferPoolManager) (pid : PageId)
    (f : frame_id_t) (pg : Page) (hk : s.page_table_ pid = some f)
    (hpg : s.pages_[f]? = some pg) (hpin : 0 < pg.pin_count_) :
    s.delete_page pid = some (s, false) := by
  have hpos : pg.pin_count_ > 0 := hpin
  simp only [BufferPoolManager.delete_page, hk, hpg, hpos, if_true]

theorem BufferPoolManager.delete_page_absent (s : BufferPoolManager) (pid : PageId)
    (hk : s.page_table_ pid = none) : s.delete_page pid = some (s, true) := by
  simp only [BufferPoolManager.delete_page, hk]

theorem BufferPoolManager.delete_page_inv (s s1 : BufferPoolManager) (h : s.Inv)
    (pid : PageId) (b : Bool) (hs : s.delete_page pid = some (s1, b)) : s1.Inv := by
  cases hk : s.page_table_ pid with
  | none =>
    rw [BufferPoolManager.delete_page_absent s pid hk] at hs
    cases hs
    exact h
  | some f =>
    obtain ⟨pg, hpg, hid⟩ := h.table_get s pid f hk
    have hlt := h.table_lt pid f hk
    by_cases hpos : 0 < pg.pin_count_
    · rw [BufferPoolManager.delete_page_pinned s pid f pg hk hpg hpos] at hs
      cases hs
      exact h
    · rw [BufferPoolManager.delete_page_eq s pid f pg hk hpg (by omega)] at hs
      cases hs
      have hfree : f ∉ s.free_list_ := h.table_not_free s pid f hk
      have htab : ∀ k g, umap_erase s.page_table_ pid k = some g →
          k ≠ pid ∧ s.page_table_ k = some g ∧ g ≠ f := by
        intro k g hkg
        by_cases h1 : k = pid
        · subst h1
          rw [umap_erase_self] at hkg
          cases hkg
        · rw [umap_erase_ne _ _ _ h1] at hkg
          refine ⟨h1, hkg, ?_⟩
          rintro rfl
          exact h1 ((h.table_id k g pg hkg hpg).symm.trans hid)
      refine ⟨?_, h.replacer_size, h.replacer_ok, ?_, ?_, ?_, ?_, h.tracked_lt, ?_, ?_, ?_, ?_⟩
      · simp [h.pages_length]
      · intro g hg
        rcases List.mem_append.1 hg with hg | hg
        · exact h.free_lt g hg
        · rw [List.mem_singleton.1 hg]
          exact hlt
      · exact List.Nodup.append h.free_nodup (List.nodup_singleton f)
          (by
            intro g hg1 hg2
            rw [List.mem_singleton.1 hg2] at hg1
            exact hfree hg1)
      · intro g hg pg2 hpg2
        rcases pages_set_get _ f g pg _ pg2 hpg hpg2 with ⟨rfl, rfl⟩ | ⟨hne, h1⟩
        · rfl
        · rcases List.mem_append.1 hg with hg | hg
          · exact h.free_unpinned g hg pg2 h1
          · exact absurd (List.mem_singleton.1 hg) hne
      · intro g hg k hkg
        obtain ⟨_, h1, hne⟩ := htab k g hkg
        rcases List.mem_append.1 hg with hg | hg
        · exact h.free_unmapped g hg k h1
        · exact hne (List.mem_singleton.1 hg)
      · intro g hg pg2 hpg2
        rcases pages_set_get _ f g pg _ pg2 hpg hpg2 with ⟨rfl, rfl⟩ | ⟨_, h1⟩
        · rfl
        · exact h.tracked_unpinned g hg pg2 h1
      · intro k g hkg
        exact h.table_lt k g (htab k g hkg).2.1
      · intro k g pg2 hkg hpg2
        obtain ⟨_, h1, hne⟩ := htab k g hkg
        rcases pages_set_get _ f g pg _ pg2 hpg hpg2 with ⟨rfl, _⟩ | ⟨_, h2⟩
        · exact absurd rfl hne
        · exact h.table_id k g pg2 h1 h2
      · intro g pg2 hpg2
        rcases pages_set_get _ f g pg _ pg2 hpg hpg2 with ⟨rfl, rfl⟩ | ⟨_, h1⟩
        · exact le_refl _
        · exact h.pin_nonneg g pg2 h1

theorem BufferPoolManager.step_inv (s s1 : BufferPoolManager) (h : s.Inv) (op : Op)
    (hs : s.step op = some s1) : s1.Inv := by
  cases op with
  | fetch_page pid =>
    simp only [BufferPoolManager.step, Option.map_eq_some'] at hs
    obtain ⟨⟨s2, res⟩, h1, rfl⟩ := hs
    exact BufferPoolManager.fetch_page_inv s s2 h pid res h1
  | new_page fd a =>
    simp only [BufferPoolManager.step, Option.map_eq_some'] at hs
    obtain ⟨⟨s2, res⟩, h1, rfl⟩ := hs
    exact BufferPoolManager.new_page_inv s s2 h fd a res h1
  | unpin_page pid d =>
    simp only [BufferPoolManager.step, Option.map_eq_some'] at hs
    obtain ⟨⟨s2, res⟩, h1, rfl⟩ := hs
    exact BufferPoolManager.unpin_page_inv s s2 h pid d res h1
  | flush_page pid =>
    simp only [BufferPoolManager.step, Option.map_eq_some'] at hs
    obtain ⟨⟨s2, res⟩, h1, rfl⟩ := hs
    exact BufferPoolManager.flush_page_inv s s2 h pid res h1
  | delete_page pid =>
    simp only [BufferPoolManager.step, Option.map_eq_some'] at hs
    obtain ⟨⟨s2, res⟩, h1, rfl⟩ := hs
    exact BufferPoolManager.delete_page_inv s s2 h pid res h1
  | flush_all_pages fd =>
    exact BufferPoolManager.flush_all_pages_loop_inv fd _ s s1 h hs
  | write_data f data =>
    exact BufferPoolManager.write_data_inv s s1 h f data hs

theorem BufferPoolManager.reachable_inv (s : BufferPoolManager) (h : s.Reachable) : s.Inv := by
  induction h with
  | init s hi => exact BufferPoolManager.initial_inv s hi
  | step s s1 op _ hstep ih => exact BufferPoolManager.step_inv s s1 ih op hstep

/-! ### Reachability of the concrete pools -/

theorem BufferPoolManager.reachable_run (ops : List Op) :
    ∀ (s s1 : BufferPoolManager), s.Reachable → s.run ops = some s1 → s1.Reachable := by
  induction ops with
  | nil =>
    intro s s1 h hr
    simp only [BufferPoolManager.run, Option.some.injEq] at hr
    rw [← hr]
    exact h
  | cons op ops ih =>
    intro s s1 h hr
    simp only [BufferPoolManager.run] at hr
    cases hs : s.step op with
    | none => simp [hs] at hr
    | some s2 =>
      simp only [hs] at hr
      exact ih s2 s1 (BufferPoolManager.Reachable.step s s2 op h hs) hr

theorem BufferPoolManager.reachable_of_create (n : Nat) (d : DiskManager) (ops : List Op)
    (s1 : BufferPoolManager) (hr : (BufferPoolManager.create n d).run ops = some s1) :
    s1.Reachable :=
  BufferPoolManager.reachable_run ops _ s1
    (BufferPoolManager.Reachable.init _ (BufferPoolManager.create_initial n d)) hr

theorem Example.pool_unpinned_reachable : Example.pool_unpinned.Reachable :=
  BufferPoolManager.reachable_of_create 2 Example.disk
    [Op.fetch_page Example.pageA, Op.unpin_page Example.pageA true] _ rfl

theorem Example.pool_full_reachable : Example.pool_full.Reachable :=
  BufferPoolManager.reachable_of_create 2 Example.disk
    [Op.fetch_page Example.pageA, Op.fetch_page Example.pageB] _ rfl

theorem Example.pool_dirty_reachable : Example.pool_dirty.Reachable :=
  BufferPoolManager.reachable_of_create 1 Example.disk
    [Op.fetch_page Example.pageA, Op.write_data 0 (PageData.fill 7),
     Op.unpin_page Example.pageA true] _ rfl

theorem Example.pool_free_and_tracked_reachable : Example.pool_free_and_tracked.Reachable :=
  BufferPoolManager.reachable_of_create 2 Example.disk
    [Op.fetch_page Example.pageA, Op.unpin_page Example.pageA false] _ rfl

/-! ### Definedness of the operations in states satisfying the invariant -/

theorem BufferPoolManager.Inv.fetch_page_defined (s : BufferPoolManager) (h : s.Inv)
    (pid : PageId)
    (hlt : ∀ (f : frame_id_t) (pg : Page), s.page_table_ pid = some f →
      s.pages_[f]? = some pg → pg.pin_count_ < INT_MAX) :
    ∃ res, s.fetch_page pid = some res := by
  cases hk : s.page_table_ pid with
  | some f =>
    obtain ⟨pg, hpg, _⟩ := h.table_get s pid f hk
    obtain ⟨r, hr, _⟩ := h.fetch_replacer s f pg hpg
    exact ⟨_, BufferPoolManager.fetch_page_hit s pid f pg r hk hpg hr (hlt f pg hk hpg)⟩
  | none =>
    cases hv : s.find_victim_page with
    | mk s2 v =>
      cases v with
      | none => exact ⟨_, BufferPoolManager.fetch_page_exhausted s s2 pid hk hv⟩
      | some f =>
        obtain ⟨h2, _, hpages, _, _, _, pg, hpg, _⟩ :=
          BufferPoolManager.find_victim_page_spec s s2 h f hv
        rw [← hpages] at hpg
        obtain ⟨r, hpin, _⟩ := LRUReplacer.pin_spec s2.replacer_ h2.replacer_ok f
        exact ⟨_, BufferPoolManager.fetch_page_miss s s2 pid f pg r hk hv hpg hpin⟩

theorem BufferPoolManager.Inv.new_page_defined (s : BufferPoolManager) (h : s.Inv)
    (fd a : Int) : ∃ res, s.new_page fd a = some res := by
  cases hv : s.find_victim_page with
  | mk s2 v =>
    cases v with
    | none => exact ⟨_, BufferPoolManager.new_page_exhausted s s2 fd a hv⟩
    | some f =>
      obtain ⟨h2, _, hpages, _, _, _, pg, hpg, _⟩ :=
        BufferPoolManager.find_victim_page_spec s s2 h f hv
      rw [← hpages] at hpg
      obtain ⟨r, hpin, _⟩ := LRUReplacer.pin_spec s2.replacer_ h2.replacer_ok f
      exact ⟨_, BufferPoolManager.new_page_eq s s2 fd a f pg r hv hpg hpin⟩

/-- A `fetch_page` miss that returns `nullptr` found no victim frame. -/
theorem BufferPoolManager.fetch_page_none_victim (s s1 : BufferPoolManager) (pid : PageId)
    (hk : s.page_table_ pid = none) (hs : s.fetch_page pid = some (s1, none)) :
    s.find_victim_page = (s1, none) := by
  cases hv : s.find_victim_page with
  | mk s2 v =>
    cases v with
    | none =>
      rw [BufferPoolManager.fetch_page_exhausted s s2 pid hk hv] at hs
      cases hs
      rfl
    | some f =>
      exfalso
      simp only [BufferPoolManager.fetch_page, hk, hv] at hs
      cases hu : s2.update_page f pid f with
      | none => simp [hu] at hs
      | some s3 => simp [hu] at hs

/-- A `new_page` that returns `nullptr` found no victim frame. -/
theorem BufferPoolManager.new_page_none_victim (s s1 : BufferPoolManager) (fd a : Int)
    (hs : s.new_page fd a = some (s1, none)) : s.find_victim_page = (s1, none) := by
  cases hv : s.find_victim_page with
  | mk s2 v =>
    cases v with
    | none =>
      rw [BufferPoolManager.new_page_exhausted s s2 fd a hv] at hs
      cases hs
      rfl
    | some f =>
      exfalso
      simp only [BufferPoolManager.new_page, hv] at hs
      cases hpg : s2.pages_[f]? with
      | none => simp [hpg] at hs
      | some pg =>
        simp only [hpg] at hs
        cases hp : s2.replacer_.pin f with
        | none => simp [hp] at hs
        | some r => simp [hp] at hs

theorem LRUReplacer.tracked_eq_nil (r : LRUReplacer) : r.tracked = [] ↔ r.LRUlist_ = [] := by
  simp [LRUReplacer.tracked]

/-! ### The victim frame of a miss -/

/-- The effect of a `fetch_page` miss or of a `new_page` on a victim frame `f`: the frame
found by `find_victim_page`, the disk after the write-back of the frame when it is dirty,
and the replacer after `pin(f)`. -/
theorem BufferPoolManager.Inv.victim_install (s s1 : BufferPoolManager) (h : s.Inv)
    (f : frame_id_t) (hv : s.find_victim_page = (s1, some f)) :
    ∃ (pg : Page) (r : LRUReplacer), s.pages_[f]? = some pg ∧ s1.pages_[f]? = some pg ∧
      s1.replacer_.pin f = some r ∧
      r.tracked = s1.replacer_.tracked.filter (fun g => !decide (g = f)) ∧
      s1.pages_ = s.pages_ ∧ s1.page_table_ = s.page_table_ ∧
      s1.disk_manager_ = s.disk_manager_ := by
  obtain ⟨h2, _, hpages, htab, _, hdisk, pg, hpg, _⟩ :=
    BufferPoolManager.find_victim_page_spec s s1 h f hv
  obtain ⟨r, hpin, _, ht, _⟩ := LRUReplacer.pin_spec s1.replacer_ h2.replacer_ok f
  exact ⟨pg, r, hpg, by rw [hpages]; exact hpg, hpin, ht, hpages, htab, hdisk⟩

theorem Example.replacer_reachable : Example.replacer.Reachable :=
  LRUReplacer.Reachable.unpin _ _ 2
    (LRUReplacer.Reachable.unpin _ ((LRUReplacer.create 3).push_front 1) 1
      (LRUReplacer.Reachable.create 3) rfl) rfl

/-! ### Sequences of fetches and unpins of one page -/

/-- A `fetch_page` hit pins the frame once more and keeps the page table. -/
theorem BufferPoolManager.Inv.fetch_hit_step (s : BufferPoolManager) (h : s.Inv) (p : PageId)
    (f : frame_id_t) (pg : Page) (hk : s.page_table_ p = some f)
    (hpg : s.pages_[f]? = some pg) (hlt : pg.pin_count_ < INT_MAX) :
    ∃ (s1 : BufferPoolManager) (pg1 : Page), s.fetch_page p = some (s1, some f) ∧ s1.Inv ∧
      s1.page_table_ p = some f ∧ s1.pages_[f]? = some pg1 ∧
      pg1.pin_count_ = pg.pin_count_ + 1 := by
  obtain ⟨r, hr, hc, hm, ht⟩ := h.fetch_replacer s f pg hpg
  exact ⟨_, _, BufferPoolManager.fetch_page_hit s p f pg r hk hpg hr hlt,
    BufferPoolManager.fetch_page_hit_inv s h p f pg r hk hpg hc hm ht, hk,
    pages_set_self _ f pg _ hpg, rfl⟩

/-- After a successful `fetch_page(p)` the page is resident in the returned frame; the
pin count is 1 when the page was not pinned before. -/
theorem BufferPoolManager.Inv.first_fetch (s s1 : BufferPoolManager) (h : s.Inv) (p : PageId)
    (f : frame_id_t)
    (hstart : ∀ (g : frame_id_t) (pg : Page), s.page_table_ p = some g →
      s.pages_[g]? = some pg → pg.pin_count_ = 0)
    (hs : s.fetch_page p = some (s1, some f)) :
    s1.Inv ∧ s1.page_table_ p = some f ∧
      ∃ pg1 : Page, s1.pages_[f]? = some pg1 ∧ pg1.pin_count_ = 1 := by
  have hi1 := BufferPoolManager.fetch_page_inv s s1 h p _ hs
  refine ⟨hi1, ?_⟩
  cases hk : s.page_table_ p with
  | some g =>
    obtain ⟨pg, hpg, _⟩ := h.table_get s p g hk
    have h0 := hstart g pg hk hpg
    obtain ⟨s2, pg2, hf, _, hk2, hpg2, hpin2⟩ :=
      h.fetch_hit_step s p g pg hk hpg (by rw [h0]; decide)
    rw [hf] at hs
    cases hs
    refine ⟨hk2, pg2, hpg2, ?_⟩
    rw [hpin2, h0]
    rfl
  | none =>
    cases hv : s.find_victim_page with
    | mk s2 v =>
      cases v with
      | none =>
        rw [BufferPoolManager.fetch_page_exhausted s s2 p hk hv] at hs
        cases hs
      | some g =>
        obtain ⟨pg, r, _, hpg1, hpin, _⟩ := h.victim_install s s2 g hv
        rw [BufferPoolManager.fetch_page_miss s s2 p g pg r hk hv hpg1 hpin] at hs
        cases hs
        exact ⟨umap_set_self _ _ _, _, pages_set_self _ f pg _ hpg1, rfl⟩

/-- Repeated `fetch_page` hits of a resident page. -/
theorem BufferPoolManager.fetch_times_hits (p : PageId) (f : frame_id_t) (m : Nat) :
    ∀ (s : BufferPoolManager) (pg : Page), s.Inv → s.page_table_ p = some f →
      s.pages_[f]? = some pg → pg.pin_count_ + m ≤ INT_MAX →
      ∃ (s2 : BufferPoolManager) (pg2 : Page),
        BufferPoolManager.fetch_times p s m = some (s2, List.replicate m (some f)) ∧ s2.Inv ∧
        s2.page_table_ p = some f ∧ s2.pages_[f]? = some pg2 ∧
        pg2.pin_count_ = pg.pin_count_ + m := by
  induction m with
  | zero =>
    intro s pg h hk hpg _
    exact ⟨s, pg, rfl, h, hk, hpg, by simp⟩
  | succ m ih =>
    intro s pg h hk hpg hle
    push_cast at hle
    obtain ⟨s1, pg1, hf, hi1, hk1, hpg1, hpin1⟩ :=
      h.fetch_hit_step s p f pg hk hpg (by omega)
    obtain ⟨s2, pg2, hft, hi2, hk2, hpg2, hpin2⟩ :=
      ih s1 pg1 hi1 hk1 hpg1 (by rw [hpin1]; omega)
    refine ⟨s2, pg2, ?_, hi2, hk2, hpg2, ?_⟩
    · simp only [BufferPoolManager.fetch_times, hf, hft, List.replicate_succ]
    · rw [hpin2, hpin1]
      push_cast
      ring

/-- One successful `unpin_page` of a pinned resident page. -/
theorem BufferPoolManager.Inv.unpin_step (s : BufferPoolManager) (h : s.Inv) (p : PageId)
    (d : Bool) (f : frame_id_t) (pg : Page) (hk : s.page_table_ p = some f)
    (hpg : s.pages_[f]? = some pg) (hpos : 0 < pg.pin_count_) :
    ∃ (s1 : BufferPoolManager) (pg1 : Page), s.unpin_page p d = some (s1, true) ∧ s1.Inv ∧
      s1.page_table_ p = some f ∧ s1.pages_[f]? = some pg1 ∧
      pg1.pin_count_ = pg.pin_count_ - 1 ∧ pg1.is_dirty_ = d ∧ pg1.data_ = pg.data_ ∧
      pg1.id_ = pg.id_ ∧
      (pg.pin_count_ = 1 → f ∈ s1.replacer_.tracked) := by
  obtain ⟨r, hr, _, _, ht1, _⟩ := h.unpin_replacer s f pg (h.table_lt p f hk) hpg hpos
  have he := BufferPoolManager.unpin_page_eq s p d f pg r hk hpg hpos hr
  refine ⟨_, _, he, BufferPoolManager.unpin_page_inv s _ h p d true he, hk,
    pages_set_self _ f pg _ hpg, rfl, rfl, rfl, rfl, fun h1 => ?_⟩
  show f ∈ r.tracked
  rw [ht1 h1]
  exact List.mem_cons_self _ _

/-- Repeated `unpin_page` of a resident page, not more often than it is pinned. -/
theorem BufferPoolManager.unpin_each_spec (p : PageId) (f : frame_id_t) (ds : List Bool) :
    ∀ (s : BufferPoolManager) (pg : Page), s.Inv → s.page_table_ p = some f →
      s.pages_[f]? = some pg → (ds.length : Int) ≤ pg.pin_count_ →
      ∃ (s2 : BufferPoolManager) (pg2 : Page),
        BufferPoolManager.unpin_each p s ds = some (s2, List.replicate ds.length true) ∧
        s2.Inv ∧ s2.page_table_ p = some f ∧ s2.pages_[f]? = some pg2 ∧
        pg2.pin_count_ = pg.pin_count_ - ds.length ∧
        (1 ≤ ds.length → (ds.length : Int) = pg.pin_count_ → f ∈ s2.replacer_.tracked) := by
  induction ds with
  | nil =>
    intro s pg h hk hpg _
    exact ⟨s, pg, rfl, h, hk, hpg, by simp, fun h1 => absurd h1 (by simp)⟩
  | cons d ds ih =>
    intro s pg h hk hpg hle
    simp only [List.length_cons, Nat.cast_add, Nat.cast_one] at hle
    have hpos : 0 < pg.pin_count_ := by omega
    obtain ⟨s1, pg1, hu, hi1, hk1, hpg1, hpin1, _, _, _, htr1⟩ :=
      h.unpin_step s p d f pg hk hpg hpos
    obtain ⟨s2, pg2, hus, hi2, hk2, hpg2, hpin2, htr2⟩ :=
      ih s1 pg1 hi1 hk1 hpg1 (by omega)
    refine ⟨s2, pg2, ?_, hi2, hk2, hpg2, ?_, ?_⟩
    · simp only [BufferPoolManager.unpin_each, hu, hus, List.length_cons, List.replicate_succ]
    · rw [hpin2, hpin1]
      simp only [List.length_cons, Nat.cast_add, Nat.cast_one]
      ring
    · intro _ heq
      simp only [List.length_cons, Nat.cast_add, Nat.cast_one] at heq
      cases ds with
      | nil =>
        simp only [BufferPoolManager.unpin_each, Option.some.injEq, Prod.mk.injEq] at hus
        rw [← hus.1]
        apply htr1
        simp only [List.length_nil, Nat.cast_zero] at heq
        omega
      | cons e es =>
        apply htr2
        · simp
        · rw [hpin1]
          omega

/-! ### The ways in which the operations return -/

/-- The operation `find_victim_page` changes only the free list and the replacer. -/
theorem BufferPoolManager.find_victim_page_frame (s s1 : BufferPoolManager)
    (v : Option frame_id_t) (h : s.find_victim_page = (s1, v)) :
    s1.pages_ = s.pages_ ∧ s1.page_table_ = s.page_table_ ∧
      s1.disk_manager_ = s.disk_manager_ := by
  cases hfl : s.free_list_ with
  | cons f rest =>
    rw [BufferPoolManager.find_victim_page_free s f rest hfl] at h
    cases h
    exact ⟨rfl, rfl, rfl⟩
  | nil =>
    rw [BufferPoolManager.find_victim_page_replacer s hfl] at h
    cases h
    exact ⟨rfl, rfl, rfl⟩

/-- The three ways in which `fetch_page` returns: a hit, an exhausted pool, a miss served
by a victim frame. -/
theorem BufferPoolManager.fetch_page_cases (s s1 : BufferPoolManager) (p : PageId)
    (res : Option frame_id_t) (hs : s.fetch_page p = some (s1, res)) :
    (∃ (f : frame_id_t) (pg : Page), s.page_table_ p = some f ∧ s.pages_[f]? = some pg ∧
      s1.page_table_ = s.page_table_ ∧ s1.disk_manager_ = s.disk_manager_ ∧
      s1.pages_ = s.pages_.set f { pg with pin_count_ := pg.pin_count_ + 1 } ∧ res = some f) ∨
    (s.page_table_ p = none ∧ s1 = s ∧ res = none) ∨
    (∃ (f : frame_id_t) (pg : Page), s.page_table_ p = none ∧ s.pages_[f]? = some pg ∧
      s1.page_table_ = umap_set (umap_erase s.page_table_ pg.id_) p f ∧
      s1.disk_manager_ = ((if pg.is_dirty_ then
          s.disk_manager_.write_page pg.id_.fd pg.id_.page_no pg.data_
        else s.disk_manager_).read_page p.fd p.page_no).1 ∧
      s1.pages_ = s.pages_.set f
        { id_ := p,
          data_ := (if pg.is_dirty_ then
              s.disk_manager_.write_page pg.id_.fd pg.id_.page_no pg.data_
            else s.disk_manager_).content p,
          is_dirty_ := false, pin_count_ := 1 } ∧
      res = some f) := by
  cases hk : s.page_table_ p with
  | some f =>
    left
    cases hpg : s.pages_[f]? with
    | none => simp [BufferPoolManager.fetch_page, hk, hpg] at hs
    | some pg =>
      cases hr : (if pg.pin_count_ = 0 then s.replacer_.pin f else some s.replacer_) with
      | none => simp [BufferPoolManager.fetch_page, hk, hpg, hr] at hs
      | some r =>
        have hlt := BufferPoolManager.fetch_page_hit_lt s p f pg hk hpg _ hs
        rw [BufferPoolManager.fetch_page_hit s p f pg r hk hpg hr hlt] at hs
        cases hs
        exact ⟨f, pg, rfl, hpg, rfl, rfl, rfl, rfl⟩
  | none =>
    right
    cases hv : s.find_victim_page with
    | mk s2 v =>
      obtain ⟨hp2, ht2, hd2⟩ := BufferPoolManager.find_victim_page_frame s s2 v hv
      cases v with
      | none =>
        left
        obtain ⟨_, _, he⟩ := BufferPoolManager.find_victim_page_none_iff s s2 hv
        rw [BufferPoolManager.fetch_page_exhausted s s2 p hk hv, he] at hs
        cases hs
        exact ⟨rfl, rfl, rfl⟩
      | some f =>
        right
        cases hpg : s2.pages_[f]? with
        | none =>
          simp [BufferPoolManager.fetch_page, hk, hv, BufferPoolManager.update_page, hpg] at hs
        | some pg =>
          cases hpin : s2.replacer_.pin f with
          | none =>
            have hlt := pages_lt_of_get _ _ _ hpg
            simp [BufferPoolManager.fetch_page, hk, hv, BufferPoolManager.update_page, hpg,
              hpin, hlt] at hs
          | some r =>
            rw [BufferPoolManager.fetch_page_miss s s2 p f pg r hk hv hpg hpin] at hs
            cases hs
            rw [hp2] at hpg
            refine ⟨f, pg, rfl, hpg, ?_, ?_, ?_, rfl⟩
            · show umap_set (umap_erase s2.page_table_ pg.id_) p f = _
              rw [ht2]
            · show ((if pg.is_dirty_ then
                  s2.disk_manager_.write_page pg.id_.fd pg.id_.page_no pg.data_
                else s2.disk_manager_).read_page p.fd p.page_no).1 = _
              rw [hd2]
            · show s2.pages_.set f _ = _
              rw [hp2, hd2]

/-- The two ways in which `new_page` returns: an exhausted pool, a victim frame. -/
theorem BufferPoolManager.new_page_cases (s s1 : BufferPoolManager) (fd a : Int)
    (res : Option (frame_id_t × PageId)) (hs : s.new_page fd a = some (s1, res)) :
    (s1 = s ∧ res = none) ∨
    (∃ (f : frame_id_t) (pg : Page), s.pages_[f]? = some pg ∧
      s1.page_table_ =
        umap_set (umap_erase s.page_table_ pg.id_) { fd := fd, page_no := a } f ∧
      s1.disk_manager_ = (if pg.is_dirty_ then
          s.disk_manager_.write_page pg.id_.fd pg.id_.page_no pg.data_
        else s.disk_manager_).allocate_page fd ∧
      s1.pages_ = s.pages_.set f
        { id_ := { fd := fd, page_no := a }, data_ := PageData.zero,
          is_dirty_ := false, pin_count_ := 1 } ∧
      res = some (f, { fd := fd, page_no := a })) := by
  cases hv : s.find_victim_page with
  | mk s2 v =>
    obtain ⟨hp2, ht2, hd2⟩ := BufferPoolManager.find_victim_page_frame s s2 v hv
    cases v with
    | none =>
      left
      obtain ⟨_, _, he⟩ := BufferPoolManager.find_victim_page_none_iff s s2 hv
      rw [BufferPoolManager.new_page_exhausted s s2 fd a hv, he] at hs
      cases hs
      exact ⟨rfl, rfl⟩
    | some f =>
      right
      cases hpg : s2.pages_[f]? with
      | none => simp [BufferPoolManager.new_page, hv, hpg] at hs
      | some pg =>
        cases hpin : s2.replacer_.pin f with
        | none => simp [BufferPoolManager.new_page, hv, hpg, hpin] at hs
        | some r =>
          rw [BufferPoolManager.new_page_eq s s2 fd a f pg r hv hpg hpin] at hs
          cases hs
          rw [hp2] at hpg
          refine ⟨f, pg, hpg, ?_, ?_, ?_, rfl⟩
          · show umap_set (umap_erase s2.page_table_ pg.id_) _ f = _
            rw [ht2]
          · show (if pg.is_dirty_ then
                s2.disk_manager_.write_page pg.id_.fd pg.id_.page_no pg.data_
              else s2.disk_manager_).allocate_page fd = _
            rw [hd2]
          · show s2.pages_.set f _ = _
            rw [hp2]

/-- The two ways in which `unpin_page` returns: a failure that changes nothing, a success
that changes the pin count and the dirty flag of the frame. -/
theorem BufferPoolManager.unpin_page_cases (s s1 : BufferPoolManager) (p : PageId)
    (d b : Bool) (hs : s.unpin_page p d = some (s1, b)) :
    (s1 = s ∧ b = false) ∨
    (∃ (f : frame_id_t) (pg : Page), s.page_table_ p = some f ∧ s.pages_[f]? = some pg ∧
      s1.page_table_ = s.page_table_ ∧ s1.disk_manager_ = s.disk_manager_ ∧
      s1.pages_ = s.pages_.set f
        { pg with pin_count_ := pg.pin_count_ - 1, is_dirty_ := d } ∧ b = true) := by
  cases hk : s.page_table_ p with
  | none =>
    rw [BufferPoolManager.unpin_page_absent s p d hk] at hs
    cases hs
    exact Or.inl ⟨rfl, rfl⟩
  | some f =>
    cases hpg : s.pages_[f]? with
    | none => simp [BufferPoolManager.unpin_page, hk, hpg] at hs
    | some pg =>
      by_cases hpos : pg.pin_count_ ≤ 0
      · rw [BufferPoolManager.unpin_page_fail s p d f pg hk hpg hpos] at hs
        cases hs
        exact Or.inl ⟨rfl, rfl⟩
      · have hpos1 : 0 < pg.pin_count_ := by omega
        cases hr : (if pg.pin_count_ - 1 = 0 then s.replacer_.unpin f
            else some s.replacer_) with
        | none => simp [BufferPoolManager.unpin_page, hk, hpg, hpos, hr] at hs
        | some r =>
          rw [BufferPoolManager.unpin_page_eq s p d f pg r hk hpg hpos1 hr] at hs
          cases hs
          exact Or.inr ⟨f, pg, rfl, hpg, rfl, rfl, rfl, rfl⟩

/-- The two ways in which `flush_page` returns. -/
theorem BufferPoolManager.flush_page_cases (s s1 : BufferPoolManager) (p : PageId)
    (b : Bool) (hs : s.flush_page p = some (s1, b)) :
    (s1 = s ∧ b = false) ∨
    (∃ (f : frame_id_t) (pg : Page), s.page_table_ p = some f ∧ s.pages_[f]? = some pg ∧
      s1.page_table_ = s.page_table_ ∧
      s1.disk_manager_ = s.disk_manager_.write_page pg.id_.fd pg.id_.page_no pg.data_ ∧
      s1.pages_ = s.pages_.set f { pg with is_dirty_ := false } ∧ b = true) := by
  unfold BufferPoolManager.flush_page at hs
  cases hk : s.page_table_ p with
  | none =>
    simp only [hk, Option.some.injEq, Prod.mk.injEq] at hs
    exact Or.inl ⟨hs.1.symm, hs.2.symm⟩
  | some f =>
    cases hpg : s.pages_[f]? with
    | none => simp [hk, hpg] at hs
    | some pg =>
      simp only [hk, hpg, Option.some.injEq, Prod.mk.injEq] at hs
      obtain ⟨h1, h2⟩ := hs
      subst h1
      exact Or.inr ⟨f, pg, rfl, hpg, rfl, rfl, rfl, h2.symm⟩

/-- The two ways in which `delete_page` returns: nothing changes, or the frame is freed. -/
theorem BufferPoolManager.delete_page_cases (s s1 : BufferPoolManager) (p : PageId)
    (b : Bool) (hs : s.delete_page p = some (s1, b)) :
    s1 = s ∨
    (∃ (f : frame_id_t) (pg : Page), s.page_table_ p = some f ∧ s.pages_[f]? = some pg ∧
      s1.page_table_ = umap_erase s.page_table_ p ∧
      s1.disk_manager_ = s.disk_manager_.deallocate_page p.page_no ∧
      s1.pages_ = s.pages_.set f
        { pg with is_dirty_ := false, pin_count_ := 0,
                  id_ := { pg.id_ with page_no := INVALID_PAGE_ID } } ∧ b = true) := by
  cases hk : s.page_table_ p with
  | none =>
    rw [BufferPoolManager.delete_page_absent s p hk] at hs
    cases hs
    exact Or.inl rfl
  | some f =>
    cases hpg : s.pages_[f]? with
    | none => simp [BufferPoolManager.delete_page, hk, hpg] at hs
    | some pg =>
      by_cases hpos : 0 < pg.pin_count_
      · rw [BufferPoolManager.delete_page_pinned s p f pg hk hpg hpos] at hs
        cases hs
        exact Or.inl rfl
      · rw [BufferPoolManager.delete_page_eq s p f pg hk hpg (by omega)] at hs
        cases hs
        exact Or.inr ⟨f, pg, rfl, hpg, rfl, rfl, rfl, rfl⟩

/-- The two ways in which one iteration of `flush_all_pages` returns. -/
theorem BufferPoolManager.flush_all_pages_body_cases (fd : Int) (s s1 : BufferPoolManager)
    (i : Nat) (hs : BufferPoolManager.flush_all_pages_body fd s i = some s1) :
    s1 = s ∨
    (∃ pg : Page, s.pages_[i]? = some pg ∧ pg.id_.page_no ≠ INVALID_PAGE_ID ∧
      s1.page_table_ = s.page_table_ ∧
      s1.disk_manager_ = s.disk_manager_.write_page pg.id_.fd pg.id_.page_no pg.data_ ∧
      s1.pages_ = s.pages_.set i { pg with is_dirty_ := false }) := by
  unfold BufferPoolManager.flush_all_pages_body at hs
  cases hpg : s.pages_[i]? with
  | none => simp [hpg] at hs
  | some pg =>
    simp only [hpg] at hs
    split at hs
    · rename_i hc
      simp only [Option.some.injEq] at hs
      subst hs
      exact Or.inr ⟨pg, rfl, hc.2, rfl, rfl, rfl⟩
    · simp only [Option.some.injEq] at hs
      exact Or.inl hs.symm

/-- A property of pool states that every iteration of the loop of `flush_all_pages`
preserves is preserved by the loop. -/
theorem BufferPoolManager.flush_all_pages_loop_preserves (Q : BufferPoolManager → Prop)
    (fd : Int)
    (hbody : ∀ (s s1 : BufferPoolManager) (i : Nat), Q s →
      BufferPoolManager.flush_all_pages_body fd s i = some s1 → Q s1)
    (is : List Nat) :
    ∀ (s s1 : BufferPoolManager), Q s →
      BufferPoolManager.flush_all_pages_loop fd s is = some s1 → Q s1 := by
  induction is with
  | nil =>
    intro s s1 h hs
    simp only [BufferPoolManager.flush_all_pages_loop, Option.some.injEq] at hs
    rw [← hs]
    exact h
  | cons i is ih =>
    intro s s1 h hs
    simp only [BufferPoolManager.flush_all_pages_loop] at hs
    cases hb : BufferPoolManager.flush_all_pages_body fd s i with
    | none => simp [hb] at hs
    | some s2 =>
      simp only [hb] at hs
      exact ih s2 s1 (hbody s s2 i h hb) hs

/-! ### The content of the disk -/

theorem DiskManager.write_page_content_ne (d : DiskManager) (id : PageId) (data : PageData)
    (p : PageId) (h : id ≠ p) : (d.write_page id.fd id.page_no data).content p = d.content p := by
  have : ¬ p = { fd := id.fd, page_no := id.page_no } := fun hc => h hc.symm
  simp [DiskManager.write_page, this]

theorem DiskManager.write_page_content_self (d : DiskManager) (id : PageId) (data : PageData) :
    (d.write_page id.fd id.page_no data).content id = data := by
  simp [DiskManager.write_page]

/-- The content of the disk under `p` after the write-back of a frame that does not hold
`p`, whether it is dirty or not. -/
theorem DiskManager.write_back_content_ne (d : DiskManager) (pg : Page) (p : PageId)
    (h : pg.id_ ≠ p) :
    (if pg.is_dirty_ then d.write_page pg.id_.fd pg.id_.page_no pg.data_ else d).content p
      = d.content p := by
  split
  · exact DiskManager.write_page_content_ne d pg.id_ pg.data_ p h
  · rfl

/-! ### Preservation of `Mapped` -/

theorem BufferPoolManager.Mapped.same_ids (s s1 : BufferPoolManager) (hm : s.Mapped)
    (g : frame_id_t) (pg pg1 : Page) (hpg : s.pages_[g]? = some pg)
    (ht : s1.page_table_ = s.page_table_) (hp : s1.pages_ = s.pages_.set g pg1)
    (hid : pg1.id_ = pg.id_) : s1.Mapped := by
  constructor
  · intro k f hk
    rw [ht] at hk
    exact hm.keys_valid k f hk
  · intro f pg2 hpg2 hv
    rw [hp] at hpg2
    rw [ht]
    rcases pages_set_get _ g f pg _ pg2 hpg hpg2 with ⟨rfl, rfl⟩ | ⟨_, h1⟩
    · rw [hid] at hv ⊢
      exact hm.held_mapped f pg hpg hv
    · exact hm.held_mapped f pg2 h1 hv

theorem BufferPoolManager.Mapped.install_mapped (s s1 : BufferPoolManager) (hm : s.Mapped)
    (f : frame_id_t) (pg pg1 : Page) (pid : PageId) (hpg : s.pages_[f]? = some pg)
    (hnew : s.page_table_ pid = none) (hvalid : pid.page_no ≠ INVALID_PAGE_ID)
    (ht : s1.page_table_ = umap_set (umap_erase s.page_table_ pg.id_) pid f)
    (hp : s1.pages_ = s.pages_.set f pg1) (hid : pg1.id_ = pid) : s1.Mapped := by
  constructor
  · intro k g hk
    rw [ht] at hk
    by_cases h1 : k = pid
    · rw [h1]; exact hvalid
    · rw [umap_set_ne _ _ _ _ h1] at hk
      by_cases h2 : k = pg.id_
      · rw [h2, umap_erase_self] at hk
        cases hk
      · rw [umap_erase_ne _ _ _ h2] at hk
        exact hm.keys_valid k g hk
  · intro g pg2 hpg2 hv
    rw [hp] at hpg2
    rw [ht]
    rcases pages_set_get _ f g pg _ pg2 hpg hpg2 with ⟨rfl, rfl⟩ | ⟨hne, h1⟩
    · rw [hid]
      exact umap_set_self _ _ _
    · have hmap := hm.held_mapped g pg2 h1 hv
      have h2 : pg2.id_ ≠ pid := by
        intro hc
        rw [hc, hnew] at hmap
        cases hmap
      have h3 : pg2.id_ ≠ pg.id_ := by
        intro hc
        have hv' : pg.id_.page_no ≠ INVALID_PAGE_ID := by rw [← hc]; exact hv
        have := hm.held_mapped f pg hpg hv'
        rw [← hc, hmap] at this
        cases this
        exact hne rfl
      rw [umap_set_ne _ _ _ _ h2, umap_erase_ne _ _ _ h3]
      exact hmap

theorem BufferPoolManager.Mapped.delete_mapped (s s1 : BufferPoolManager) (hm : s.Mapped)
    (f : frame_id_t) (pg pg1 : Page) (pid : PageId) (hk : s.page_table_ pid = some f)
    (hpg : s.pages_[f]? = some pg)
    (ht : s1.page_table_ = umap_erase s.page_table_ pid)
    (hp : s1.pages_ = s.pages_.set f pg1) (hid : pg1.id_.page_no = INVALID_PAGE_ID) :
    s1.Mapped := by
  constructor
  · intro k g hkg
    rw [ht] at hkg
    by_cases h1 : k = pid
    · rw [h1, umap_erase_self] at hkg
      cases hkg
    · rw [umap_erase_ne _ _ _ h1] at hkg
      exact hm.keys_valid k g hkg
  · intro g pg2 hpg2 hv
    rw [hp] at hpg2
    rw [ht]
    rcases pages_set_get _ f g pg _ pg2 hpg hpg2 with ⟨rfl, rfl⟩ | ⟨hne, h1⟩
    · exact absurd hid hv
    · have hmap := hm.held_mapped g pg2 h1 hv
      have h2 : pg2.id_ ≠ pid := by
        intro hc
        rw [hc, hk] at hmap
        cases hmap
        exact hne rfl
      rw [umap_erase_ne _ _ _ h2]
      exact hmap

theorem BufferPoolManager.flush_all_pages_body_mapped (fd : Int) (s s1 : BufferPoolManager)
    (hm : s.Mapped) (i : Nat)
    (hs : BufferPoolManager.flush_all_pages_body fd s i = some s1) : s1.Mapped := by
  rcases BufferPoolManager.flush_all_pages_body_cases fd s s1 i hs with rfl | h
  · exact hm
  · obtain ⟨pg, hpg, _, ht, _, hp⟩ := h
    exact BufferPoolManager.Mapped.same_ids s s1 hm i pg _ hpg ht hp rfl

theorem BufferPoolManager.step_mapped (s s1 : BufferPoolManager) (hm : s.Mapped) (op : Op)
    (hwf : op.WellFormed s) (hs : s.step op = some s1) : s1.Mapped := by
  cases op with
  | fetch_page pid =>
    simp only [BufferPoolManager.step, Option.map_eq_some'] at hs
    obtain ⟨⟨s2, res⟩, h1, rfl⟩ := hs
    rcases BufferPoolManager.fetch_page_cases s s2 pid res h1 with h | h | h
    · obtain ⟨f, pg, _, hpg, ht, _, hp, _⟩ := h
      exact BufferPoolManager.Mapped.same_ids s s2 hm f pg _ hpg ht hp rfl
    · rw [h.2.1]; exact hm
    · obtain ⟨f, pg, hk, hpg, ht, _, hp, _⟩ := h
      exact BufferPoolManager.Mapped.install_mapped s s2 hm f pg _ pid hpg hk hwf ht hp rfl
  | new_page fd a =>
    simp only [BufferPoolManager.step, Option.map_eq_some'] at hs
    obtain ⟨⟨s2, res⟩, h1, rfl⟩ := hs
    rcases BufferPoolManager.new_page_cases s s2 fd a res h1 with h | h
    · rw [h.1]; exact hm
    · obtain ⟨f, pg, hpg, ht, _, hp, _⟩ := h
      exact BufferPoolManager.Mapped.install_mapped s s2 hm f pg _ _ hpg hwf.2 hwf.1 ht hp rfl
  | unpin_page pid d =>
    simp only [BufferPoolManager.step, Option.map_eq_some'] at hs
    obtain ⟨⟨s2, res⟩, h1, rfl⟩ := hs
    rcases BufferPoolManager.unpin_page_cases s s2 pid d res h1 with h | h
    · rw [h.1]; exact hm
    · obtain ⟨f, pg, _, hpg, ht, _, hp, _⟩ := h
      exact BufferPoolManager.Mapped.same_ids s s2 hm f pg _ hpg ht hp rfl
  | flush_page pid =>
    simp only [BufferPoolManager.step, Option.map_eq_some'] at hs
    obtain ⟨⟨s2, res⟩, h1, rfl⟩ := hs
    rcases BufferPoolManager.flush_page_cases s s2 pid res h1 with h | h
    · rw [h.1]; exact hm
    · obtain ⟨f, pg, _, hpg, ht, _, hp, _⟩ := h
      exact BufferPoolManager.Mapped.same_ids s s2 hm f pg _ hpg ht hp rfl
  | delete_page pid =>
    simp only [BufferPoolManager.step, Option.map_eq_some'] at hs
    obtain ⟨⟨s2, res⟩, h1, rfl⟩ := hs
    rcases BufferPoolManager.delete_page_cases s s2 pid res h1 with h | h
    · rw [h]; exact hm
    · obtain ⟨f, pg, hk, hpg, ht, _, hp, _⟩ := h
      exact BufferPoolManager.Mapped.delete_mapped s s2 hm f pg _ pid hk hpg ht hp rfl
  | flush_all_pages fd =>
    exact BufferPoolManager.flush_all_pages_loop_preserves BufferPoolManager.Mapped fd
      (fun t t1 i ht hb => BufferPoolManager.flush_all_pages_body_mapped fd t t1 ht i hb)
      _ s s1 hm hs
  | write_data f data =>
    unfold BufferPoolManager.step BufferPoolManager.write_data at hs
    cases hpg : s.pages_[f]? with
    | none => simp [hpg] at hs
    | some pg =>
      simp only [hpg, Option.some.injEq] at hs
      subst hs
      exact BufferPoolManager.Mapped.same_ids s _ hm f pg _ hpg rfl rfl rfl

theorem BufferPoolManager.fresh_mapped (s : BufferPoolManager) (h : s.Fresh) :
    s.Mapped := by
  constructor
  · intro k f hk
    rw [h.initial.table_empty] at hk
    cases hk
  · intro f pg hpg hv
    exact absurd (h.pages_invalid pg (List.mem_iff_getElem?.2 ⟨f, hpg⟩)) hv

/-- Well-formed steps are steps. -/
theorem Steps.to_reachable (P : BufferPoolManager → Op → Prop) (s s1 : BufferPoolManager)
    (h : Steps P s s1) (hs : s.Reachable) : s1.Reachable := by
  induction h with
  | refl => exact hs
  | step t t1 op _ _ hstep ih => exact BufferPoolManager.Reachable.step _ _ op ih hstep

theorem BufferPoolManager.wf_reachable_reachable (s : BufferPoolManager) (h : s.WFReachable) :
    s.Reachable := by
  obtain ⟨s0, hi, hsteps⟩ := h
  exact Steps.to_reachable _ s0 s hsteps (BufferPoolManager.Reachable.init s0 hi.initial)

theorem BufferPoolManager.wf_reachable_mapped (s : BufferPoolManager) (h : s.WFReachable) :
    s.Mapped := by
  obtain ⟨s0, hi, hsteps⟩ := h
  induction hsteps with
  | refl => exact BufferPoolManager.fresh_mapped _ hi
  | step t t1 op _ hop hstep ih => exact BufferPoolManager.step_mapped _ _ ih op hop hstep

/-! ### A page that is cached, then evicted, then fetched again -/

theorem BufferPoolManager.Cached.update_other (p : PageId) (f : frame_id_t) (b : PageData)
    (s s1 : BufferPoolManager) (hc : s.Cached p f b) (g : frame_id_t) (pg1 : Page)
    (ht : s1.page_table_ p = some f) (hp : s1.pages_ = s.pages_.set g pg1) (hg : g ≠ f)
    (hd : s1.disk_manager_.content p = s.disk_manager_.content p) : s1.Cached p f b := by
  obtain ⟨_, pg, hpg, hdata, hdirty⟩ := hc
  refine ⟨ht, pg, ?_, hdata, ?_⟩
  · rw [hp, List.getElem?_set_ne hg]
    exact hpg
  · rw [hd]
    exact hdirty

theorem BufferPoolManager.Cached.flush_self (p : PageId) (f : frame_id_t) (b : PageData)
    (s s1 : BufferPoolManager) (hc : s.Cached p f b) (pg : Page)
    (hpg : s.pages_[f]? = some pg) (hid : pg.id_ = p)
    (ht : s1.page_table_ = s.page_table_)
    (hp : s1.pages_ = s.pages_.set f { pg with is_dirty_ := false })
    (hd : s1.disk_manager_ = s.disk_manager_.write_page pg.id_.fd pg.id_.page_no pg.data_) :
    s1.Cached p f b := by
  obtain ⟨hk, pg0, hpg0, hdata, _⟩ := hc
  rw [hpg] at hpg0
  cases hpg0
  refine ⟨by rw [ht]; exact hk, { pg with is_dirty_ := false }, ?_, hdata, Or.inr ?_⟩
  · rw [hp]
    exact pages_set_self _ f pg _ hpg
  · rw [hd, ← hid, DiskManager.write_page_content_self]
    exact hdata

theorem BufferPoolManager.Cached.evict (p : PageId) (f : frame_id_t) (b : PageData)
    (s s1 : BufferPoolManager) (hi : s.Inv) (hm : s.Mapped) (hc : s.Cached p f b)
    (hv : p.page_no ≠ INVALID_PAGE_ID) (pg pg1 : Page) (pid : PageId)
    (hpg : s.pages_[f]? = some pg) (hpid : pid ≠ p)
    (ht : s1.page_table_ = umap_set (umap_erase s.page_table_ pg.id_) pid f)
    (hp : s1.pages_ = s.pages_.set f pg1) (hid : pg1.id_ = pid)
    (hd : s1.disk_manager_.content p = (if pg.is_dirty_ then
        s.disk_manager_.write_page pg.id_.fd pg.id_.page_no pg.data_
      else s.disk_manager_).content p) : s1.Evicted p b := by
  obtain ⟨hk, pg0, hpg0, hdata, hdirty⟩ := hc
  rw [hpg] at hpg0
  cases hpg0
  have hidp : pg.id_ = p := hi.table_id p f pg hk hpg
  refine ⟨?_, ?_, ?_⟩
  · rw [ht, umap_set_ne _ _ _ _ (Ne.symm hpid), hidp, umap_erase_self]
  · rw [hd]
    cases hdd : pg.is_dirty_ with
    | true =>
      simp only [if_true]
      rw [← hidp, DiskManager.write_page_content_self]
      exact hdata
    | false =>
      rcases hdirty with h1 | h1
      · rw [hdd] at h1
        cases h1
      · simpa using h1
  · intro g pg2 hpg2 hc2
    rw [hp] at hpg2
    rcases pages_set_get _ f g pg _ pg2 hpg hpg2 with ⟨rfl, rfl⟩ | ⟨hne, h1⟩
    · exact hpid (hid.symm.trans hc2)
    · have := hm.held_mapped g pg2 h1 (by rw [hc2]; exact hv)
      rw [hc2, hk] at this
      cases this
      exact hne rfl

theorem BufferPoolManager.Evicted.update (p : PageId) (b : PageData)
    (s s1 : BufferPoolManager) (he : s.Evicted p b) (g : frame_id_t) (pg pg1 : Page)
    (hpg : s.pages_[g]? = some pg)
    (ht : s1.page_table_ p = none) (hp : s1.pages_ = s.pages_.set g pg1)
    (hid : pg1.id_ ≠ p)
    (hd : s1.disk_manager_.content p = s.disk_manager_.content p) : s1.Evicted p b := by
  obtain ⟨_, hdisk, hids⟩ := he
  refine ⟨ht, by rw [hd]; exact hdisk, ?_⟩
  intro g2 pg2 hpg2
  rw [hp] at hpg2
  rcases pages_set_get _ g g2 pg _ pg2 hpg hpg2 with ⟨_, rfl⟩ | ⟨_, h1⟩
  · exact hid
  · exact hids g2 pg2 h1

/-- In a state in which `p` is cached in frame `f`, the frame of another resident page
is another frame. -/
theorem BufferPoolManager.Cached.other_frame (p : PageId) (f : frame_id_t) (b : PageData)
    (s : BufferPoolManager) (hi : s.Inv) (hc : s.Cached p f b) (q : PageId) (g : frame_id_t)
    (hq : q ≠ p) (hk : s.page_table_ q = some g) : g ≠ f := by
  rintro rfl
  obtain ⟨hkp, pg, hpg, _⟩ := hc
  exact hq ((hi.table_id q g pg hk hpg).symm.trans (hi.table_id p g pg hkp hpg))

/-- In a state in which `p` is cached in frame `f`, another frame does not hold `p`. -/
theorem BufferPoolManager.Cached.other_id (p : PageId) (f : frame_id_t) (b : PageData)
    (s : BufferPoolManager) (hm : s.Mapped) (hc : s.Cached p f b)
    (hv : p.page_no ≠ INVALID_PAGE_ID) (g : frame_id_t) (pg : Page)
    (hpg : s.pages_[g]? = some pg) (hg : g ≠ f) : pg.id_ ≠ p := by
  intro hid
  have := hm.held_mapped g pg hpg (by rw [hid]; exact hv)
  rw [hid, hc.1] at this
  cases this
  exact hg rfl

/-- Installing another page in a victim frame keeps `p` cached, or evicts it when the
victim frame is the frame of `p`. -/
theorem BufferPoolManager.round_trip_install (p : PageId) (f : frame_id_t) (b : PageData)
    (s s1 : BufferPoolManager) (hi : s.Inv) (hm : s.Mapped)
    (hv : p.page_no ≠ INVALID_PAGE_ID) (hj : s.Cached p f b ∨ s.Evicted p b)
    (g : frame_id_t) (pg pg1 : Page) (pid : PageId) (hpg : s.pages_[g]? = some pg)
    (hpid : pid ≠ p)
    (ht : s1.page_table_ = umap_set (umap_erase s.page_table_ pg.id_) pid g)
    (hp : s1.pages_ = s.pages_.set g pg1) (hid : pg1.id_ = pid)
    (hd : s1.disk_manager_.content p = (if pg.is_dirty_ then
        s.disk_manager_.write_page pg.id_.fd pg.id_.page_no pg.data_
      else s.disk_manager_).content p) :
    s1.Cached p f b ∨ s1.Evicted p b := by
  rcases hj with hc | he
  · by_cases hg : g = f
    · subst hg
      exact Or.inr (BufferPoolManager.Cached.evict p g b s s1 hi hm hc hv pg pg1 pid hpg hpid
        ht hp hid hd)
    · left
      have hne := BufferPoolManager.Cached.other_id p f b s hm hc hv g pg hpg hg
      apply BufferPoolManager.Cached.update_other p f b s s1 hc g pg1 _ hp hg
      · rw [hd, DiskManager.write_back_content_ne _ pg p hne]
      · rw [ht, umap_set_ne _ _ _ _ (Ne.symm hpid), umap_erase_ne _ _ _ (Ne.symm hne)]
        exact hc.1
  · right
    have hne : pg.id_ ≠ p := he.2.2 g pg hpg
    apply BufferPoolManager.Evicted.update p b s s1 he g pg pg1 hpg _ hp (by rw [hid]; exact hpid)
    · rw [hd, DiskManager.write_back_content_ne _ pg p hne]
    · rw [ht, umap_set_ne _ _ _ _ (Ne.symm hpid), umap_erase_ne _ _ _ (Ne.symm hne)]
      exact he.1

/-- An operation on another resident page `q`, which changes only the frame of `q` and
keeps the page table and the content of the disk under `p`. -/
theorem BufferPoolManager.round_trip_touch (p : PageId) (f : frame_id_t) (b : PageData)
    (s s1 : BufferPoolManager) (hi : s.Inv) (hj : s.Cached p f b ∨ s.Evicted p b)
    (q : PageId) (g : frame_id_t) (pg pg1 : Page) (hq : q ≠ p)
    (hk : s.page_table_ q = some g) (hpg : s.pages_[g]? = some pg)
    (ht : s1.page_table_ = s.page_table_) (hp : s1.pages_ = s.pages_.set g pg1)
    (hid : pg1.id_ = pg.id_)
    (hd : s1.disk_manager_.content p = s.disk_manager_.content p) :
    s1.Cached p f b ∨ s1.Evicted p b := by
  rcases hj with hc | he
  · left
    exact BufferPoolManager.Cached.update_other p f b s s1 hc g pg1 (by rw [ht]; exact hc.1) hp
      (BufferPoolManager.Cached.other_frame p f b s hi hc q g hq hk) hd
  · right
    exact BufferPoolManager.Evicted.update p b s s1 he g pg pg1 hpg (by rw [ht]; exact he.1) hp
      (by rw [hid]; exact he.2.2 g pg hpg) hd

theorem BufferPoolManager.round_trip_flush_body (p : PageId) (f : frame_id_t) (b : PageData)
    (fd : Int) (s s1 : BufferPoolManager) (i : Nat)
    (h : (s.Inv ∧ s.Mapped) ∧ (s.Cached p f b ∨ s.Evicted p b))
    (hv : p.page_no ≠ INVALID_PAGE_ID)
    (hs : BufferPoolManager.flush_all_pages_body fd s i = some s1) :
    (s1.Inv ∧ s1.Mapped) ∧ (s1.Cached p f b ∨ s1.Evicted p b) := by
  obtain ⟨⟨hi, hm⟩, hj⟩ := h
  refine ⟨⟨BufferPoolManager.flush_all_pages_body_inv fd s s1 hi i hs,
    BufferPoolManager.flush_all_pages_body_mapped fd s s1 hm i hs⟩, ?_⟩
  rcases BufferPoolManager.flush_all_pages_body_cases fd s s1 i hs with rfl | hc
  · exact hj
  · obtain ⟨pg, hpg, _, ht, hd, hp⟩ := hc
    rcases hj with hc | he
    · left
      by_cases hif : i = f
      · subst hif
        exact BufferPoolManager.Cached.flush_self p i b s s1 hc pg hpg
          (hi.table_id p i pg hc.1 hpg) ht hp hd
      · apply BufferPoolManager.Cached.update_other p f b s s1 hc i _ (by rw [ht]; exact hc.1)
          hp hif
        rw [hd, DiskManager.write_page_content_ne _ _ _ _
          (BufferPoolManager.Cached.other_id p f b s hm hc hv i pg hpg hif)]
    · right
      apply BufferPoolManager.Evicted.update p b s s1 he i pg _ hpg (by rw [ht]; exact he.1) hp
        (he.2.2 i pg hpg)
      rw [hd, DiskManager.write_page_content_ne _ _ _ _ (he.2.2 i pg hpg)]

/-- One operation that is not an operation on `p` keeps `p` cached with the bytes `b`, or
evicted with the bytes `b` on disk. -/
theorem BufferPoolManager.round_trip_step (p : PageId) (f : frame_id_t) (b : PageData)
    (s s1 : BufferPoolManager) (hi : s.Inv) (hm : s.Mapped)
    (hv : p.page_no ≠ INVALID_PAGE_ID) (hj : s.Cached p f b ∨ s.Evicted p b) (op : Op)
    (hq : op.Quiet p s) (hs : s.step op = some s1) :
    s1.Cached p f b ∨ s1.Evicted p b := by
  cases op with
  | fetch_page pid =>
    simp only [BufferPoolManager.step, Option.map_eq_some'] at hs
    obtain ⟨⟨s2, res⟩, h1, rfl⟩ := hs
    rcases BufferPoolManager.fetch_page_cases s s2 pid res h1 with h | h | h
    · obtain ⟨g, pg, hk, hpg, ht, hd, hp, _⟩ := h
      exact BufferPoolManager.round_trip_touch p f b s s2 hi hj pid g pg _ hq hk hpg ht hp rfl
        (by rw [hd])
    · rw [h.2.1]; exact hj
    · obtain ⟨g, pg, _, hpg, ht, hd, hp, _⟩ := h
      exact BufferPoolManager.round_trip_install p f b s s2 hi hm hv hj g pg _ pid hpg hq ht
        hp rfl (by rw [hd]; rfl)
  | new_page fd a =>
    simp only [BufferPoolManager.step, Option.map_eq_some'] at hs
    obtain ⟨⟨s2, res⟩, h1, rfl⟩ := hs
    rcases BufferPoolManager.new_page_cases s s2 fd a res h1 with h | h
    · rw [h.1]; exact hj
    · obtain ⟨g, pg, hpg, ht, hd, hp, _⟩ := h
      exact BufferPoolManager.round_trip_install p f b s s2 hi hm hv hj g pg _ _ hpg hq ht
        hp rfl (by rw [hd]; rfl)
  | unpin_page pid d =>
    simp only [BufferPoolManager.step, Option.map_eq_some'] at hs
    obtain ⟨⟨s2, res⟩, h1, rfl⟩ := hs
    rcases BufferPoolManager.unpin_page_cases s s2 pid d res h1 with h | h
    · rw [h.1]; exact hj
    · obtain ⟨g, pg, hk, hpg, ht, hd, hp, _⟩ := h
      exact BufferPoolManager.round_trip_touch p f b s s2 hi hj pid g pg _ hq hk hpg ht hp rfl
        (by rw [hd])
  | flush_page pid =>
    simp only [BufferPoolManager.step, Option.map_eq_some'] at hs
    obtain ⟨⟨s2, res⟩, h1, rfl⟩ := hs
    rcases BufferPoolManager.flush_page_cases s s2 pid res h1 with h | h
    · rw [h.1]; exact hj
    · obtain ⟨g, pg, hk, hpg, ht, hd, hp, _⟩ := h
      have hne : pg.id_ ≠ p := by
        rw [hi.table_id pid g pg hk hpg]
        exact hq
      exact BufferPoolManager.round_trip_touch p f b s s2 hi hj pid g pg _ hq hk hpg ht hp rfl
        (by rw [hd, DiskManager.write_page_content_ne _ _ _ _ hne])
  | delete_page pid =>
    simp only [BufferPoolManager.step, Option.map_eq_some'] at hs
    obtain ⟨⟨s2, res⟩, h1, rfl⟩ := hs
    rcases BufferPoolManager.delete_page_cases s s2 pid res h1 with h | h
    · rw [h]; exact hj
    · obtain ⟨g, pg, hk, hpg, ht, hd, hp, _⟩ := h
      have htp : s2.page_table_ p = s.page_table_ p := by
        rw [ht, umap_erase_ne _ _ _ (Ne.symm hq)]
      rcases hj with hc | he
      · left
        exact BufferPoolManager.Cached.update_other p f b s s2 hc g _ (by rw [htp]; exact hc.1)
          hp (BufferPoolManager.Cached.other_frame p f b s hi hc pid g hq hk) (by rw [hd]; rfl)
      · right
        refine BufferPoolManager.Evicted.update p b s s2 he g pg _ hpg (by rw [htp]; exact he.1)
          hp ?_ (by rw [hd]; rfl)
        intro hc
        apply hv
        rw [← hc]
  | flush_all_pages fd =>
    exact (BufferPoolManager.flush_all_pages_loop_preserves
      (fun t => (t.Inv ∧ t.Mapped) ∧ (t.Cached p f b ∨ t.Evicted p b)) fd
      (fun t t1 i ht hb => BufferPoolManager.round_trip_flush_body p f b fd t t1 i ht hv hb)
      _ s s1 ⟨⟨hi, hm⟩, hj⟩ hs).2
  | write_data g data =>
    unfold BufferPoolManager.step BufferPoolManager.write_data at hs
    cases hpg : s.pages_[g]? with
    | none => simp [hpg] at hs
    | some pg =>
      simp only [hpg, Option.some.injEq] at hs
      subst hs
      rcases hj with hc | he
      · left
        refine BufferPoolManager.Cached.update_other p f b s _ hc g _ hc.1 rfl ?_ rfl
        rintro rfl
        exact hq hc.1
      · right
        exact BufferPoolManager.Evicted.update p b s _ he g pg _ hpg he.1 rfl
          (he.2.2 g pg hpg) rfl

/-- Operations that are well formed and are not operations on `p` keep `p` cached with
the bytes `b`, or evicted with the bytes `b` on disk. -/
theorem BufferPoolManager.round_trip_steps (p : PageId) (f : frame_id_t) (b : PageData)
    (s s1 : BufferPoolManager)
    (h : Steps (fun t op => op.WellFormed t ∧ op.Quiet p t) s s1)
    (hv : p.page_no ≠ INVALID_PAGE_ID)
    (hs : (s.Inv ∧ s.Mapped) ∧ (s.Cached p f b ∨ s.Evicted p b)) :
    (s1.Inv ∧ s1.Mapped) ∧ (s1.Cached p f b ∨ s1.Evicted p b) := by
  induction h with
  | refl => exact hs
  | step t t1 op _ hop hstep ih =>
    obtain ⟨⟨hi, hm⟩, hj⟩ := ih
    exact ⟨⟨BufferPoolManager.step_inv _ _ hi op hstep,
      BufferPoolManager.step_mapped _ _ hm op hop.1 hstep⟩,
      BufferPoolManager.round_trip_step p f b _ _ hi hm hv hj op hop.2 hstep⟩

/-- A successful `fetch_page(p)` of a page that is cached with the bytes `b`, or evicted
with the bytes `b` on disk, returns a frame whose content is `b`. -/
theorem BufferPoolManager.round_trip_fetch (p : PageId) (f : frame_id_t) (b : PageData)
    (s s1 : BufferPoolManager) (hj : s.Cached p f b ∨ s.Evicted p b) (g : frame_id_t)
    (hs : s.fetch_page p = some (s1, some g)) :
    ∃ pg : Page, s1.pages_[g]? = some pg ∧ pg.data_ = b := by
  rcases BufferPoolManager.fetch_page_cases s s1 p _ hs with h | h | h
  · obtain ⟨g1, pg, hk, hpg, _, _, hp, hres⟩ := h
    obtain rfl : g = g1 := Option.some.inj hres
    rcases hj with hc | he
    · obtain ⟨hk0, pg0, hpg0, hdata, _⟩ := hc
      rw [hk] at hk0
      obtain rfl : g = f := Option.some.inj hk0
      rw [hpg] at hpg0
      cases hpg0
      exact ⟨{ pg with pin_count_ := pg.pin_count_ + 1 },
        by rw [hp]; exact pages_set_self _ g pg _ hpg, hdata⟩
    · rw [he.1] at hk
      cases hk
  · cases h.2.2
  · obtain ⟨g1, pg, hk, hpg, _, _, hp, hres⟩ := h
    obtain rfl : g = g1 := Option.some.inj hres
    rcases hj with hc | he
    · rw [hc.1] at hk
      cases hk
    · refine ⟨_, by rw [hp]; exact pages_set_self _ g pg _ hpg, ?_⟩
      show (if pg.is_dirty_ then
          s.disk_manager_.write_page pg.id_.fd pg.id_.page_no pg.data_
        else s.disk_manager_).content p = b
      rw [DiskManager.write_back_content_ne _ pg p (he.2.2 g pg hpg)]
      exact he.2.1

/-- After a `fetch_page` miss or a `new_page` for another page whose victim frame is the
frame of `p`, page `p` is no longer resident. -/
theorem BufferPoolManager.evict_not_resident (s s1 t : BufferPoolManager) (hi : s.Inv)
    (p : PageId) (f : frame_id_t) (ev : Op) (hk : s.page_table_ p = some f)
    (hv : s.find_victim_page = (t, some f))
    (hkind : (∃ q : PageId, ev = Op.fetch_page q ∧ s.page_table_ q = none) ∨
      (∃ fd a : Int, ev = Op.new_page fd a))
    (hq : ev.Quiet p s) (hs : s.step ev = some s1) : s1.page_table_ p = none := by
  obtain ⟨pg, r, hpg, hpg1, hpin, _, _, htab, _⟩ := hi.victim_install s t f hv
  have hid : pg.id_ = p := hi.table_id p f pg hk hpg
  rcases hkind with ⟨q, rfl, hmiss⟩ | ⟨fd, a, rfl⟩
  · simp only [BufferPoolManager.step,
      BufferPoolManager.fetch_page_miss s t q f pg r hmiss hv hpg1 hpin, Option.map_some',
      Option.some.injEq] at hs
    rw [← hs]
    show umap_set (umap_erase t.page_table_ pg.id_) q f p = none
    rw [umap_set_ne _ _ _ _ (Ne.symm hq), hid, umap_erase_self]
  · simp only [BufferPoolManager.step,
      BufferPoolManager.new_page_eq s t fd a f pg r hv hpg1 hpin, Option.map_some',
      Option.some.injEq] at hs
    rw [← hs]
    show umap_set (umap_erase t.page_table_ pg.id_) _ f p = none
    rw [umap_set_ne _ _ _ _ (Ne.symm hq), hid, umap_erase_self]

theorem Example.pool_written_wf_reachable : Example.pool_written.WFReachable :=
  ⟨BufferPoolManager.create 1 Example.disk, BufferPoolManager.create_fresh 1 Example.disk,
    Steps.step _ _ _ (Op.write_data 0 (PageData.fill 7))
      (Steps.step _ _
        ((BufferPoolManager.create 1 Example.disk).run_or [Op.fetch_page Example.pageA])
        (Op.fetch_page Example.pageA) (Steps.refl _)
        (by decide : Example.pageA.page_no ≠ INVALID_PAGE_ID) rfl)
      trivial rfl⟩

/-! ### The capacity of the replacer -/

/-- In a reachable replacer state `Size()` does not exceed the capacity. -/
theorem LRUReplacer.reachable_size_le (r : LRUReplacer) (h : r.Reachable) :
    r.Size ≤ r.max_size_ := by
  induction h with
  | create n => simp [LRUReplacer.Size, LRUReplacer.create]
  | victim r hr ih =>
    have hc := LRUReplacer.reachable_consistent r hr
    obtain ⟨_, _, htr, hm⟩ := LRUReplacer.victim_spec r hc
    rw [LRUReplacer.size_eq_tracked_length, htr, hm, List.length_dropLast]
    rw [LRUReplacer.size_eq_tracked_length] at ih
    omega
  | pin r r1 f hr hpin ih =>
    have hc := LRUReplacer.reachable_consistent r hr
    obtain ⟨r2, h2, _, ht, hm⟩ := LRUReplacer.pin_spec r hc f
    rw [hpin] at h2
    obtain rfl : r1 = r2 := Option.some.inj h2
    rw [LRUReplacer.size_eq_tracked_length, ht, hm]
    rw [LRUReplacer.size_eq_tracked_length] at ih
    exact le_trans (List.length_filter_le _ _) ih
  | unpin r r1 f hr hun ih =>
    have hc := LRUReplacer.reachable_consistent r hr
    by_cases hf : f ∈ r.tracked
    · rw [LRUReplacer.unpin_tracked r hc f hf] at hun
      obtain rfl : r = r1 := Option.some.inj hun
      exact ih
    · have hnone := (LRUReplacer.hash_none_iff r hc f).2 hf
      obtain ⟨r2, h2, _, hm, ht⟩ := LRUReplacer.unpin_spec r hc f hf
        (LRUReplacer.unpin_defined_cap r r1 f hnone hun)
      rw [hun] at h2
      obtain rfl : r1 = r2 := Option.some.inj h2
      have hlen : r.LRUlist_.length = r.tracked.length := by simp [LRUReplacer.tracked]
      rw [LRUReplacer.size_eq_tracked_length] at ih
      rw [LRUReplacer.size_eq_tracked_length, ht, hm]
      split
      · rename_i hfull
        simp only [List.length_cons, List.length_dropLast]
        have hpos := LRUReplacer.unpin_defined_cap r r1 f hnone hun hfull
        omega
      · rename_i hfull
        simp only [List.length_cons]
        omega

/-- With a positive capacity `unpin` never reads the back of an empty list. -/
theorem LRUReplacer.unpin_defined_of_pos (r : LRUReplacer) (h : r.Consistent)
    (hpos : 0 < r.max_size_) (f : frame_id_t) : ∃ r1, r.unpin f = some r1 := by
  by_cases hf : f ∈ r.tracked
  · exact ⟨r, LRUReplacer.unpin_tracked r h f hf⟩
  · obtain ⟨r1, h1, _⟩ := LRUReplacer.unpin_spec r h f hf (fun _ => by omega)
    exact ⟨r1, h1⟩

/-! ### Repeated writes and runs of single calls -/

theorem DiskManager.write_page_twice (d : DiskManager) (fd no : Int) (data : PageData) :
    ((d.write_page fd no data).write_page fd no data).content
      = (d.write_page fd no data).content := by
  funext k
  by_cases hk : k = { fd := fd, page_no := no } <;> simp [DiskManager.write_page, hk]

/-- The steps of a concrete run from a fresh pool are well-formed steps when every
operation of the run is well formed in the state in which it is issued. -/
theorem Steps.single (P : BufferPoolManager → Op → Prop) (s s1 : BufferPoolManager) (op : Op)
    (hop : P s op) (hstep : s.step op = some s1) : Steps P s s1 :=
  Steps.step s s s1 op (Steps.refl s) hop hstep

theorem Example.pool_one_evictable_wf_reachable : Example.pool_one_evictable.WFReachable :=
  ⟨BufferPoolManager.create 2 Example.disk, BufferPoolManager.create_fresh 2 Example.disk,
    Steps.step _ Example.pool_full _ (Op.unpin_page Example.pageA false)
      (Steps.step _ Example.pool_one_pinned _ (Op.fetch_page Example.pageB)
        (Steps.single _ _ _ (Op.fetch_page Example.pageA)
          (by decide : Example.pageA.page_no ≠ INVALID_PAGE_ID) rfl)
        (by decide : Example.pageB.page_no ≠ INVALID_PAGE_ID) rfl)
      trivial rfl⟩

/-! ### A miss ends with the read of the page -/

/-- A `fetch_page` miss served by a victim frame ends with the `read_page` of the
requested page. -/
theorem BufferPoolManager.Inv.fetch_miss_reads (s t : BufferPoolManager) (hi : s.Inv)
    (p : PageId) (hk : s.page_table_ p = none) (g : frame_id_t)
    (hv : s.find_victim_page = (t, some g)) :
    ∃ s2 : BufferPoolManager, s.fetch_page p = some (s2, some g) ∧
      s2.disk_manager_.trace.getLast? = some (DiskCall.read_page p.fd p.page_no) := by
  obtain ⟨pg1, r, _, hpg1, hp1, _⟩ := hi.victim_install s t g hv
  refine ⟨_, BufferPoolManager.fetch_page_miss s t p g pg1 r hk hv hpg1 hp1, ?_⟩
  simp [DiskManager.read_page]

/-- With a free frame at hand a `fetch_page` miss is served by the frame at the front of
the free list. -/
theorem BufferPoolManager.Inv.fetch_miss_free (s : BufferPoolManager) (hi : s.Inv)
    (p : PageId) (hk : s.page_table_ p = none) (hne : s.free_list_ ≠ []) :
    ∃ (s2 t : BufferPoolManager) (g : frame_id_t),
      s.find_victim_page = (t, some g) ∧ s.fetch_page p = some (s2, some g) ∧
      s2.disk_manager_.trace.getLast? = some (DiskCall.read_page p.fd p.page_no) := by
  cases hfl : s.free_list_ with
  | nil => exact absurd hfl hne
  | cons g rest =>
    have hv := BufferPoolManager.find_victim_page_free s g rest hfl
    obtain ⟨s2, h1, h2⟩ := hi.fetch_miss_reads s _ p hk g hv
    exact ⟨s2, _, g, hv, h1, h2⟩

/-! ### The loop of `flush_all_pages` -/

/-- The result of one iteration of the loop of `flush_all_pages` on a frame of the pool,
in terms of `flushed` and `write_of`. -/
theorem BufferPoolManager.flush_all_pages_body_spec (fd : Int) (s : BufferPoolManager)
    (i : Nat) (hi : i < s.pages_.length) :
    ∃ s1 : BufferPoolManager, BufferPoolManager.flush_all_pages_body fd s i = some s1 ∧
      s1.page_table_ = s.page_table_ ∧ s1.free_list_ = s.free_list_ ∧
      s1.replacer_ = s.replacer_ ∧ s1.pool_size_ = s.pool_size_ ∧
      s1.pages_.length = s.pages_.length ∧
      s1.disk_manager_.trace = s.disk_manager_.trace ++
        ([i].filter (s.flushed fd)).filterMap s.write_of ∧
      (∀ g : frame_id_t, g ≠ i → s1.pages_[g]? = s.pages_[g]?) ∧
      s1.pages_[i]? = if s.flushed fd i then
        (s.pages_[i]?).map (fun pg => { pg with is_dirty_ := false }) else s.pages_[i]? := by
  have hpg : s.pages_[i]? = some s.pages_[i] := List.getElem?_eq_getElem hi
  generalize s.pages_[i] = pg at hpg
  by_cases hc : pg.id_.fd = fd ∧ pg.id_.page_no ≠ INVALID_PAGE_ID
  · have hfl : s.flushed fd i = true := by simp [BufferPoolManager.flushed, hpg, hc]
    refine ⟨{ s with
        disk_manager_ := s.disk_manager_.write_page pg.id_.fd pg.id_.page_no pg.data_,
        pages_ := s.pages_.set i { pg with is_dirty_ := false } }, ?_, rfl, rfl, rfl, rfl,
      by simp, ?_, fun g hg => List.getElem?_set_ne (Ne.symm hg), ?_⟩
    · unfold BufferPoolManager.flush_all_pages_body
      simp only [hpg]
      rw [if_pos hc]
    · simp [hfl, BufferPoolManager.write_of, hpg, DiskManager.write_page]
    · rw [hfl, pages_set_self _ i pg _ hpg, hpg]
      rfl
  · have hfl : s.flushed fd i = false := by simp [BufferPoolManager.flushed, hpg, hc]
    refine ⟨s, ?_, rfl, rfl, rfl, rfl, rfl, ?_, fun g _ => rfl, ?_⟩
    · unfold BufferPoolManager.flush_all_pages_body
      simp only [hpg]
      rw [if_neg hc]
    · simp [hfl]
    · simp [hfl]

/-- The result of the loop of `flush_all_pages` over pairwise different frames of the
pool: one `write_page` for every frame of the list that satisfies `flushed`, in the
order of the list, and the dirty flag of exactly these frames cleared. -/
theorem BufferPoolManager.flush_all_pages_loop_spec (fd : Int) (is : List Nat) :
    ∀ s : BufferPoolManager, is.Nodup → (∀ i ∈ is, i < s.pages_.length) →
      ∃ s1 : BufferPoolManager, BufferPoolManager.flush_all_pages_loop fd s is = some s1 ∧
        s1.page_table_ = s.page_table_ ∧ s1.free_list_ = s.free_list_ ∧
        s1.replacer_ = s.replacer_ ∧ s1.pool_size_ = s.pool_size_ ∧
        s1.pages_.length = s.pages_.length ∧
        s1.disk_manager_.trace = s.disk_manager_.trace ++
          (is.filter (s.flushed fd)).filterMap s.write_of ∧
        (∀ g : frame_id_t, s1.pages_[g]? = if g ∈ is ∧ s.flushed fd g = true then
          (s.pages_[g]?).map (fun pg => { pg with is_dirty_ := false }) else s.pages_[g]?) := by
  induction is with
  | nil =>
    intro s _ _
    exact ⟨s, rfl, rfl, rfl, rfl, rfl, rfl, by simp, by simp⟩
  | cons i is ih =>
    intro s hnd hlt
    rw [List.nodup_cons] at hnd
    obtain ⟨s1, hb, ht, hf, hr, hp, hlen, htr, hother, hself⟩ :=
      BufferPoolManager.flush_all_pages_body_spec fd s i (hlt i (List.mem_cons_self _ _))
    obtain ⟨s2, hl2, ht2, hf2, hr2, hp2, hlen2, htr2, hpages2⟩ := ih s1 hnd.2
      (fun j hj => by rw [hlen]; exact hlt j (List.mem_cons_of_mem _ hj))
    have hsame : ∀ j ∈ is, s1.pages_[j]? = s.pages_[j]? := by
      intro j hj
      apply hother
      rintro rfl
      exact hnd.1 hj
    have hfl : ∀ j ∈ is, s1.flushed fd j = s.flushed fd j := by
      intro j hj
      simp only [BufferPoolManager.flushed, hsame j hj]
    have hwr : ∀ j ∈ is, s1.write_of j = s.write_of j := by
      intro j hj
      simp only [BufferPoolManager.write_of, hsame j hj]
    refine ⟨s2, ?_, ht2.trans ht, hf2.trans hf, hr2.trans hr, hp2.trans hp, hlen2.trans hlen,
      ?_, ?_⟩
    · simp only [BufferPoolManager.flush_all_pages_loop, hb, hl2]
    · rw [htr2, htr, List.append_assoc]
      congr 1
      rw [List.filter_congr hfl]
      rw [List.filterMap_congr (l := is.filter (s.flushed fd)) (f := s1.write_of)
        (g := s.write_of) (fun j hj => hwr j (List.mem_filter.1 hj).1)]
      have hsplit : (i :: is).filter (s.flushed fd) =
          [i].filter (s.flushed fd) ++ is.filter (s.flushed fd) := by
        rw [← List.filter_append]
        rfl
      rw [hsplit, List.filterMap_append]
    · intro g
      rw [hpages2 g]
      by_cases hgi : g = i
      · subst hgi
        have hnot : ¬ (g ∈ is ∧ s1.flushed fd g = true) := fun hc => hnd.1 hc.1
        rw [if_neg hnot, hself]
        by_cases hc : s.flushed fd g = true
        · simp [hc]
        · simp [hc]
      · by_cases hmem : g ∈ is
        · rw [hfl g hmem, hsame g hmem]
          simp [hgi, hmem]
        · have hnot : ¬ (g ∈ is ∧ s1.flushed fd g = true) := fun hc => hmem hc.1
          rw [if_neg hnot, hother g hgi]
          simp [hgi, hmem]

theorem filterMap_length_of_some {α β : Type} (f : α → Option β) (l : List α)
    (h : ∀ a ∈ l, ∃ b, f a = some b) : (l.filterMap f).length = l.length := by
  induction l with
  | nil => rfl
  | cons a l ih =>
    obtain ⟨b, hb⟩ := h a (List.mem_cons_self _ _)
    rw [List.filterMap_cons_some hb]
    simp only [List.length_cons]
    rw [ih (fun x hx => h x (List.mem_cons_of_mem _ hx))]

/-- In a state reachable by well-formed calls the frames written by `flush_all_pages(fd)`
are the frames of the resident pages with file handle `fd`. -/
theorem BufferPoolManager.flushed_iff_resident (s : BufferPoolManager) (hi : s.Inv)
    (hm : s.Mapped) (fd : Int) (g : frame_id_t) :
    s.flushed fd g = true ↔ ∃ q : PageId, s.page_table_ q = some g ∧ q.fd = fd := by
  constructor
  · intro hfl
    unfold BufferPoolManager.flushed at hfl
    cases hpg : s.pages_[g]? with
    | none => simp [hpg] at hfl
    | some pg =>
      simp only [hpg, decide_eq_true_eq] at hfl
      exact ⟨pg.id_, hm.held_mapped g pg hpg hfl.2, hfl.1⟩
  · rintro ⟨q, hq, hfd⟩
    obtain ⟨pg, hpg, hid⟩ := hi.table_get s q g hq
    have hv := hm.keys_valid q g hq
    simp only [BufferPoolManager.flushed, hpg, decide_eq_true_eq, hid]
    exact ⟨hfd, hv⟩

/-! ### Well-formed arguments -/

/-- A well-formed operation satisfies the weaker condition `Op.Assumed`; the two differ
only in the validity of the page number returned by `allocate_page`. -/
theorem Op.WellFormed.to_assumed (s : BufferPoolManager) (op : Op) (h : Op.WellFormed s op) :
    Op.Assumed s op := by
  cases op <;> first | exact h.2 | exact h

/-! ### The frames tracked by the replacer of the pool -/

/-- A frame of the pool that the replacer does not track leaves room in the replacer:
the replacer of the pool never evicts an entry in `unpin`. -/
theorem BufferPoolManager.Inv.replacer_not_full (s : BufferPoolManager) (h : s.Inv)
    (f : frame_id_t) (hlt : f < s.pool_size_) (hf : f ∉ s.replacer_.tracked) :
    s.replacer_.LRUlist_.length ≠ s.replacer_.max_size_ := by
  have hnd : (f :: s.replacer_.tracked).Nodup :=
    List.nodup_cons.2 ⟨hf, h.replacer_ok.frame_nodup⟩
  have hsub : f :: s.replacer_.tracked ⊆ List.range s.pool_size_ := by
    intro g hg
    rcases List.mem_cons.1 hg with rfl | hg
    · exact List.mem_range.2 hlt
    · exact List.mem_range.2 (h.tracked_lt g hg)
  have hle := (List.subperm_of_subset hnd hsub).length_le
  simp only [List.length_cons, List.length_range, LRUReplacer.tracked, List.length_map] at hle
  rw [h.replacer_size]
  omega

/-- The frames tracked and the free frames after `find_victim_page` has returned frame
`f` and the replacer has been told to pin it: the frames tracked before and the frames
free before, without `f`. -/
theorem BufferPoolManager.Inv.victim_sets (s s1 : BufferPoolManager) (h : s.Inv)
    (f : frame_id_t) (hv : s.find_victim_page = (s1, some f)) (r : LRUReplacer)
    (hpin : s1.replacer_.pin f = some r) :
    (∀ g : frame_id_t, g ∈ r.tracked ↔ g ∈ s.replacer_.tracked ∧ g ≠ f) ∧
    (∀ g : frame_id_t, g ∈ s1.free_list_ ↔ g ∈ s.free_list_ ∧ g ≠ f) := by
  cases hfl : s.free_list_ with
  | cons front rest =>
    rw [BufferPoolManager.find_victim_page_free s front rest hfl] at hv
    simp only [Prod.mk.injEq, Option.some.injEq] at hv
    obtain ⟨hs1, rfl⟩ := hv
    subst hs1
    obtain ⟨r1, hr1, _, ht, _⟩ := LRUReplacer.pin_spec s.replacer_ h.replacer_ok front
    have hpin1 : s.replacer_.pin front = some r := hpin
    rw [hr1] at hpin1
    obtain rfl : r1 = r := Option.some.inj hpin1
    have hnd := h.free_nodup
    rw [hfl, List.nodup_cons] at hnd
    constructor
    · intro g
      rw [ht, List.mem_filter]
      simp
    · intro g
      show g ∈ rest ↔ _
      constructor
      · intro hg
        exact ⟨List.mem_cons_of_mem _ hg, fun hc => hnd.1 (hc ▸ hg)⟩
      · rintro ⟨hg, hne⟩
        rcases List.mem_cons.1 hg with hc | hc
        · exact absurd hc hne
        · exact hc
  | nil =>
    rw [BufferPoolManager.find_victim_page_replacer s hfl] at hv
    simp only [Prod.mk.injEq] at hv
    obtain ⟨hs1, hv2⟩ := hv
    subst hs1
    obtain ⟨hc1, hv1, ht1, _⟩ := LRUReplacer.victim_spec s.replacer_ h.replacer_ok
    obtain ⟨r1, hr1, _, ht, _⟩ := LRUReplacer.pin_spec s.replacer_.victim.1 hc1 f
    have hpin1 : s.replacer_.victim.1.pin f = some r := hpin
    rw [hr1] at hpin1
    obtain rfl : r1 = r := Option.some.inj hpin1
    rw [hv1] at hv2
    have hsplit : s.replacer_.tracked = s.replacer_.tracked.dropLast ++ [f] :=
      (List.dropLast_append_getLast? f hv2).symm
    have hnd : (s.replacer_.tracked.dropLast ++ [f]).Nodup := by
      rw [← hsplit]; exact h.replacer_ok.frame_nodup
    constructor
    · intro g
      rw [ht, List.mem_filter, ht1]
      constructor
      · rintro ⟨hg, hne⟩
        refine ⟨List.dropLast_subset _ hg, by simpa using hne⟩
      · rintro ⟨hg, hne⟩
        rw [hsplit, List.mem_append] at hg
        rcases hg with hg | hg
        · exact ⟨hg, by simpa using hne⟩
        · exact absurd (List.mem_singleton.1 hg) hne
    · intro g
      show g ∈ s.free_list_ ↔ _
      rw [hfl]
      simp

/-- The effect of one operation on the page table, the free list, the frames tracked by
the replacer and the pin counts, in a state that satisfies the invariant: the operation
changes none of them; or it is a hit of `fetch_page`; or it installs a page in a victim
frame (`fetch_page` miss, `new_page`); or it is a successful `unpin_page`; or it is a
`delete_page` that frees a frame. -/
theorem BufferPoolManager.Inv.step_effect (s s1 : BufferPoolManager) (h : s.Inv) (op : Op)
    (hs : s.step op = some s1) :
    (s1.page_table_ = s.page_table_ ∧ s1.free_list_ = s.free_list_ ∧
      s1.replacer_ = s.replacer_ ∧
      ∀ (g : frame_id_t) (pg1 : Page), s1.pages_[g]? = some pg1 →
        ∃ pg : Page, s.pages_[g]? = some pg ∧ pg.pin_count_ = pg1.pin_count_) ∨
    (∃ (f : frame_id_t) (pg : Page) (k : PageId), s.page_table_ k = some f ∧
      s.pages_[f]? = some pg ∧ s1.page_table_ = s.page_table_ ∧
      s1.free_list_ = s.free_list_ ∧
      s1.pages_ = s.pages_.set f { pg with pin_count_ := pg.pin_count_ + 1 } ∧
      s1.replacer_.tracked = s.replacer_.tracked.filter (fun g => !decide (g = f)) ∧
      pg.pin_count_ < INT_MAX) ∨
    (∃ (f : frame_id_t) (pg pg1 : Page) (p : PageId),
      ((op = Op.fetch_page p ∧ s.page_table_ p = none) ∨ op = Op.new_page p.fd p.page_no) ∧
      s.pages_[f]? = some pg ∧ pg.pin_count_ = 0 ∧ pg1.pin_count_ = 1 ∧
      s1.pages_ = s.pages_.set f pg1 ∧
      s1.page_table_ = umap_set (umap_erase s.page_table_ pg.id_) p f ∧
      (∀ g : frame_id_t, g ∈ s1.replacer_.tracked ↔ g ∈ s.replacer_.tracked ∧ g ≠ f) ∧
      (∀ g : frame_id_t, g ∈ s1.free_list_ ↔ g ∈ s.free_list_ ∧ g ≠ f)) ∨
    (∃ (f : frame_id_t) (pg : Page) (k : PageId) (d : Bool), s.page_table_ k = some f ∧
      s.pages_[f]? = some pg ∧ 0 < pg.pin_count_ ∧ s1.page_table_ = s.page_table_ ∧
      s1.free_list_ = s.free_list_ ∧
      s1.pages_ = s.pages_.set f
        { pg with pin_count_ := pg.pin_count_ - 1, is_dirty_ := d } ∧
      (pg.pin_count_ = 1 → s1.replacer_.tracked = f :: s.replacer_.tracked) ∧
      (pg.pin_count_ ≠ 1 → s1.replacer_ = s.replacer_)) ∨
    (∃ (f : frame_id_t) (pg : Page) (k : PageId), s.page_table_ k = some f ∧
      s.pages_[f]? = some pg ∧ pg.pin_count_ = 0 ∧
      s1.page_table_ = umap_erase s.page_table_ k ∧
      s1.free_list_ = s.free_list_ ++ [f] ∧ s1.replacer_ = s.replacer_ ∧
      s1.pages_ = s.pages_.set f
        { pg with is_dirty_ := false, pin_count_ := 0,
                  id_ := { pg.id_ with page_no := INVALID_PAGE_ID } }) := by
  have hsame : ∀ t : BufferPoolManager, t = s →
      (t.page_table_ = s.page_table_ ∧ t.free_list_ = s.free_list_ ∧
        t.replacer_ = s.replacer_ ∧
        ∀ (g : frame_id_t) (pg1 : Page), t.pages_[g]? = some pg1 →
          ∃ pg : Page, s.pages_[g]? = some pg ∧ pg.pin_count_ = pg1.pin_count_) := by
    rintro t rfl
    exact ⟨rfl, rfl, rfl, fun g pg1 hg => ⟨pg1, hg, rfl⟩⟩
  have hinstall : ∀ (s2 : BufferPoolManager) (f : frame_id_t),
      s.find_victim_page = (s2, some f) →
      ∃ (pg : Page) (r : LRUReplacer), s2.pages_[f]? = some pg ∧ s.pages_[f]? = some pg ∧
        pg.pin_count_ = 0 ∧ s2.replacer_.pin f = some r ∧ s2.pages_ = s.pages_ ∧
        s2.page_table_ = s.page_table_ ∧
        (∀ g : frame_id_t, g ∈ r.tracked ↔ g ∈ s.replacer_.tracked ∧ g ≠ f) ∧
        (∀ g : frame_id_t, g ∈ s2.free_list_ ↔ g ∈ s.free_list_ ∧ g ≠ f) := by
    intro s2 f hv
    obtain ⟨h2, _, hpages, htab, _, _, pg, hpg, hpc⟩ :=
      BufferPoolManager.find_victim_page_spec s s2 h f hv
    obtain ⟨r, hpin, _⟩ := LRUReplacer.pin_spec s2.replacer_ h2.replacer_ok f
    obtain ⟨ht, hf⟩ := h.victim_sets s s2 f hv r hpin
    exact ⟨pg, r, by rw [hpages]; exact hpg, hpg, hpc, hpin, hpages, htab, ht, hf⟩
  cases op with
  | fetch_page pid =>
    simp only [BufferPoolManager.step, Option.map_eq_some'] at hs
    obtain ⟨⟨s2, res⟩, h1, rfl⟩ := hs
    cases hk : s.page_table_ pid with
    | some f =>
      obtain ⟨pg, hpg, _⟩ := h.table_get s pid f hk
      obtain ⟨r, hr, _, _, ht⟩ := h.fetch_replacer s f pg hpg
      have hlt := BufferPoolManager.fetch_page_hit_lt s pid f pg hk hpg _ h1
      rw [BufferPoolManager.fetch_page_hit s pid f pg r hk hpg hr hlt] at h1
      cases h1
      exact Or.inr (Or.inl ⟨f, pg, pid, hk, hpg, rfl, rfl, rfl, ht, hlt⟩)
    | none =>
      cases hv : s.find_victim_page with
      | mk s3 v =>
        cases v with
        | none =>
          obtain ⟨_, _, he⟩ := BufferPoolManager.find_victim_page_none_iff s s3 hv
          rw [BufferPoolManager.fetch_page_exhausted s s3 pid hk hv, he] at h1
          cases h1
          exact Or.inl (hsame _ rfl)
        | some f =>
          obtain ⟨pg, r, hpg2, hpg, hpc, hpin, hpages, htab, ht, hf⟩ := hinstall s3 f hv
          rw [BufferPoolManager.fetch_page_miss s s3 pid f pg r hk hv hpg2 hpin] at h1
          cases h1
          refine Or.inr (Or.inr (Or.inl ⟨f, pg,
            { id_ := pid,
              data_ := (if pg.is_dirty_ then
                  s3.disk_manager_.write_page pg.id_.fd pg.id_.page_no pg.data_
                else s3.disk_manager_).content pid,
              is_dirty_ := false, pin_count_ := 1 },
            pid, Or.inl ⟨rfl, hk⟩, hpg, hpc, ?_, ?_, ?_, ht, hf⟩))
          · exact rfl
          · show s3.pages_.set f _ = _
            rw [hpages]
          · show umap_set (umap_erase s3.page_table_ pg.id_) pid f = _
            rw [htab]
  | new_page fd a =>
    simp only [BufferPoolManager.step, Option.map_eq_some'] at hs
    obtain ⟨⟨s2, res⟩, h1, rfl⟩ := hs
    cases hv : s.find_victim_page with
    | mk s3 v =>
      cases v with
      | none =>
        obtain ⟨_, _, he⟩ := BufferPoolManager.find_victim_page_none_iff s s3 hv
        rw [BufferPoolManager.new_page_exhausted s s3 fd a hv, he] at h1
        cases h1
        exact Or.inl (hsame _ rfl)
      | some f =>
        obtain ⟨pg, r, hpg2, hpg, hpc, hpin, hpages, htab, ht, hf⟩ := hinstall s3 f hv
        rw [BufferPoolManager.new_page_eq s s3 fd a f pg r hv hpg2 hpin] at h1
        cases h1
        refine Or.inr (Or.inr (Or.inl ⟨f, pg,
          { id_ := { fd := fd, page_no := a }, data_ := PageData.zero,
            is_dirty_ := false, pin_count_ := 1 },
          { fd := fd, page_no := a }, Or.inr rfl, hpg, hpc, ?_, ?_, ?_, ht, hf⟩))
        · exact rfl
        · show s3.pages_.set f _ = _
          rw [hpages]
        · show umap_set (umap_erase s3.page_table_ pg.id_) _ f = _
          rw [htab]
  | unpin_page pid d =>
    simp only [BufferPoolManager.step, Option.map_eq_some'] at hs
    obtain ⟨⟨s2, res⟩, h1, rfl⟩ := hs
    cases hk : s.page_table_ pid with
    | none =>
      rw [BufferPoolManager.unpin_page_absent s pid d hk] at h1
      cases h1
      exact Or.inl (hsame _ rfl)
    | some f =>
      obtain ⟨pg, hpg, _⟩ := h.table_get s pid f hk
      by_cases hpos : pg.pin_count_ ≤ 0
      · rw [BufferPoolManager.unpin_page_fail s pid d f pg hk hpg hpos] at h1
        cases h1
        exact Or.inl (hsame _ rfl)
      · have hpos1 : 0 < pg.pin_count_ := by omega
        have hlt := h.table_lt pid f hk
        obtain ⟨r, hr, _, _, ht1, ht2⟩ := h.unpin_replacer s f pg hlt hpg hpos1
        rw [BufferPoolManager.unpin_page_eq s pid d f pg r hk hpg hpos1 hr] at h1
        cases h1
        refine Or.inr (Or.inr (Or.inr (Or.inl ⟨f, pg, pid, d, hk, hpg, hpos1, rfl, rfl, rfl,
          ?_, ht2⟩)))
        intro hone
        have hnt : f ∉ s.replacer_.tracked := by
          intro hc
          have := h.tracked_unpinned f hc pg hpg
          omega
        show r.tracked = _
        rw [ht1 hone, if_neg (h.replacer_not_full s f hlt hnt)]
  | flush_page pid =>
    simp only [BufferPoolManager.step, Option.map_eq_some'] at hs
    obtain ⟨⟨s2, res⟩, h1, rfl⟩ := hs
    left
    unfold BufferPoolManager.flush_page at h1
    cases hk : s.page_table_ pid with
    | none =>
      simp only [hk, Option.some.injEq, Prod.mk.injEq] at h1
      exact hsame _ h1.1.symm
    | some f =>
      cases hpg : s.pages_[f]? with
      | none => simp [hk, hpg] at h1
      | some pg =>
        simp only [hk, hpg, Option.some.injEq, Prod.mk.injEq] at h1
        obtain ⟨h2, _⟩ := h1
        subst h2
        refine ⟨rfl, rfl, rfl, fun g pg1 hg => ?_⟩
        rcases pages_set_get _ f g pg _ pg1 hpg hg with ⟨rfl, rfl⟩ | ⟨_, hg1⟩
        · exact ⟨pg, hpg, rfl⟩
        · exact ⟨pg1, hg1, rfl⟩
  | delete_page pid =>
    simp only [BufferPoolManager.step, Option.map_eq_some'] at hs
    obtain ⟨⟨s2, res⟩, h1, rfl⟩ := hs
    cases hk : s.page_table_ pid with
    | none =>
      rw [BufferPoolManager.delete_page_absent s pid hk] at h1
      cases h1
      exact Or.inl (hsame _ rfl)
    | some f =>
      obtain ⟨pg, hpg, _⟩ := h.table_get s pid f hk
      by_cases hpos : 0 < pg.pin_count_
      · rw [BufferPoolManager.delete_page_pinned s pid f pg hk hpg hpos] at h1
        cases h1
        exact Or.inl (hsame _ rfl)
      · rw [BufferPoolManager.delete_page_eq s pid f pg hk hpg (by omega)] at h1
        cases h1
        have hz : pg.pin_count_ = 0 := by
          have := h.pin_nonneg f pg hpg
          omega
        exact Or.inr (Or.inr (Or.inr (Or.inr ⟨f, pg, pid, hk, hpg, hz, rfl, rfl, rfl, rfl⟩)))
  | flush_all_pages fd =>
    left
    obtain ⟨s2, hl, ht, hf, hr, _, _, _, hpages⟩ :=
      BufferPoolManager.flush_all_pages_loop_spec fd (List.range s.pool_size_) s
        (List.nodup_range _)
        (fun i hi' => by rw [h.pages_length]; exact List.mem_range.1 hi')
    have hs' : BufferPoolManager.flush_all_pages_loop fd s (List.range s.pool_size_)
        = some s1 := hs
    rw [hl] at hs'
    obtain rfl : s2 = s1 := Option.some.inj hs'
    refine ⟨ht, hf, hr, fun g pg1 hg => ?_⟩
    rw [hpages g] at hg
    split at hg
    · cases hpg : s.pages_[g]? with
      | none => simp [hpg] at hg
      | some pg =>
        simp only [hpg, Option.map_some', Option.some.injEq] at hg
        exact ⟨pg, rfl, by rw [← hg]⟩
    · exact ⟨pg1, hg, rfl⟩
  | write_data f data =>
    left
    have hs' : s.write_data f data = some s1 := hs
    unfold BufferPoolManager.write_data at hs'
    cases hpg : s.pages_[f]? with
    | none => simp [hpg] at hs'
    | some pg =>
      simp only [hpg, Option.some.injEq] at hs'
      subst hs'
      refine ⟨rfl, rfl, rfl, fun g pg1 hg => ?_⟩
      rcases pages_set_get _ f g pg _ pg1 hpg hg with ⟨rfl, rfl⟩ | ⟨_, hg1⟩
      · exact ⟨pg, hpg, rfl⟩
      · exact ⟨pg1, hg1, rfl⟩

/-- An entry of the page table after an erase and a set, for a frame other than the one
set, is an entry of the page table before. -/
theorem umap_set_erase_other (m : PageId → Option frame_id_t) (e p k : PageId)
    (f g : frame_id_t) (hg : g ≠ f) (hk : umap_set (umap_erase m e) p f k = some g) :
    m k = some g ∧ k ≠ p ∧ k ≠ e := by
  by_cases hkp : k = p
  · rw [hkp, umap_set_self] at hk
    exact absurd (Option.some.inj hk).symm hg
  · rw [umap_set_ne _ _ _ _ hkp] at hk
    by_cases hke : k = e
    · rw [hke, umap_erase_self] at hk
      cases hk
    · rw [umap_erase_ne _ _ _ hke] at hk
      exact ⟨hk, hkp, hke⟩

/-- Every operation preserves that the resident frames with pin count 0 are tracked. -/
theorem BufferPoolManager.step_evictable_tracked (s s1 : BufferPoolManager) (h : s.Inv)
    (ht : s.EvictableTracked) (op : Op) (hs : s.step op = some s1) :
    s1.EvictableTracked := by
  intro k g pg1 hk hpg1 hz
  rcases h.step_effect s s1 op hs with
    ⟨htab, _, hrep, hpin⟩ |
    ⟨f, pg, k0, hk0, hpg, htab, _, hpages, htr, _⟩ |
    ⟨f, pg, pg2, p, _, hpg, _, hone, hpages, htab, htr, _⟩ |
    ⟨f, pg, k0, d, hk0, hpg, hpos, htab, _, hpages, htr1, htr2⟩ |
    ⟨f, pg, k0, hk0, hpg, _, htab, _, hrep, hpages⟩
  · obtain ⟨pg0, hpg0, he⟩ := hpin g pg1 hpg1
    rw [hrep]
    rw [htab] at hk
    exact ht k g pg0 hk hpg0 (by rw [he]; exact hz)
  · rw [hpages] at hpg1
    rw [htab] at hk
    rcases pages_set_get _ f g pg _ pg1 hpg hpg1 with ⟨_, hb⟩ | ⟨hne, hg⟩
    · have := h.pin_nonneg f pg hpg
      rw [hb] at hz
      simp only at hz
      omega
    · rw [htr, List.mem_filter]
      exact ⟨ht k g pg1 hk hg hz, by simpa using hne⟩
  · rw [hpages] at hpg1
    rcases pages_set_get _ f g pg _ pg1 hpg hpg1 with ⟨_, hb⟩ | ⟨hne, hg⟩
    · rw [hb, hone] at hz
      cases hz
    · rw [htab] at hk
      obtain ⟨hk1, _, _⟩ := umap_set_erase_other _ _ _ _ f g hne hk
      exact (htr g).2 ⟨ht k g pg1 hk1 hg hz, hne⟩
  · rw [hpages] at hpg1
    rw [htab] at hk
    rcases pages_set_get _ f g pg _ pg1 hpg hpg1 with ⟨hgf, hb⟩ | ⟨hne, hg⟩
    · rw [hb] at hz
      simp only at hz
      rw [htr1 (by omega), hgf]
      exact List.mem_cons_self _ _
    · have hmem := ht k g pg1 hk hg hz
      by_cases hone : pg.pin_count_ = 1
      · rw [htr1 hone]
        exact List.mem_cons_of_mem _ hmem
      · rw [htr2 hone]
        exact hmem
  · rw [hpages] at hpg1
    rw [htab] at hk
    have hkk : k ≠ k0 := by
      intro hc
      rw [hc, umap_erase_self] at hk
      cases hk
    rw [umap_erase_ne _ _ _ hkk] at hk
    rw [hrep]
    rcases pages_set_get _ f g pg _ pg1 hpg hpg1 with ⟨hgf, _⟩ | ⟨_, hg⟩
    · rw [hgf] at hk
      have h1 := h.table_id k f pg hk hpg
      have h2 := h.table_id k0 f pg hk0 hpg
      exact absurd (h1.symm.trans h2) hkk
    · exact ht k g pg1 hk hg hz

/-- In every reachable state the resident frames with pin count 0 are tracked. -/
theorem BufferPoolManager.reachable_evictable_tracked (s : BufferPoolManager)
    (h : s.Reachable) : s.EvictableTracked := by
  induction h with
  | init s hi =>
    intro k f pg hk _ _
    rw [hi.table_empty] at hk
    cases hk
  | step s s1 op hr hstep ih =>
    exact BufferPoolManager.step_evictable_tracked s s1
      (BufferPoolManager.reachable_inv s hr) ih op hstep

/-- Every well-formed operation preserves that the tracked frames are resident or on the
free list. -/
theorem BufferPoolManager.step_tracked_held (s s1 : BufferPoolManager) (h : s.Inv)
    (hm : s.Mapped) (ht : s.TrackedHeld) (op : Op) (hwf : op.WellFormed s)
    (hs : s.step op = some s1) : s1.TrackedHeld := by
  intro g hg
  rcases h.step_effect s s1 op hs with
    ⟨htab, hfree, hrep, _⟩ |
    ⟨f, pg, k0, hk0, hpg, htab, hfree, _, htr, _⟩ |
    ⟨f, pg, pg2, p, hop, hpg, _, _, _, htab, htr, hfree⟩ |
    ⟨f, pg, k0, d, hk0, hpg, hpos, htab, hfree, _, htr1, htr2⟩ |
    ⟨f, pg, k0, hk0, hpg, _, htab, hfree, hrep, _⟩
  · rw [hrep] at hg
    rw [htab, hfree]
    exact ht g hg
  · rw [htr] at hg
    rw [htab, hfree]
    exact ht g (List.mem_filter.1 hg).1
  · obtain ⟨hg0, hne⟩ := (htr g).1 hg
    have hp : s.page_table_ p = none := by
      rcases hop with ⟨_, hp⟩ | hop
      · exact hp
      · rw [hop] at hwf
        exact hwf.2
    rcases ht g hg0 with ⟨k, hk⟩ | hfr
    · left
      refine ⟨k, ?_⟩
      have hkp : k ≠ p := by
        intro hc
        rw [hc, hp] at hk
        cases hk
      have hke : k ≠ pg.id_ := by
        intro hc
        have hv := hm.keys_valid k g hk
        rw [hc] at hv hk
        have := hm.held_mapped f pg hpg hv
        rw [hk] at this
        exact hne (Option.some.inj this)
      rw [htab, umap_set_ne _ _ _ _ hkp, umap_erase_ne _ _ _ hke]
      exact hk
    · exact Or.inr ((hfree g).2 ⟨hfr, hne⟩)
  · rw [htab, hfree]
    by_cases hone : pg.pin_count_ = 1
    · rw [htr1 hone] at hg
      rcases List.mem_cons.1 hg with hgf | hg0
      · exact Or.inl ⟨k0, by rw [hgf]; exact hk0⟩
      · exact ht g hg0
    · rw [htr2 hone] at hg
      exact ht g hg
  · rw [hrep] at hg
    rw [hfree]
    rcases ht g hg with ⟨k, hk⟩ | hfr
    · by_cases hkk : k = k0
      · right
        rw [hkk, hk0] at hk
        rw [← Option.some.inj hk]
        exact List.mem_append_right _ (List.mem_singleton_self _)
      · left
        exact ⟨k, by rw [htab, umap_erase_ne _ _ _ hkk]; exact hk⟩
    · exact Or.inr (List.mem_append_left _ hfr)

/-- In every state reachable by well-formed calls the tracked frames are resident or on
the free list. -/
theorem BufferPoolManager.wf_reachable_tracked_held (s : BufferPoolManager)
    (h : s.WFReachable) : s.TrackedHeld := by
  obtain ⟨s0, hi, hsteps⟩ := h
  induction hsteps with
  | refl =>
    intro g hg
    rw [hi.initial.replacer_empty] at hg
    simp [LRUReplacer.tracked, LRUReplacer.create] at hg
  | step t t1 op hst hop hstep ih =>
    have hw : t.WFReachable := ⟨s0, hi, hst⟩
    exact BufferPoolManager.step_tracked_held t t1
      (BufferPoolManager.reachable_inv t (BufferPoolManager.wf_reachable_reachable t hw))
      (BufferPoolManager.wf_reachable_mapped t hw) ih op hop hstep

/-- A duplicate-free list of numbers below `n` is as long as the list of the numbers
below `n` that occur in it. -/
theorem length_eq_filter_range (l : List Nat) (n : Nat) (hnd : l.Nodup)
    (hlt : ∀ x ∈ l, x < n) :
    l.length = ((List.range n).filter (fun x => decide (x ∈ l))).length := by
  apply List.Perm.length_eq
  rw [List.perm_ext_iff_of_nodup hnd ((List.nodup_range n).filter _)]
  intro a
  simp only [List.mem_filter, List.mem_range, decide_eq_true_eq]
  exact ⟨fun ha => ⟨hlt a ha, ha⟩, fun ha => ha.2⟩

/-- In a state that satisfies the invariant, `evictable` holds of the frames that some
page table entry maps to and that have pin count 0. -/
theorem BufferPoolManager.Inv.evictable_iff (s : BufferPoolManager) (h : s.Inv)
    (f : frame_id_t) :
    s.evictable f = true ↔
      (∃ k : PageId, s.page_table_ k = some f) ∧
        ∃ pg : Page, s.pages_[f]? = some pg ∧ pg.pin_count_ = 0 := by
  unfold BufferPoolManager.evictable
  cases hpg : s.pages_[f]? with
  | none =>
    simp only [Bool.false_eq_true, false_iff, not_and, not_exists]
    intro _ pg hc
    cases hc
  | some pg =>
    simp only [decide_eq_true_eq, Option.some.injEq, exists_eq_left']
    constructor
    · rintro ⟨hk, hz⟩
      exact ⟨⟨pg.id_, hk⟩, hz⟩
    · rintro ⟨⟨k, hk⟩, hz⟩
      have hid := h.table_id k f pg hk hpg
      rw [hid]
      exact ⟨hk, hz⟩

/-- The number of tracked frames is the number of resident frames with pin count 0 plus
the number of frames on the free list that are still tracked. -/
theorem BufferPoolManager.Inv.size_formula (s : BufferPoolManager) (h : s.Inv)
    (h1 : s.EvictableTracked) (h2 : s.TrackedHeld) :
    s.replacer_.Size = ((List.range s.pool_size_).filter s.evictable).length +
      (s.free_list_.filter (fun f => decide (f ∈ s.replacer_.tracked))).length := by
  have hev : ∀ a : frame_id_t, s.evictable a = true → a ∈ s.replacer_.tracked := by
    intro a ha
    obtain ⟨⟨k, hk⟩, pg, hpg, hz⟩ := (h.evictable_iff s a).1 ha
    exact h1 k a pg hk hpg hz
  have hfree : ∀ a : frame_id_t, a ∈ s.free_list_ → s.evictable a = false := by
    intro a ha
    cases hc : s.evictable a with
    | false => rfl
    | true =>
      obtain ⟨⟨k, hk⟩, _⟩ := (h.evictable_iff s a).1 hc
      exact absurd hk (h.free_unmapped a ha k)
  have hrest : ∀ a : frame_id_t, a ∈ s.replacer_.tracked → s.evictable a = false →
      a ∈ s.free_list_ := by
    intro a ha hn
    rcases h2 a ha with ⟨k, hk⟩ | hfr
    · obtain ⟨pg, hpg, _⟩ := h.table_get s k a hk
      have hz := h.tracked_unpinned a ha pg hpg
      have := (h.evictable_iff s a).2 ⟨⟨k, hk⟩, pg, hpg, hz⟩
      rw [hn] at this
      cases this
    · exact hfr
  rw [LRUReplacer.size_eq_tracked_length,
    length_eq_filter_range s.replacer_.tracked s.pool_size_
      (show s.replacer_.tracked.Nodup from h.replacer_ok.frame_nodup) h.tracked_lt,
    List.length_eq_length_filter_add s.evictable, List.filter_filter, List.filter_filter]
  congr 1
  · congr 1
    apply List.filter_congr
    intro a _
    cases hc : s.evictable a with
    | false => rfl
    | true => simp [hev a hc]
  · rw [length_eq_filter_range
      (s.free_list_.filter (fun f => decide (f ∈ s.replacer_.tracked))) s.pool_size_
      (h.free_nodup.filter _) (fun x hx => h.free_lt x (List.mem_filter.1 hx).1)]
    congr 1
    apply List.filter_congr
    intro a _
    rw [Bool.eq_iff_iff]
    simp only [Bool.and_eq_true, Bool.not_eq_true', decide_eq_true_eq, List.mem_filter]
    constructor
    · rintro ⟨hn, ha⟩
      exact ⟨hrest a ha hn, ha⟩
    · rintro ⟨hfr, ha⟩
      exact ⟨hfree a hfr, ha⟩

theorem Example.pool_deleted_wf_reachable : Example.pool_deleted.WFReachable :=
  ⟨BufferPoolManager.create 2 Example.disk, BufferPoolManager.create_fresh 2 Example.disk,
    Steps.step _ Example.pool_free_and_tracked _ (Op.delete_page Example.pageA)
      (Steps.step _ Example.pool_one_pinned _ (Op.unpin_page Example.pageA false)
        (Steps.single _ _ _ (Op.fetch_page Example.pageA)
          (by decide : Example.pageA.page_no ≠ INVALID_PAGE_ID) rfl)
        trivial rfl)
      trivial rfl⟩

/-! ### Operations with failing disk calls -/

/-- When both calls of the disk collaborator succeed, `update_page_faulty` is
`update_page`. -/
theorem BufferPoolManager.update_page_faulty_ok (s : BufferPoolManager) (page : frame_id_t)
    (new_page_id : PageId) (new_frame_id : frame_id_t) :
    s.update_page_faulty page new_page_id new_frame_id true true
      = (s.update_page page new_page_id new_frame_id).map
          (fun t => DiskOutcome.returned t ()) := by
  unfold BufferPoolManager.update_page_faulty BufferPoolManager.update_page
  cases hpg : s.pages_[page]? with
  | none => rfl
  | some pg =>
    simp only [Bool.true_eq_false, and_false, if_false]
    split
    · rfl
    · split
      · rfl
      · split
        · rfl
        · rfl

/-- When both calls of the disk collaborator succeed, `fetch_page_faulty` is
`fetch_page`. -/
theorem BufferPoolManager.fetch_page_faulty_ok (s : BufferPoolManager) (p : PageId) :
    s.fetch_page_faulty p true true
      = (s.fetch_page p).map (fun r => DiskOutcome.returned r.1 r.2) := by
  unfold BufferPoolManager.fetch_page_faulty BufferPoolManager.fetch_page
  cases hk : s.page_table_ p with
  | some f =>
    simp only
    split
    · rfl
    · split
      · rfl
      · split <;> rfl
  | none =>
    simp only
    cases hv : s.find_victim_page with
    | mk s1 v =>
      cases v with
      | none => rfl
      | some f =>
        simp only [BufferPoolManager.update_page_faulty_ok]
        cases s1.update_page f p f with
        | none => rfl
        | some s2 => rfl

/-- When the call of `write_page` succeeds, `flush_page_faulty` is `flush_page`. -/
theorem BufferPoolManager.flush_page_faulty_ok (s : BufferPoolManager) (p : PageId) :
    s.flush_page_faulty p true
      = (s.flush_page p).map (fun r => DiskOutcome.returned r.1 r.2) := by
  unfold BufferPoolManager.flush_page_faulty BufferPoolManager.flush_page
  cases hk : s.page_table_ p with
  | none => rfl
  | some f =>
    simp only
    split
    · rfl
    · rfl

/-- When the call of `write_page` succeeds, `new_page_faulty` is `new_page`. -/
theorem BufferPoolManager.new_page_faulty_ok (s : BufferPoolManager) (fd a : Int) :
    s.new_page_faulty fd a true
      = (s.new_page fd a).map (fun r => DiskOutcome.returned r.1 r.2) := by
  unfold BufferPoolManager.new_page_faulty BufferPoolManager.new_page
  cases hv : s.find_victim_page with
  | mk s1 v =>
    cases v with
    | none => rfl
    | some f =>
      simp only [Bool.true_eq_false, and_false, if_false]
      split
      · rfl
      · split
        · rfl
        · rfl

/-! ### The overflow of the pin count and pools reached by ill-formed calls -/

/-- In every reachable state the pin counts are values of the type `int`: they lie between
0 and `INT_MAX`. -/
theorem BufferPoolManager.reachable_pin_range (s : BufferPoolManager) (h : s.Reachable) :
    ∀ (g : frame_id_t) (pg : Page), s.pages_[g]? = some pg →
      0 ≤ pg.pin_count_ ∧ pg.pin_count_ ≤ INT_MAX := by
  induction h with
  | init s hi =>
    intro g pg hg
    rw [hi.pages_unpinned pg (List.mem_iff_getElem?.2 ⟨g, hg⟩)]
    decide
  | step s s1 op hr hstep ih =>
    have hinv := BufferPoolManager.reachable_inv s hr
    intro g pg1 hg
    rcases hinv.step_effect s s1 op hstep with
      ⟨_, _, _, hpin⟩ |
      ⟨f, pg, _, _, hpg, _, _, hpages, _, hlt⟩ |
      ⟨f, pg, pg2, _, _, hpg, _, hone, hpages, _, _, _⟩ |
      ⟨f, pg, _, d, _, hpg, hpos, _, _, hpages, _, _⟩ |
      ⟨f, pg, _, _, hpg, _, _, _, _, hpages⟩
    · obtain ⟨pg0, hpg0, he⟩ := hpin g pg1 hg
      rw [← he]
      exact ih g pg0 hpg0
    · rw [hpages] at hg
      rcases pages_set_get _ f g pg _ pg1 hpg hg with ⟨_, hb⟩ | ⟨_, hg0⟩
      · have := ih f pg hpg
        rw [hb]
        show 0 ≤ pg.pin_count_ + 1 ∧ pg.pin_count_ + 1 ≤ INT_MAX
        omega
      · exact ih g pg1 hg0
    · rw [hpages] at hg
      rcases pages_set_get _ f g pg _ pg1 hpg hg with ⟨_, hb⟩ | ⟨_, hg0⟩
      · rw [hb, hone]
        decide
      · exact ih g pg1 hg0
    · rw [hpages] at hg
      rcases pages_set_get _ f g pg _ pg1 hpg hg with ⟨_, hb⟩ | ⟨_, hg0⟩
      · have := ih f pg hpg
        rw [hb]
        show 0 ≤ pg.pin_count_ - 1 ∧ pg.pin_count_ - 1 ≤ INT_MAX
        omega
      · exact ih g pg1 hg0
    · rw [hpages] at hg
      rcases pages_set_get _ f g pg _ pg1 hpg hg with ⟨_, hb⟩ | ⟨_, hg0⟩
      · rw [hb]
        show (0 : Int) ≤ 0 ∧ (0 : Int) ≤ INT_MAX
        decide
      · exact ih g pg1 hg0

/-- Repeated `fetch_page` hits of a resident page are undefined as soon as the pin count
would exceed `INT_MAX`. -/
theorem BufferPoolManager.fetch_times_overflow (p : PageId) (f : frame_id_t) (m : Nat) :
    ∀ (s : BufferPoolManager) (pg : Page), s.Inv → s.page_table_ p = some f →
      s.pages_[f]? = some pg → pg.pin_count_ ≤ INT_MAX → INT_MAX < pg.pin_count_ + m →
      BufferPoolManager.fetch_times p s m = none := by
  induction m with
  | zero =>
    intro s pg _ _ _ hle hgt
    simp only [Nat.cast_zero, add_zero] at hgt
    omega
  | succ m ih =>
    intro s pg h hk hpg hle hgt
    push_cast at hgt
    by_cases hlt : pg.pin_count_ < INT_MAX
    · obtain ⟨s1, pg1, hf, hi1, hk1, hpg1, hpin1⟩ := h.fetch_hit_step s p f pg hk hpg hlt
      have := ih s1 pg1 hi1 hk1 hpg1 (by rw [hpin1]; omega) (by rw [hpin1]; omega)
      simp only [BufferPoolManager.fetch_times, hf, this]
    · simp only [BufferPoolManager.fetch_times,
        BufferPoolManager.fetch_page_hit_overflow s p f pg hk hpg hlt]

/-- The first of `n + 1` calls of `fetch_page(p)` and the `n` calls that follow it. -/
theorem BufferPoolManager.fetch_times_succ (p : PageId) (s : BufferPoolManager) (n : Nat) :
    BufferPoolManager.fetch_times p s (n + 1) =
      match s.fetch_page p with
      | none => none
      | some r1 =>
        match BufferPoolManager.fetch_times p r1.1 n with
        | none => none
        | some r2 => some (r2.1, r1.2 :: r2.2) := rfl

/-- When the calls that follow the first `fetch_page(p)` are not all defined, neither are
the calls with the first. -/
theorem BufferPoolManager.fetch_times_first_overflow (p : PageId) (s s1 : BufferPoolManager)
    (res : Option frame_id_t) (n : Nat) (hfirst : s.fetch_page p = some (s1, res))
    (hover : BufferPoolManager.fetch_times p s1 n = none) :
    BufferPoolManager.fetch_times p s (n + 1) = none := by
  rw [BufferPoolManager.fetch_times_succ, hfirst]
  simp only [hover]

theorem PageData.fill_ne (a b : Fin 256) (h : a ≠ b) : PageData.fill a ≠ PageData.fill b := by
  intro hc
  have ha : a ∈ (PageData.fill a).val :=
    List.mem_replicate.2 ⟨by decide, rfl⟩
  rw [hc] at ha
  exact h (List.mem_replicate.1 ha).2

theorem Example.pool_one_pinned_reachable : Example.pool_one_pinned.Reachable :=
  BufferPoolManager.reachable_of_create 2 Example.disk [Op.fetch_page Example.pageA] _ rfl

theorem Example.pool_twice_allocated_reachable : Example.pool_twice_allocated.Reachable :=
  BufferPoolManager.reachable_of_create 2 Example.disk
    [Op.fetch_page Example.pageA, Op.write_data 0 (PageData.fill 9), Op.new_page 3 0,
     Op.write_data 1 (PageData.fill 7)] _ rfl

theorem Example.pool_invalid_fetch_reachable : Example.pool_invalid_fetch.Reachable :=
  BufferPoolManager.reachable_of_create 1 Example.disk
    [Op.fetch_page { fd := 3, page_no := INVALID_PAGE_ID }] _ rfl

/-! ### The claims -/

/-- C1. Eviction respects pinning: in every pool state reachable from an initial state by
any sequence of operations, every frame id that is on the free list or tracked by the
replacer is a frame with pin count 0; hence the frame returned by `find_victim_page`
never has a pin count greater than 0. -/
theorem eviction_respects_pinning (s : BufferPoolManager) (h : s.Reachable) :
    (∀ f : frame_id_t, f ∈ s.free_list_ ∨ f ∈ s.replacer_.tracked →
      ∃ pg : Page, s.pages_[f]? = some pg ∧ pg.pin_count_ = 0) ∧
    (∀ (s1 : BufferPoolManager) (f : frame_id_t), s.find_victim_page = (s1, some f) →
      ∃ pg : Page, s.pages_[f]? = some pg ∧ pg.pin_count_ = 0) := by
  have hi := BufferPoolManager.reachable_inv s h
  constructor
  · rintro f (hf | hf)
    · obtain ⟨pg, hpg⟩ := pages_get_of_lt s hi.pages_length f (hi.free_lt f hf)
      exact ⟨pg, hpg, hi.free_unpinned f hf pg hpg⟩
    · obtain ⟨pg, hpg⟩ := pages_get_of_lt s hi.pages_length f (hi.tracked_lt f hf)
      exact ⟨pg, hpg, hi.tracked_unpinned f hf pg hpg⟩
  · intro s1 f hv
    exact (BufferPoolManager.find_victim_page_spec s s1 hi f hv).2.2.2.2.2.2

/-- Instance of the pinning property in the pool of two frames after `fetch_page(A)` and
`unpin_page(A, true)`: the tracked frame 0 and the free frame 1 have pin count 0. -/
theorem eviction_respects_pinning_witness :
    Example.pool_unpinned.Reachable ∧
    (∃ pg : Page, Example.pool_unpinned.pages_[0]? = some pg ∧ pg.pin_count_ = 0) ∧
    (∃ pg : Page, Example.pool_unpinned.pages_[1]? = some pg ∧ pg.pin_count_ = 0) :=
  ⟨Example.pool_unpinned_reachable,
    (eviction_respects_pinning _ Example.pool_unpinned_reachable).1 0 (Or.inr (by decide)),
    (eviction_respects_pinning _ Example.pool_unpinned_reachable).1 1 (Or.inl (by decide))⟩

/-- C2 (the code at the failing input). In the pool of one frame after `fetch_page(A)`,
`fetch_page(A)` and `unpin_page(A, true)`, page A is resident in frame 0, dirty, with pin
count 1; the call `unpin_page(A, false)` succeeds and leaves the dirty flag false. -/
theorem unpin_page_clears_dirty_flag :
    Example.pool_dirty_pinned.page_table_ Example.pageA = some 0 ∧
    (Example.pool_dirty_pinned.pages_[0]?).map (fun pg => (pg.is_dirty_, pg.pin_count_))
      = some (true, 1) ∧
    ∃ s1 : BufferPoolManager,
      Example.pool_dirty_pinned.unpin_page Example.pageA false = some (s1, true) ∧
      (s1.pages_[0]?).map (fun pg => pg.is_dirty_) = some false :=
  ⟨by decide, by decide, _, rfl, by decide⟩

/-- C3, counterexample. In the pool of two frames in which `allocate_page` returned the
number of the resident page A, frame 1 holds A with pin count 1 and bytes 7 and the
pinned frame 0 still holds the page id A with bytes 9.  After `unpin_page(A, true)` the
miss `fetch_page(B)` evicts frame 1, the frame of A; `flush_all_pages(3)` then writes the
stale frame 0 over A on the disk, and after `unpin_page(B, false)` the successful
`fetch_page(A)` returns a frame whose content is 9, not 7. -/
theorem round_trip_through_eviction_counterexample :
    Example.pool_twice_allocated.Reachable ∧
    Example.pool_twice_allocated.page_table_ Example.pageA = some 1 ∧
    (Example.pool_twice_allocated.pages_[1]?).map (fun pg => pg.pin_count_) = some 1 ∧
    (Example.pool_twice_allocated.pages_[1]?).map (fun pg => pg.data_)
      = some (PageData.fill 7) ∧
    (Example.pool_twice_allocated.unpin_page Example.pageA true).map (fun r => r.2)
      = some true ∧
    ((Example.pool_twice_allocated.run_or [Op.unpin_page Example.pageA true]).fetch_page
      Example.pageB).map (fun r => r.2) = some (some 1) ∧
    Example.pool_twice_allocated.run
      [Op.unpin_page Example.pageA true, Op.fetch_page Example.pageB, Op.flush_all_pages 3,
       Op.unpin_page Example.pageB false] = some Example.pool_flushed_stale ∧
    Example.pool_flushed_stale.fetch_page Example.pageA
      = some (Example.pool_refetched, some 1) ∧
    (Example.pool_refetched.pages_[1]?).map (fun pg => pg.data_) = some (PageData.fill 9) ∧
    PageData.fill 9 ≠ PageData.fill 7 :=
  ⟨Example.pool_twice_allocated_reachable, by decide, by decide, rfl, by decide, by decide,
    rfl, rfl, rfl, PageData.fill_ne 9 7 (by decide)⟩

/-- C3. Round trip of page content through eviction.  Let `s` be a state reachable by
well-formed calls in which page `p` is resident in frame `f` with pin count 1 and bytes
`pg.data_`.  After `unpin_page(p, true)`, any operations that are not operations on `p`,
an eviction of frame `f`, still the frame of `p`, by a `fetch_page` miss or a `new_page`
for another page, and again any operations that are not operations on `p`: right after
the eviction `p` is not resident and the disk holds `pg.data_` under `p`, and a
successful `fetch_page(p)` returns a frame whose content is exactly `pg.data_`. -/
theorem round_trip_through_eviction (s : BufferPoolManager) (hs : s.WFReachable)
    (p : PageId) (f : frame_id_t) (pg : Page) (hres : s.page_table_ p = some f)
    (hpg : s.pages_[f]? = some pg) (hpin : pg.pin_count_ = 1)
    (s1 : BufferPoolManager) (hunpin : s.unpin_page p true = some (s1, true))
    (s2 : BufferPoolManager)
    (hbefore : Steps (fun t op => op.WellFormed t ∧ op.Quiet p t) s1 s2)
    (hstill : s2.page_table_ p = some f)
    (t : BufferPoolManager) (hvictim : s2.find_victim_page = (t, some f))
    (ev : Op)
    (hkind : (∃ q : PageId, ev = Op.fetch_page q ∧ s2.page_table_ q = none) ∨
      (∃ fd a : Int, ev = Op.new_page fd a))
    (hwf : ev.WellFormed s2) (hquiet : ev.Quiet p s2)
    (s3 : BufferPoolManager) (hevict : s2.step ev = some s3)
    (s4 : BufferPoolManager)
    (hafter : Steps (fun t op => op.WellFormed t ∧ op.Quiet p t) s3 s4)
    (s5 : BufferPoolManager) (g : frame_id_t)
    (hfetch : s4.fetch_page p = some (s5, some g)) :
    s3.page_table_ p = none ∧ s3.disk_manager_.content p = pg.data_ ∧
      ∃ pg5 : Page, s5.pages_[g]? = some pg5 ∧ pg5.data_ = pg.data_ := by
  have hi := BufferPoolManager.reachable_inv s (BufferPoolManager.wf_reachable_reachable s hs)
  have hm := BufferPoolManager.wf_reachable_mapped s hs
  have hv : p.page_no ≠ INVALID_PAGE_ID := hm.keys_valid p f hres
  have hpos : 0 < pg.pin_count_ := by rw [hpin]; decide
  obtain ⟨s1', pg1, hu, hi1, hk1, hpg1, _, hdirty1, hdata1, _, _⟩ :=
    hi.unpin_step s p true f pg hres hpg hpos
  rw [hunpin] at hu
  obtain rfl : s1 = s1' := congrArg Prod.fst (Option.some.inj hu)
  have hm1 : s1.Mapped :=
    BufferPoolManager.step_mapped s s1 hm (Op.unpin_page p true) trivial
      (by simp [BufferPoolManager.step, hunpin])
  have hc1 : s1.Cached p f pg.data_ := ⟨hk1, pg1, hpg1, hdata1, Or.inl hdirty1⟩
  obtain ⟨⟨hi2, hm2⟩, hj2⟩ := BufferPoolManager.round_trip_steps p f pg.data_ s1 s2 hbefore hv
    ⟨⟨hi1, hm1⟩, Or.inl hc1⟩
  have hnot := BufferPoolManager.evict_not_resident s2 s3 t hi2 p f ev hstill hvictim hkind
    hquiet hevict
  have hj3 := BufferPoolManager.round_trip_step p f pg.data_ s2 s3 hi2 hm2 hv hj2 ev hquiet
    hevict
  have he3 : s3.Evicted p pg.data_ := by
    rcases hj3 with hc | he
    · rw [hc.1] at hnot
      cases hnot
    · exact he
  obtain ⟨_, hj4⟩ := BufferPoolManager.round_trip_steps p f pg.data_ s3 s4 hafter hv
    ⟨⟨BufferPoolManager.step_inv s2 s3 hi2 ev hevict,
      BufferPoolManager.step_mapped s2 s3 hm2 ev hwf hevict⟩, Or.inr he3⟩
  exact ⟨hnot, he3.2.1, BufferPoolManager.round_trip_fetch p f pg.data_ s4 s5 hj4 g hfetch⟩

/-- Instance of the round trip in a pool of one frame: page A is fetched, filled with the
byte 7 and unpinned dirty; `fetch_page(B)` evicts it; after `unpin_page(B, false)` the
call `fetch_page(A)` returns frame 0 filled with the byte 7. -/
theorem round_trip_through_eviction_witness :
    Example.pool_written.WFReachable ∧
    Example.pool_written.page_table_ Example.pageA = some 0 ∧
    (Example.pool_dirty.run_or [Op.fetch_page Example.pageB]).page_table_ Example.pageA
      = none ∧
    (Example.pool_dirty.run_or [Op.fetch_page Example.pageB]).disk_manager_.content
      Example.pageA = PageData.fill 7 ∧
    ∃ pg5 : Page,
      (Example.pool_evicted.run_or [Op.fetch_page Example.pageA]).pages_[0]? = some pg5 ∧
      pg5.data_ = PageData.fill 7 :=
  ⟨Example.pool_written_wf_reachable, by decide,
    round_trip_through_eviction Example.pool_written Example.pool_written_wf_reachable
      Example.pageA 0
      { id_ := Example.pageA, data_ := PageData.fill 7, is_dirty_ := false, pin_count_ := 1 }
      (by decide) rfl rfl
      Example.pool_dirty rfl
      Example.pool_dirty (Steps.refl _)
      (by decide)
      Example.pool_dirty.find_victim_page.1 rfl
      (Op.fetch_page Example.pageB)
      (Or.inl ⟨Example.pageB, rfl, by decide⟩)
      (by decide : Example.pageB.page_no ≠ INVALID_PAGE_ID)
      (by decide : Example.pageB ≠ Example.pageA)
      (Example.pool_dirty.run_or [Op.fetch_page Example.pageB]) rfl
      Example.pool_evicted
      (Steps.step _ _ _ (Op.unpin_page Example.pageB false) (Steps.refl _)
        ⟨trivial, (by decide : Example.pageB ≠ Example.pageA)⟩ rfl)
      (Example.pool_evicted.run_or [Op.fetch_page Example.pageA]) 0 rfl⟩

/-- C4. LRU ordering: for pairwise distinct frame ids `fs` whose number does not exceed
the capacity `n`, the calls `unpin` of the frames of `fs` in order on an empty replacer
are defined and leave `Size()` equal to the number of frames; the following calls of
`victim()` return the frames of `fs` in the same order (least recently unpinned first)
and then report that there is no victim; `Size()` after these calls is one less each
time, down to 0; and after `j` calls of `victim()` the tracked frames are exactly the
frames of `fs` not yet returned. -/
theorem lru_victim_order (n : Nat) (fs : List frame_id_t) (hnd : fs.Nodup)
    (hlen : fs.length ≤ n) :
    ∃ r : LRUReplacer, (LRUReplacer.create n).unpin_all fs = some r ∧
      r.Size = fs.length ∧
      (r.victim_times (fs.length + 1)).1.map Prod.fst = fs.map some ++ [none] ∧
      (r.victim_times (fs.length + 1)).1.map Prod.snd = (List.range fs.length).reverse ++ [0] ∧
      ∀ j : Nat, (r.victim_times j).2.tracked = (fs.drop j).reverse := by
  obtain ⟨r, hr, hc, _, ht⟩ := LRUReplacer.unpin_all_spec fs (LRUReplacer.create n)
    (LRUReplacer.create_consistent n) hnd
    (by intro f _; simp [LRUReplacer.tracked, LRUReplacer.create])
    (by simpa [LRUReplacer.tracked, LRUReplacer.create] using hlen)
  have ht1 : r.tracked = fs.reverse := by
    rw [ht]
    simp [LRUReplacer.tracked, LRUReplacer.create]
  have hlen1 : r.tracked.length = fs.length := by rw [ht1, List.length_reverse]
  obtain ⟨h1, h2⟩ := LRUReplacer.victim_times_spec fs.length r hc hlen1
  refine ⟨r, hr, ?_, ?_, h2, ?_⟩
  · rw [LRUReplacer.size_eq_tracked_length, hlen1]
  · rw [h1, ht1, List.reverse_reverse]
  · intro j
    rw [LRUReplacer.victim_times_tracked j r hc, ht1, List.reverse_reverse]

/-- Instance of the LRU ordering: capacity 3 and the unpins 5, 1, 2. -/
theorem lru_victim_order_witness :
    ([5, 1, 2] : List frame_id_t).Nodup ∧ ([5, 1, 2] : List frame_id_t).length ≤ 3 ∧
    ∃ r : LRUReplacer, (LRUReplacer.create 3).unpin_all [5, 1, 2] = some r ∧
      r.Size = 3 ∧
      (r.victim_times 4).1.map Prod.fst = [some 5, some 1, some 2, none] ∧
      (r.victim_times 4).1.map Prod.snd = [2, 1, 0, 0] ∧
      ∀ j : Nat, (r.victim_times j).2.tracked = (([5, 1, 2] : List frame_id_t).drop j).reverse :=
  ⟨by decide, by decide, lru_victim_order 3 [5, 1, 2] (by decide) (by decide)⟩

/-- C5, counterexample. First, in the pool of two frames in which page A is already
pinned once, one `fetch_page(A)` succeeds and one `unpin_page(A, false)` returns `true`,
but afterwards the pin count of the frame is 1, the frame is not tracked, and a further
`unpin_page` returns `true`.  Second, in a fresh pool of one frame the first
`fetch_page(A)` succeeds, but 2147483647 + 1 calls of `fetch_page(A)` are not all defined:
the last one increments a pin count that holds `INT_MAX`. -/
theorem pin_unpin_balance_counterexample :
    (Example.pool_one_pinned.Reachable ∧
      (Example.pool_one_pinned.fetch_page Example.pageA).map (fun r => r.2) = some (some 0) ∧
      ((Example.pool_one_pinned.run_or [Op.fetch_page Example.pageA]).unpin_page
        Example.pageA false).map (fun r => r.2) = some true ∧
      Example.pool_one_pinned.run
        [Op.fetch_page Example.pageA, Op.unpin_page Example.pageA false]
        = some Example.pool_rebalanced ∧
      (Example.pool_rebalanced.pages_[0]?).map (fun pg => pg.pin_count_) = some 1 ∧
      0 ∉ Example.pool_rebalanced.replacer_.tracked ∧
      (Example.pool_rebalanced.unpin_page Example.pageA false).map (fun r => r.2)
        = some true) ∧
    ((BufferPoolManager.create 1 Example.disk).Reachable ∧
      (BufferPoolManager.create 1 Example.disk).page_table_ Example.pageA = none ∧
      ((BufferPoolManager.create 1 Example.disk).fetch_page Example.pageA).map (fun r => r.2)
        = some (some 0) ∧
      BufferPoolManager.fetch_times Example.pageA (BufferPoolManager.create 1 Example.disk)
        (2147483647 + 1) = none) := by
  refine ⟨⟨Example.pool_one_pinned_reachable, by decide, by decide, rfl, by decide,
    by decide, by decide⟩,
    BufferPoolManager.Reachable.init _ (BufferPoolManager.create_initial 1 Example.disk),
    rfl, by decide, ?_⟩
  have hr : ((BufferPoolManager.create 1 Example.disk).run_or
      [Op.fetch_page Example.pageA]).Reachable :=
    BufferPoolManager.reachable_of_create 1 Example.disk [Op.fetch_page Example.pageA] _ rfl
  have hover := BufferPoolManager.fetch_times_overflow Example.pageA 0 2147483647
    ((BufferPoolManager.create 1 Example.disk).run_or [Op.fetch_page Example.pageA])
    { id_ := Example.pageA, data_ := PageData.zero, is_dirty_ := false, pin_count_ := 1 }
    (BufferPoolManager.reachable_inv _ hr) (by decide) rfl (by decide) (by decide)
  have hfirst : (BufferPoolManager.create 1 Example.disk).fetch_page Example.pageA
      = some ((BufferPoolManager.create 1 Example.disk).run_or
        [Op.fetch_page Example.pageA], some 0) := rfl
  exact BufferPoolManager.fetch_times_first_overflow Example.pageA
    (BufferPoolManager.create 1 Example.disk) _ (some 0) 2147483647 hfirst hover

/-- C5. Pin/unpin balance: in a reachable state in which page `p` is not pinned (not
resident, or resident with pin count 0), if the first `fetch_page(p)` succeeds in frame
`f`, then `n` calls of `fetch_page(p)`, for `1 ≤ n ≤ INT_MAX` (the pin count is an `int`),
all return frame `f`, and the following calls
`unpin_page(p, d_i)` all return `true`: after `j ≤ n` of them the pin count of the frame is
`n - j`, and the frame is tracked by the replacer exactly when `j = n`, that is when the
pin count is 0; after the `n`-th one a further `unpin_page(p, d)` returns `false` and
leaves the whole pool state unchanged.  In every pool state `unpin_page` of a page that
is not resident returns `false` and changes nothing. -/
theorem pin_unpin_balance (s : BufferPoolManager) (h : s.Reachable) (p : PageId) (n : Nat)
    (hn : 1 ≤ n) (hmax : (n : Int) ≤ INT_MAX) (ds : List Bool) (hds : ds.length = n)
    (d : Bool)
    (hstart : ∀ (g : frame_id_t) (pg : Page), s.page_table_ p = some g →
      s.pages_[g]? = some pg → pg.pin_count_ = 0)
    (s1 : BufferPoolManager) (f : frame_id_t) (hfirst : s.fetch_page p = some (s1, some f)) :
    (∃ s2 : BufferPoolManager,
      BufferPoolManager.fetch_times p s n = some (s2, List.replicate n (some f)) ∧
      ∀ j : Nat, j ≤ n → ∃ (sj : BufferPoolManager) (pg : Page),
        BufferPoolManager.unpin_each p s2 (ds.take j) = some (sj, List.replicate j true) ∧
        sj.page_table_ p = some f ∧ sj.pages_[f]? = some pg ∧
        pg.pin_count_ = (n : Int) - (j : Int) ∧
        (f ∈ sj.replacer_.tracked ↔ j = n) ∧
        (j = n → sj.unpin_page p d = some (sj, false))) ∧
    (∀ (t : BufferPoolManager) (q : PageId) (e : Bool), t.page_table_ q = none →
      t.unpin_page q e = some (t, false)) := by
  have hi := BufferPoolManager.reachable_inv s h
  refine ⟨?_, fun t q e hq => BufferPoolManager.unpin_page_absent t q e hq⟩
  obtain ⟨hi1, hk1, pg1, hpg1, hpin1⟩ := hi.first_fetch s s1 p f hstart hfirst
  obtain ⟨m, rfl⟩ : ∃ m, n = m + 1 := ⟨n - 1, by omega⟩
  obtain ⟨s2, pg2, hft, hi2, hk2, hpg2, hpin2⟩ :=
    BufferPoolManager.fetch_times_hits p f m s1 pg1 hi1 hk1 hpg1
      (by rw [hpin1]; push_cast at hmax; omega)
  refine ⟨s2, ?_, ?_⟩
  · simp only [BufferPoolManager.fetch_times, hfirst, hft, List.replicate_succ]
  · intro j hj
    have hlen : (ds.take j).length = j := by
      rw [List.length_take, hds]
      omega
    have hpin2' : pg2.pin_count_ = ((m + 1 : Nat) : Int) := by
      rw [hpin2, hpin1]
      push_cast
      ring
    obtain ⟨sj, pgj, hu, hij, hkj, hpgj, hpinj, htrj⟩ :=
      BufferPoolManager.unpin_each_spec p f (ds.take j) s2 pg2 hi2 hk2 hpg2
        (by rw [hlen, hpin2']; exact_mod_cast hj)
    rw [hlen] at hu hpinj htrj
    have hpinj' : pgj.pin_count_ = ((m + 1 : Nat) : Int) - (j : Int) := by
      rw [hpinj, hpin2']
    refine ⟨sj, pgj, hu, hkj, hpgj, hpinj', ⟨fun hmem => ?_, fun hjn => ?_⟩, fun hjn => ?_⟩
    · have h0 := hij.tracked_unpinned f hmem pgj hpgj
      rw [hpinj'] at h0
      omega
    · apply htrj
      · omega
      · rw [hpin2', hjn]
    · apply BufferPoolManager.unpin_page_fail sj p d f pgj hkj hpgj
      rw [hpinj', hjn]
      omega

/-- Instance of the balance property in a fresh pool of two frames: two `fetch_page(A)`
followed by two `unpin_page`. -/
theorem pin_unpin_balance_witness :
    (BufferPoolManager.create 2 Example.disk).Reachable ∧
    (∃ s2 : BufferPoolManager,
      BufferPoolManager.fetch_times Example.pageA (BufferPoolManager.create 2 Example.disk) 2
        = some (s2, [some 0, some 0]) ∧
      ∀ j : Nat, j ≤ 2 → ∃ (sj : BufferPoolManager) (pg : Page),
        BufferPoolManager.unpin_each Example.pageA s2 ([true, false].take j)
          = some (sj, List.replicate j true) ∧
        sj.page_table_ Example.pageA = some 0 ∧ sj.pages_[0]? = some pg ∧
        pg.pin_count_ = ((2 : Nat) : Int) - (j : Int) ∧
        (0 ∈ sj.replacer_.tracked ↔ j = 2) ∧
        (j = 2 → sj.unpin_page Example.pageA false = some (sj, false))) :=
  ⟨BufferPoolManager.Reachable.init _ (BufferPoolManager.create_initial 2 Example.disk),
    (pin_unpin_balance (BufferPoolManager.create 2 Example.disk)
      (BufferPoolManager.Reachable.init _ (BufferPoolManager.create_initial 2 Example.disk))
      Example.pageA 2 (by decide) (by decide) [true, false] rfl false
      (fun _ _ hk _ => nomatch hk)
      ((BufferPoolManager.create 2 Example.disk).run_or [Op.fetch_page Example.pageA]) 0
      rfl).1⟩

/-- C6. Delete guard: `delete_page(p)` of a page that is resident with a positive pin
count returns `false`, and `delete_page(p)` of a page that is not resident returns
`true`; in both cases the whole pool state, the disk and its call trace included, is
unchanged. -/
theorem delete_page_guard (s : BufferPoolManager) (p : PageId) :
    (∀ (f : frame_id_t) (pg : Page), s.page_table_ p = some f → s.pages_[f]? = some pg →
      0 < pg.pin_count_ → s.delete_page p = some (s, false)) ∧
    (s.page_table_ p = none → s.delete_page p = some (s, true)) :=
  ⟨fun f pg hk hpg hpin => BufferPoolManager.delete_page_pinned s p f pg hk hpg hpin,
    fun hk => BufferPoolManager.delete_page_absent s p hk⟩

/-- Instance of the delete guard in the pool of two frames after `fetch_page(A)`:
deleting the pinned page A fails, deleting the absent page B succeeds, nothing changes. -/
theorem delete_page_guard_witness :
    Example.pool_one_pinned.page_table_ Example.pageA = some 0 ∧
    (Example.pool_one_pinned.pages_[0]?).map (fun pg => pg.pin_count_) = some 1 ∧
    Example.pool_one_pinned.delete_page Example.pageA = some (Example.pool_one_pinned, false) ∧
    Example.pool_one_pinned.page_table_ Example.pageB = none ∧
    Example.pool_one_pinned.delete_page Example.pageB = some (Example.pool_one_pinned, true) :=
  ⟨by decide, by decide,
    (delete_page_guard Example.pool_one_pinned Example.pageA).1 0
      { id_ := Example.pageA, data_ := PageData.zero, is_dirty_ := false, pin_count_ := 1 }
      (by decide) rfl (by decide),
    by decide,
    (delete_page_guard Example.pool_one_pinned Example.pageB).2 (by decide)⟩

/-- C7. Pool exhaustion: for a page that is not resident, `fetch_page` returns `nullptr`
exactly when the free list is empty and the replacer tracks no frame, and so does
`new_page`; in that case the whole pool state, the disk and its call trace included, is
unchanged (no page number is allocated).  In a reachable state both calls are defined. -/
theorem pool_exhaustion (s : BufferPoolManager) (p : PageId) (fd allocated : Int)
    (hmiss : s.page_table_ p = none) :
    (∀ s1 : BufferPoolManager, s.fetch_page p = some (s1, none) ↔
      (s.free_list_ = [] ∧ s.replacer_.tracked = [] ∧ s1 = s)) ∧
    (∀ s1 : BufferPoolManager, s.new_page fd allocated = some (s1, none) ↔
      (s.free_list_ = [] ∧ s.replacer_.tracked = [] ∧ s1 = s)) ∧
    (s.Reachable →
      (∃ res, s.fetch_page p = some res) ∧ (∃ res, s.new_page fd allocated = some res)) := by
  refine ⟨fun s1 => ⟨fun hs => ?_, fun hx => ?_⟩, fun s1 => ⟨fun hs => ?_, fun hx => ?_⟩,
    fun hr => ?_⟩
  · obtain ⟨h1, h2, h3⟩ := BufferPoolManager.find_victim_page_none_iff s s1
      (BufferPoolManager.fetch_page_none_victim s s1 p hmiss hs)
    exact ⟨h1, (LRUReplacer.tracked_eq_nil _).2 h2, h3⟩
  · obtain ⟨h1, h2, h3⟩ := hx
    rw [h3]
    exact BufferPoolManager.fetch_page_exhausted s s p hmiss
      (BufferPoolManager.find_victim_page_none s h1 ((LRUReplacer.tracked_eq_nil _).1 h2))
  · obtain ⟨h1, h2, h3⟩ := BufferPoolManager.find_victim_page_none_iff s s1
      (BufferPoolManager.new_page_none_victim s s1 fd allocated hs)
    exact ⟨h1, (LRUReplacer.tracked_eq_nil _).2 h2, h3⟩
  · obtain ⟨h1, h2, h3⟩ := hx
    rw [h3]
    exact BufferPoolManager.new_page_exhausted s s fd allocated
      (BufferPoolManager.find_victim_page_none s h1 ((LRUReplacer.tracked_eq_nil _).1 h2))
  · have hi := BufferPoolManager.reachable_inv s hr
    refine ⟨hi.fetch_page_defined s p (fun f pg hk _ => ?_),
      hi.new_page_defined s fd allocated⟩
    rw [hmiss] at hk
    cases hk

/-- Instance of the exhaustion property: in the pool of two frames after `fetch_page(A)`
and `fetch_page(B)`, neither unpinned, `new_page` returns `nullptr` and changes nothing,
and so does `fetch_page` of a third page. -/
theorem pool_exhaustion_witness :
    Example.pool_full.page_table_ { fd := 3, page_no := 2 } = none ∧
    Example.pool_full.new_page 3 2 = some (Example.pool_full, none) ∧
    Example.pool_full.fetch_page { fd := 3, page_no := 2 } = some (Example.pool_full, none) :=
  ⟨by decide,
    ((pool_exhaustion Example.pool_full { fd := 3, page_no := 2 } 3 2 (by decide)).2.1 _).2
      ⟨by decide, by decide, rfl⟩,
    ((pool_exhaustion Example.pool_full { fd := 3, page_no := 2 } 3 2 (by decide)).1 _).2
      ⟨by decide, by decide, rfl⟩⟩

/-- C8. Dirty write-back on eviction: when a `fetch_page` miss or a `new_page` in a
reachable state selects the victim frame `f`, which holds page `pg.id_` with bytes
`pg.data_`, the operation succeeds in frame `f`; if the frame is dirty, the calls it
issues to the disk are exactly one `write_page` to the file handle and page number of the
held page with the bytes of the frame, followed by the `read_page` of the requested page
(for `new_page`: by `allocate_page`), and if the frame is not dirty no `write_page` is
issued; afterwards the dirty flag of the frame is false. -/
theorem dirty_write_back_on_eviction (s : BufferPoolManager) (h : s.Reachable)
    (s1 : BufferPoolManager) (f : frame_id_t) (pg : Page)
    (hv : s.find_victim_page = (s1, some f)) (hpg : s.pages_[f]? = some pg) :
    (∀ p : PageId, s.page_table_ p = none →
      ∃ (s2 : BufferPoolManager) (pg2 : Page), s.fetch_page p = some (s2, some f) ∧
        s2.disk_manager_.trace = s.disk_manager_.trace ++
          (if pg.is_dirty_ then [DiskCall.write_page pg.id_.fd pg.id_.page_no pg.data_]
            else []) ++ [DiskCall.read_page p.fd p.page_no] ∧
        s2.pages_[f]? = some pg2 ∧ pg2.is_dirty_ = false) ∧
    (∀ fd allocated : Int,
      ∃ (s2 : BufferPoolManager) (pg2 : Page),
        s.new_page fd allocated = some (s2, some (f, { fd := fd, page_no := allocated })) ∧
        s2.disk_manager_.trace = s.disk_manager_.trace ++
          (if pg.is_dirty_ then [DiskCall.write_page pg.id_.fd pg.id_.page_no pg.data_]
            else []) ++ [DiskCall.allocate_page fd] ∧
        s2.pages_[f]? = some pg2 ∧ pg2.is_dirty_ = false) := by
  have hi := BufferPoolManager.reachable_inv s h
  obtain ⟨pg0, r, hpg0, hpg1, hpin, _, _, _, hdisk⟩ := hi.victim_install s s1 f hv
  rw [hpg] at hpg0
  cases hpg0
  constructor
  · intro p hk
    refine ⟨_, _, BufferPoolManager.fetch_page_miss s s1 p f pg r hk hv hpg1 hpin, ?_,
      pages_set_self _ f pg _ hpg1, rfl⟩
    cases hd : pg.is_dirty_ <;>
      simp [hdisk, DiskManager.read_page, DiskManager.write_page]
  · intro fd a
    refine ⟨_, _, BufferPoolManager.new_page_eq s s1 fd a f pg r hv hpg1 hpin, ?_,
      pages_set_self _ f pg _ hpg1, rfl⟩
    cases hd : pg.is_dirty_ <;>
      simp [hdisk, DiskManager.allocate_page, DiskManager.write_page]

/-- Instance of the write-back property in the pool of one frame that holds page A,
dirty and unpinned, with every byte equal to 7: `fetch_page(B)` evicts frame 0, writes
the bytes of page A to disk, then reads page B. -/
theorem dirty_write_back_on_eviction_witness :
    Example.pool_dirty.Reachable ∧
    Example.pool_dirty.page_table_ Example.pageB = none ∧
    ∃ (s2 : BufferPoolManager) (pg2 : Page),
      Example.pool_dirty.fetch_page Example.pageB = some (s2, some 0) ∧
      s2.disk_manager_.trace = Example.pool_dirty.disk_manager_.trace ++
        [DiskCall.write_page 3 0 (PageData.fill 7)] ++ [DiskCall.read_page 3 1] ∧
      s2.pages_[0]? = some pg2 ∧ pg2.is_dirty_ = false :=
  ⟨Example.pool_dirty_reachable, by decide,
    (dirty_write_back_on_eviction Example.pool_dirty Example.pool_dirty_reachable
      Example.pool_dirty.find_victim_page.1 0
      { id_ := Example.pageA, data_ := PageData.fill 7, is_dirty_ := true, pin_count_ := 0 }
      rfl rfl).1 Example.pageB (by decide)⟩

/-- C9. Free-list priority: in a reachable state whose free list is not empty, a
`fetch_page` miss and a `new_page` use the frame `f` at the front of the free list and
remove it from the free list; the replacer is not asked for a victim:
`find_victim_page` changes nothing but the free list, and the state of the replacer
afterwards is the result of the single call `pin(f)`, so that the tracked frames other
than `f` are tracked in the same order; every frame other than `f` is unchanged. -/
theorem free_list_priority (s : BufferPoolManager) (h : s.Reachable) (f : frame_id_t)
    (rest : List frame_id_t) (hfl : s.free_list_ = f :: rest) :
    s.find_victim_page = ({ s with free_list_ := rest }, some f) ∧
    (∀ p : PageId, s.page_table_ p = none →
      ∃ s2 : BufferPoolManager, s.fetch_page p = some (s2, some f) ∧
        s2.free_list_ = rest ∧ f ∉ s2.free_list_ ∧
        s.replacer_.pin f = some s2.replacer_ ∧
        s2.replacer_.tracked = s.replacer_.tracked.filter (fun g => !decide (g = f)) ∧
        ∀ g : frame_id_t, g ≠ f → s2.pages_[g]? = s.pages_[g]?) ∧
    (∀ fd allocated : Int,
      ∃ s2 : BufferPoolManager,
        s.new_page fd allocated = some (s2, some (f, { fd := fd, page_no := allocated })) ∧
        s2.free_list_ = rest ∧ f ∉ s2.free_list_ ∧
        s.replacer_.pin f = some s2.replacer_ ∧
        s2.replacer_.tracked = s.replacer_.tracked.filter (fun g => !decide (g = f)) ∧
        ∀ g : frame_id_t, g ≠ f → s2.pages_[g]? = s.pages_[g]?) := by
  have hi := BufferPoolManager.reachable_inv s h
  have hv := BufferPoolManager.find_victim_page_free s f rest hfl
  obtain ⟨_, hnot, _⟩ := BufferPoolManager.find_victim_page_spec s _ hi f hv
  obtain ⟨pg, r, _, hpg1, hpin, ht, _, _, _⟩ := hi.victim_install s _ f hv
  refine ⟨hv, ?_, ?_⟩
  · intro p hk
    exact ⟨_, BufferPoolManager.fetch_page_miss s _ p f pg r hk hv hpg1 hpin, rfl, hnot, hpin,
      ht, fun g hg => List.getElem?_set_ne (Ne.symm hg)⟩
  · intro fd a
    exact ⟨_, BufferPoolManager.new_page_eq s _ fd a f pg r hv hpg1 hpin, rfl, hnot, hpin,
      ht, fun g hg => List.getElem?_set_ne (Ne.symm hg)⟩

/-- Instance of the free-list priority in the pool of two frames in which frame 0 holds
the unpinned page A and frame 1 is free: `fetch_page(B)` takes frame 1 and frame 0 stays
tracked and unchanged. -/
theorem free_list_priority_witness :
    Example.pool_free_and_tracked.Reachable ∧
    Example.pool_free_and_tracked.free_list_ = [1] ∧
    Example.pool_free_and_tracked.replacer_.tracked = [0] ∧
    Example.pool_free_and_tracked.page_table_ Example.pageB = none ∧
    ∃ s2 : BufferPoolManager,
      Example.pool_free_and_tracked.fetch_page Example.pageB = some (s2, some 1) ∧
      s2.free_list_ = [] ∧ 1 ∉ s2.free_list_ ∧
      Example.pool_free_and_tracked.replacer_.pin 1 = some s2.replacer_ ∧
      s2.replacer_.tracked =
        Example.pool_free_and_tracked.replacer_.tracked.filter (fun g => !decide (g = 1)) ∧
      ∀ g : frame_id_t, g ≠ 1 → s2.pages_[g]? = Example.pool_free_and_tracked.pages_[g]? :=
  ⟨Example.pool_free_and_tracked_reachable, by decide, by decide, by decide,
    (free_list_priority Example.pool_free_and_tracked Example.pool_free_and_tracked_reachable
      1 [] rfl).2.1 Example.pageB (by decide)⟩

/-- C10. Redundant replacer calls are no-ops: in every reachable replacer state,
`unpin(f)` of a tracked frame and `pin(f)` of an untracked frame leave the state
unchanged; `unpin(f); unpin(f)` equals `unpin(f)` and `pin(f); pin(f)` equals `pin(f)`;
`pin(f)` of a tracked frame removes exactly `f` from the tracked sequence, keeps the
order of the other frames and decreases `Size()` by one. -/
theorem redundant_replacer_calls (r : LRUReplacer) (h : r.Reachable) (f : frame_id_t) :
    (f ∈ r.tracked → r.unpin f = some r) ∧
    (f ∉ r.tracked → r.pin f = some r) ∧
    ((r.unpin f).bind (fun r1 => r1.unpin f) = r.unpin f) ∧
    ((r.pin f).bind (fun r1 => r1.pin f) = r.pin f) ∧
    (f ∈ r.tracked → ∃ r1 : LRUReplacer, r.pin f = some r1 ∧
      r1.tracked = r.tracked.filter (fun g => !decide (g = f)) ∧ f ∉ r1.tracked ∧
      r1.Size + 1 = r.Size) := by
  have hc := LRUReplacer.reachable_consistent r h
  refine ⟨fun hf => LRUReplacer.unpin_tracked r hc f hf,
    fun hf => LRUReplacer.pin_untracked r f ((LRUReplacer.hash_none_iff r hc f).2 hf),
    ?_, ?_, fun hf => ?_⟩
  · cases hu : r.unpin f with
    | none => rfl
    | some r1 => exact LRUReplacer.unpin_twice r r1 f hu
  · cases hp : r.pin f with
    | none => rfl
    | some r1 => exact LRUReplacer.pin_twice r r1 f hp
  · obtain ⟨r1, hp, _, ht, _⟩ := LRUReplacer.pin_spec r hc f
    refine ⟨r1, hp, ht, ?_, ?_⟩
    · rw [ht, List.mem_filter]
      simp
    · rw [LRUReplacer.size_eq_tracked_length, LRUReplacer.size_eq_tracked_length, ht]
      exact filter_ne_length r.tracked f hc.frame_nodup hf

/-- Instance of the no-op property in the replacer that tracks 2 and 1: `unpin(1)` and
`pin(5)` change nothing, `pin(1)` leaves exactly 2 tracked. -/
theorem redundant_replacer_calls_witness :
    Example.replacer.Reachable ∧
    Example.replacer.tracked = [2, 1] ∧
    Example.replacer.unpin 1 = some Example.replacer ∧
    Example.replacer.pin 5 = some Example.replacer ∧
    ∃ r1 : LRUReplacer, Example.replacer.pin 1 = some r1 ∧
      r1.tracked = Example.replacer.tracked.filter (fun g => !decide (g = 1)) ∧
      1 ∉ r1.tracked ∧ r1.Size + 1 = Example.replacer.Size :=
  ⟨Example.replacer_reachable, by decide,
    (redundant_replacer_calls Example.replacer Example.replacer_reachable 1).1 (by decide),
    (redundant_replacer_calls Example.replacer Example.replacer_reachable 5).2.1 (by decide),
    (redundant_replacer_calls Example.replacer Example.replacer_reachable 1).2.2.2.2
      (by decide)⟩

/-- C11. The contract of `flush_page`: for a page that is not resident it returns `false`
and changes nothing, the disk included.  For a page resident in frame `f` it returns
`true`, appends exactly one `write_page` of the bytes of the frame, addressed to the page
id held by the frame (which is `p` in every reachable state), to the calls received by
the disk, clears the dirty flag of the frame whatever it was, and leaves the pin count
and the content of the frame, the other frames, the page table, the free list and the
replacer unchanged.  A second `flush_page(p)` issues the same write again and leaves
frames, page table, free list, replacer and disk content as they were after the first. -/
theorem flush_page_contract (s : BufferPoolManager) (p : PageId) :
    (s.page_table_ p = none → s.flush_page p = some (s, false)) ∧
    (∀ (f : frame_id_t) (pg : Page), s.page_table_ p = some f → s.pages_[f]? = some pg →
      (s.Reachable → pg.id_ = p) ∧
      ∃ s1 s2 : BufferPoolManager,
        s.flush_page p = some (s1, true) ∧
        s1.disk_manager_.trace = s.disk_manager_.trace ++
          [DiskCall.write_page pg.id_.fd pg.id_.page_no pg.data_] ∧
        s1.pages_ = s.pages_.set f { pg with is_dirty_ := false } ∧
        s1.page_table_ = s.page_table_ ∧ s1.free_list_ = s.free_list_ ∧
        s1.replacer_ = s.replacer_ ∧
        s1.flush_page p = some (s2, true) ∧
        s2.disk_manager_.trace = s1.disk_manager_.trace ++
          [DiskCall.write_page pg.id_.fd pg.id_.page_no pg.data_] ∧
        s2.disk_manager_.content = s1.disk_manager_.content ∧
        s2.pages_ = s1.pages_ ∧ s2.page_table_ = s1.page_table_ ∧
        s2.free_list_ = s1.free_list_ ∧ s2.replacer_ = s1.replacer_) ∧
    (s.Reachable → ∀ f : frame_id_t, s.page_table_ p = some f →
      ∃ pg : Page, s.pages_[f]? = some pg) := by
  refine ⟨fun hk => by simp only [BufferPoolManager.flush_page, hk], ?_, ?_⟩
  · intro f pg hk hpg
    refine ⟨fun hr => (BufferPoolManager.reachable_inv s hr).table_id p f pg hk hpg, ?_⟩
    have h1 : s.flush_page p = some ({ s with
        disk_manager_ := s.disk_manager_.write_page pg.id_.fd pg.id_.page_no pg.data_,
        pages_ := s.pages_.set f { pg with is_dirty_ := false } }, true) := by
      simp only [BufferPoolManager.flush_page, hk, hpg]
    have hpg1 : (s.pages_.set f { pg with is_dirty_ := false })[f]? =
        some { pg with is_dirty_ := false } := pages_set_self _ f pg _ hpg
    refine ⟨_, { s with
        disk_manager_ := (s.disk_manager_.write_page pg.id_.fd pg.id_.page_no
          pg.data_).write_page pg.id_.fd pg.id_.page_no pg.data_,
        pages_ := (s.pages_.set f { pg with is_dirty_ := false }).set f
          { pg with is_dirty_ := false } },
      h1, rfl, rfl, rfl, rfl, rfl, ?_, rfl, ?_, ?_, rfl, rfl, rfl⟩
    · simp only [BufferPoolManager.flush_page, hk, hpg1]
    · exact DiskManager.write_page_twice _ _ _ _
    · simp
  · intro hr f hk
    obtain ⟨pg, hpg, _⟩ := (BufferPoolManager.reachable_inv s hr).table_get s p f hk
    exact ⟨pg, hpg⟩

/-- Instance of the flush contract in the pool of one frame that holds page A, dirty,
with every byte equal to 7, and in which page B is not resident. -/
theorem flush_page_contract_witness :
    Example.pool_dirty.page_table_ Example.pageB = none ∧
    Example.pool_dirty.flush_page Example.pageB = some (Example.pool_dirty, false) ∧
    Example.pool_dirty.page_table_ Example.pageA = some 0 ∧
    ∃ s1 s2 : BufferPoolManager,
      Example.pool_dirty.flush_page Example.pageA = some (s1, true) ∧
      s1.disk_manager_.trace = Example.pool_dirty.disk_manager_.trace ++
        [DiskCall.write_page 3 0 (PageData.fill 7)] ∧
      s1.pages_ = Example.pool_dirty.pages_.set 0
        { id_ := Example.pageA, data_ := PageData.fill 7, is_dirty_ := false,
          pin_count_ := 0 } ∧
      s1.page_table_ = Example.pool_dirty.page_table_ ∧
      s1.free_list_ = Example.pool_dirty.free_list_ ∧
      s1.replacer_ = Example.pool_dirty.replacer_ ∧
      s1.flush_page Example.pageA = some (s2, true) ∧
      s2.disk_manager_.trace = s1.disk_manager_.trace ++
        [DiskCall.write_page 3 0 (PageData.fill 7)] ∧
      s2.disk_manager_.content = s1.disk_manager_.content ∧
      s2.pages_ = s1.pages_ ∧ s2.page_table_ = s1.page_table_ ∧
      s2.free_list_ = s1.free_list_ ∧ s2.replacer_ = s1.replacer_ :=
  ⟨by decide, (flush_page_contract Example.pool_dirty Example.pageB).1 (by decide), by decide,
    ((flush_page_contract Example.pool_dirty Example.pageA).2.1 0
      { id_ := Example.pageA, data_ := PageData.fill 7, is_dirty_ := true, pin_count_ := 0 }
      (by decide) rfl).2⟩

/-- C12, counterexample. In the pool of one frame after `fetch_page` of the page id
(3, `INVALID_PAGE_ID`), the page table maps this page id, whose file handle is 3, to
frame 0, yet `flush_all_pages(3)` issues no call to the disk: the loop skips every frame
whose page number is `INVALID_PAGE_ID`. -/
theorem flush_all_pages_contract_counterexample :
    Example.pool_invalid_fetch.Reachable ∧
    Example.pool_invalid_fetch.page_table_ { fd := 3, page_no := INVALID_PAGE_ID } = some 0 ∧
    (Example.pool_invalid_fetch.flush_all_pages 3).map (fun t => t.disk_manager_.trace)
      = some Example.pool_invalid_fetch.disk_manager_.trace ∧
    Example.pool_invalid_fetch.flush_all_pages 3 = some Example.pool_invalid_fetch :=
  ⟨Example.pool_invalid_fetch_reachable, by decide, rfl, rfl⟩

/-- C12. The contract of `flush_all_pages`: in a state reachable by well-formed calls,
`flush_all_pages(fd)` is defined; the calls it issues to the disk are one `write_page`
for each frame of a duplicate-free list `frames`, which holds exactly the frames of the
resident pages with file handle `fd`; the call for the frame of such a page `q` is
addressed to `q` and carries the bytes of the frame; the dirty flag of exactly these
frames is cleared and nothing else of them changes; every other frame, the frames on
the free list among them, is unchanged; page table, free list and replacer are
unchanged. -/
theorem flush_all_pages_contract (s : BufferPoolManager) (h : s.WFReachable) (fd : Int) :
    ∃ (s1 : BufferPoolManager) (frames : List frame_id_t),
      s.flush_all_pages fd = some s1 ∧ frames.Nodup ∧
      (∀ g : frame_id_t, g ∈ frames ↔ ∃ q : PageId, s.page_table_ q = some g ∧ q.fd = fd) ∧
      s1.disk_manager_.trace = s.disk_manager_.trace ++ frames.filterMap s.write_of ∧
      (frames.filterMap s.write_of).length = frames.length ∧
      (∀ (q : PageId) (g : frame_id_t) (pg : Page), s.page_table_ q = some g →
        s.pages_[g]? = some pg → q.fd = fd →
        s.write_of g = some (DiskCall.write_page q.fd q.page_no pg.data_) ∧
        s1.pages_[g]? = some { pg with is_dirty_ := false }) ∧
      (∀ g : frame_id_t, g ∉ frames → s1.pages_[g]? = s.pages_[g]?) ∧
      (∀ g ∈ s.free_list_, g ∉ frames) ∧
      s1.page_table_ = s.page_table_ ∧ s1.free_list_ = s.free_list_ ∧
      s1.replacer_ = s.replacer_ := by
  have hi := BufferPoolManager.reachable_inv s (BufferPoolManager.wf_reachable_reachable s h)
  have hm := BufferPoolManager.wf_reachable_mapped s h
  obtain ⟨s1, hl, ht, hf, hr, _, _, htr, hpages⟩ :=
    BufferPoolManager.flush_all_pages_loop_spec fd (List.range s.pool_size_) s
      (List.nodup_range _)
      (fun i hi' => by rw [hi.pages_length]; exact List.mem_range.1 hi')
  have hmem : ∀ g : frame_id_t, g ∈ (List.range s.pool_size_).filter (s.flushed fd) ↔
      ∃ q : PageId, s.page_table_ q = some g ∧ q.fd = fd := by
    intro g
    rw [List.mem_filter, BufferPoolManager.flushed_iff_resident s hi hm fd g]
    constructor
    · exact fun hc => hc.2
    · rintro ⟨q, hq, hfd⟩
      exact ⟨List.mem_range.2 (hi.table_lt q g hq), q, hq, hfd⟩
  refine ⟨s1, (List.range s.pool_size_).filter (s.flushed fd), hl,
    (List.nodup_range _).filter _, hmem, htr, ?_, ?_, ?_, ?_, ht, hf, hr⟩
  · apply filterMap_length_of_some
    intro g hg
    obtain ⟨q, hq, _⟩ := (hmem g).1 hg
    obtain ⟨pg, hpg, _⟩ := hi.table_get s q g hq
    exact ⟨DiskCall.write_page pg.id_.fd pg.id_.page_no pg.data_,
      by simp only [BufferPoolManager.write_of, hpg, Option.map_some']⟩
  · intro q g pg hq hpg hfd
    have hid := hi.table_id q g pg hq hpg
    have hg := (hmem g).2 ⟨q, hq, hfd⟩
    rw [List.mem_filter] at hg
    refine ⟨by simp only [BufferPoolManager.write_of, hpg, Option.map_some', hid], ?_⟩
    rw [hpages g, if_pos hg, hpg]
    rfl
  · intro g hg
    rw [hpages g, if_neg]
    intro hc
    exact hg (List.mem_filter.2 hc)
  · intro g hg hc
    obtain ⟨q, hq, _⟩ := (hmem g).1 hc
    exact hi.free_unmapped g hg q hq

/-- Instance of the contract of `flush_all_pages` in the pool of two frames that hold the
pages A and B of file 3: `flush_all_pages(3)` writes both frames. -/
theorem flush_all_pages_contract_witness :
    Example.pool_one_evictable.WFReachable ∧
    ∃ (s1 : BufferPoolManager) (frames : List frame_id_t),
      Example.pool_one_evictable.flush_all_pages 3 = some s1 ∧ frames.Nodup ∧
      (∀ g : frame_id_t, g ∈ frames ↔
        ∃ q : PageId, Example.pool_one_evictable.page_table_ q = some g ∧ q.fd = 3) ∧
      s1.disk_manager_.trace = Example.pool_one_evictable.disk_manager_.trace ++
        frames.filterMap Example.pool_one_evictable.write_of ∧
      (frames.filterMap Example.pool_one_evictable.write_of).length = frames.length ∧
      (∀ (q : PageId) (g : frame_id_t) (pg : Page),
        Example.pool_one_evictable.page_table_ q = some g →
        Example.pool_one_evictable.pages_[g]? = some pg → q.fd = 3 →
        Example.pool_one_evictable.write_of g
          = some (DiskCall.write_page q.fd q.page_no pg.data_) ∧
        s1.pages_[g]? = some { pg with is_dirty_ := false }) ∧
      (∀ g : frame_id_t, g ∉ frames → s1.pages_[g]? = Example.pool_one_evictable.pages_[g]?) ∧
      (∀ g ∈ Example.pool_one_evictable.free_list_, g ∉ frames) ∧
      s1.page_table_ = Example.pool_one_evictable.page_table_ ∧
      s1.free_list_ = Example.pool_one_evictable.free_list_ ∧
      s1.replacer_ = Example.pool_one_evictable.replacer_ :=
  ⟨Example.pool_one_evictable_wf_reachable,
    flush_all_pages_contract Example.pool_one_evictable
      Example.pool_one_evictable_wf_reachable 3⟩

/-- C13. Successful `delete_page`: in a reachable state, for a page `p` resident in frame
`f` with pin count 0, `delete_page(p)` returns `true`, calls `deallocate_page` with the
page number of `p`, removes the entry of `p` and no other entry from the page table,
sets the page number of the frame to the invalid value, its pin count to 0 and its dirty
flag to false, leaves the other frames unchanged, and appends `f` to the free list,
where `f` then occurs exactly once; the following `fetch_page(p)` is a miss: it is served
by a victim frame and ends with the `read_page` of `p`. -/
theorem delete_page_success (s : BufferPoolManager) (h : s.Reachable) (p : PageId)
    (f : frame_id_t) (pg : Page) (hk : s.page_table_ p = some f)
    (hpg : s.pages_[f]? = some pg) (hpin : pg.pin_count_ = 0) :
    ∃ s1 : BufferPoolManager, s.delete_page p = some (s1, true) ∧
      s1.disk_manager_.trace = s.disk_manager_.trace ++ [DiskCall.deallocate_page p.page_no] ∧
      s1.page_table_ p = none ∧
      (∀ k : PageId, k ≠ p → s1.page_table_ k = s.page_table_ k) ∧
      s1.pages_[f]? = some { pg with is_dirty_ := false, pin_count_ := 0,
                                     id_ := { pg.id_ with page_no := INVALID_PAGE_ID } } ∧
      (∀ g : frame_id_t, g ≠ f → s1.pages_[g]? = s.pages_[g]?) ∧
      s1.free_list_ = s.free_list_ ++ [f] ∧ s1.free_list_.count f = 1 ∧
      s1.replacer_ = s.replacer_ ∧
      ∃ (s2 t : BufferPoolManager) (g : frame_id_t),
        s1.find_victim_page = (t, some g) ∧ s1.fetch_page p = some (s2, some g) ∧
        s2.disk_manager_.trace.getLast? = some (DiskCall.read_page p.fd p.page_no) := by
  have hi := BufferPoolManager.reachable_inv s h
  have he := BufferPoolManager.delete_page_eq s p f pg hk hpg (by omega)
  have hi1 := BufferPoolManager.delete_page_inv s _ hi p true he
  have hnot : f ∉ s.free_list_ := hi.table_not_free s p f hk
  have hmiss : umap_erase s.page_table_ p p = none := umap_erase_self _ _
  refine ⟨_, he, rfl, hmiss, fun k hkp => umap_erase_ne _ _ _ hkp,
    pages_set_self _ f pg _ hpg, fun g hg => List.getElem?_set_ne (Ne.symm hg), rfl, ?_, rfl, ?_⟩
  · show (s.free_list_ ++ [f]).count f = 1
    rw [List.count_append, List.count_eq_zero_of_not_mem hnot]
    simp
  · have hne : (s.free_list_ ++ [f]) ≠ [] := by simp
    exact BufferPoolManager.Inv.fetch_miss_free _ hi1 p hmiss hne

/-- Instance of the successful delete in the pool of two frames in which frame 0 holds
the unpinned page A and frame 1 is free. -/
theorem delete_page_success_witness :
    Example.pool_free_and_tracked.Reachable ∧
    ∃ s1 : BufferPoolManager,
      Example.pool_free_and_tracked.delete_page Example.pageA = some (s1, true) ∧
      s1.disk_manager_.trace =
        Example.pool_free_and_tracked.disk_manager_.trace ++ [DiskCall.deallocate_page 0] ∧
      s1.page_table_ Example.pageA = none ∧
      (∀ k : PageId, k ≠ Example.pageA →
        s1.page_table_ k = Example.pool_free_and_tracked.page_table_ k) ∧
      s1.pages_[0]? = some { id_ := { fd := 3, page_no := INVALID_PAGE_ID },
                             data_ := PageData.zero, is_dirty_ := false, pin_count_ := 0 } ∧
      (∀ g : frame_id_t, g ≠ 0 → s1.pages_[g]? = Example.pool_free_and_tracked.pages_[g]?) ∧
      s1.free_list_ = [1] ++ [0] ∧ s1.free_list_.count 0 = 1 ∧
      s1.replacer_ = Example.pool_free_and_tracked.replacer_ ∧
      ∃ (s2 t : BufferPoolManager) (g : frame_id_t),
        s1.find_victim_page = (t, some g) ∧
        s1.fetch_page Example.pageA = some (s2, some g) ∧
        s2.disk_manager_.trace.getLast? = some (DiskCall.read_page 3 0) :=
  ⟨Example.pool_free_and_tracked_reachable,
    delete_page_success Example.pool_free_and_tracked Example.pool_free_and_tracked_reachable
      Example.pageA 0
      { id_ := Example.pageA, data_ := PageData.zero, is_dirty_ := false, pin_count_ := 0 }
      (by decide) rfl rfl⟩

/-- C15, counterexample. In the pool of one frame, `fetch_page(A)` is a miss; when its
`read_page` fails, the operation ends in a state whose page table maps A to frame 0: the
page table is not the page table before the call. -/
theorem disk_failure_counterexample :
    (BufferPoolManager.create 1 Example.disk).page_table_ Example.pageA = none ∧
    ∃ s2 : BufferPoolManager,
      (BufferPoolManager.create 1 Example.disk).fetch_page_faulty Example.pageA true false
        = some (DiskOutcome.raised s2) ∧
      s2.page_table_ Example.pageA = some 0 ∧
      s2.page_table_ ≠ (BufferPoolManager.create 1 Example.disk).page_table_ := by
  refine ⟨rfl, _, rfl, by decide, fun hc => ?_⟩
  have := congrFun hc Example.pageA
  revert this
  decide

/-- C15. The state of the pool after a failed call of the disk collaborator.  When
`write_page` fails in `flush_page`, the operation ends in the state in which it was
called.  When `write_page` fails in the write-back of a dirty victim (`fetch_page` miss,
`new_page`), it ends in the state left by `find_victim_page`, whose frames and page table
are those before the call: the dirty flag of the victim is still true and its page table
entry is intact.  When `read_page` fails in the miss path of `fetch_page(p)`, after a
successful write-back if the victim was dirty, the page table already maps `p` to the
victim frame and no longer holds the entry of the victim, and the frame holds the page
id `p` with zeroed content, dirty flag false and pin count 1; the replacer has not been
told to pin the frame.  When every call succeeds the operations are `fetch_page`,
`flush_page` and `new_page`. -/
theorem disk_failure_state (s : BufferPoolManager) (p : PageId) :
    (∀ (f : frame_id_t) (pg : Page), s.page_table_ p = some f → s.pages_[f]? = some pg →
      s.flush_page_faulty p false = some (DiskOutcome.raised s)) ∧
    (∀ (s1 : BufferPoolManager) (f : frame_id_t) (pg : Page) (read_ok : Bool),
      s.page_table_ p = none → s.find_victim_page = (s1, some f) →
      s1.pages_[f]? = some pg → pg.is_dirty_ = true →
      s.fetch_page_faulty p false read_ok = some (DiskOutcome.raised s1) ∧
        s1.pages_ = s.pages_ ∧ s1.page_table_ = s.page_table_ ∧
        s1.disk_manager_ = s.disk_manager_) ∧
    (∀ (s1 : BufferPoolManager) (f : frame_id_t) (pg : Page) (fd a : Int),
      s.find_victim_page = (s1, some f) → s1.pages_[f]? = some pg → pg.is_dirty_ = true →
      s.new_page_faulty fd a false = some (DiskOutcome.raised s1) ∧
        s1.pages_ = s.pages_ ∧ s1.page_table_ = s.page_table_ ∧
        s1.disk_manager_ = s.disk_manager_) ∧
    (∀ (s1 : BufferPoolManager) (f : frame_id_t) (pg : Page) (write_ok : Bool),
      s.page_table_ p = none → s.find_victim_page = (s1, some f) →
      s1.pages_[f]? = some pg → (pg.is_dirty_ = true → write_ok = true) →
      ∃ s2 : BufferPoolManager,
        s.fetch_page_faulty p write_ok false = some (DiskOutcome.raised s2) ∧
        s2.page_table_ = umap_set (umap_erase s.page_table_ pg.id_) p f ∧
        s2.page_table_ p = some f ∧
        s2.pages_[f]? = some
          { id_ := p, data_ := PageData.zero, is_dirty_ := false, pin_count_ := 1 } ∧
        s2.replacer_ = s1.replacer_ ∧ s2.free_list_ = s1.free_list_) ∧
    s.fetch_page_faulty p true true
      = (s.fetch_page p).map (fun r => DiskOutcome.returned r.1 r.2) ∧
    s.flush_page_faulty p true
      = (s.flush_page p).map (fun r => DiskOutcome.returned r.1 r.2) ∧
    (∀ fd a : Int, s.new_page_faulty fd a true
      = (s.new_page fd a).map (fun r => DiskOutcome.returned r.1 r.2)) := by
  refine ⟨?_, ?_, ?_, ?_, BufferPoolManager.fetch_page_faulty_ok s p,
    BufferPoolManager.flush_page_faulty_ok s p, BufferPoolManager.new_page_faulty_ok s⟩
  · intro f pg hk hpg
    simp only [BufferPoolManager.flush_page_faulty, hk, hpg, if_true]
  · intro s1 f pg read_ok hk hv hpg hd
    obtain ⟨h1, h2, h3⟩ := BufferPoolManager.find_victim_page_frame s s1 (some f) hv
    refine ⟨?_, h1, h2, h3⟩
    simp only [BufferPoolManager.fetch_page_faulty, hk, hv,
      BufferPoolManager.update_page_faulty, hpg, hd, and_self, if_true]
  · intro s1 f pg fd a hv hpg hd
    obtain ⟨h1, h2, h3⟩ := BufferPoolManager.find_victim_page_frame s s1 (some f) hv
    refine ⟨?_, h1, h2, h3⟩
    simp only [BufferPoolManager.new_page_faulty, hv, hpg, hd, and_self, if_true]
  · intro s1 f pg write_ok hk hv hpg hw
    obtain ⟨_, h2, _⟩ := BufferPoolManager.find_victim_page_frame s s1 (some f) hv
    have hlt : f < s1.pages_.length := pages_lt_of_get _ _ _ hpg
    have hcond : ¬ (pg.is_dirty_ = true ∧ write_ok = false) := by
      rintro ⟨hd, hf⟩
      rw [hw hd] at hf
      cases hf
    have hid : (if pg.is_dirty_ = true then
        ({ pg with is_dirty_ := false, pin_count_ := 0 } : Page) else pg).id_ = pg.id_ := by
      split <;> rfl
    have hdirty : (if pg.is_dirty_ = true then
        ({ pg with is_dirty_ := false, pin_count_ := 0 } : Page) else pg).is_dirty_
          = false := by
      split
      · rfl
      · rename_i hn
        simpa using hn
    have hget : (s1.pages_.set f (Page.reset_memory (if pg.is_dirty_ = true then
        ({ pg with is_dirty_ := false, pin_count_ := 0 } : Page) else pg)))[f]?
          = some (Page.reset_memory (if pg.is_dirty_ = true then
        ({ pg with is_dirty_ := false, pin_count_ := 0 } : Page) else pg)) :=
      pages_set_self _ f pg _ hpg
    have hfetch : s.fetch_page_faulty p write_ok false = some (DiskOutcome.raised
        { s1 with
          pages_ := (s1.pages_.set f (Page.reset_memory (if pg.is_dirty_ = true then
              ({ pg with is_dirty_ := false, pin_count_ := 0 } : Page) else pg))).set f
            { Page.reset_memory (if pg.is_dirty_ = true then
                ({ pg with is_dirty_ := false, pin_count_ := 0 } : Page) else pg) with
              id_ := p, pin_count_ := 1 },
          page_table_ := umap_set (umap_erase s1.page_table_ (if pg.is_dirty_ = true then
              ({ pg with is_dirty_ := false, pin_count_ := 0 } : Page) else pg).id_) p f,
          disk_manager_ := if pg.is_dirty_ = true then
              s1.disk_manager_.write_page pg.id_.fd pg.id_.page_no pg.data_
            else s1.disk_manager_ }) := by
      simp only [BufferPoolManager.fetch_page_faulty, hk, hv,
        BufferPoolManager.update_page_faulty, hpg, hcond, if_false, hget, if_true]
    refine ⟨_, hfetch, ?_, ?_, ?_, ?_, ?_⟩
    · show umap_set (umap_erase s1.page_table_ _) p f = _
      rw [hid, h2]
    · show umap_set (umap_erase s1.page_table_ _) p f p = some f
      exact umap_set_self _ _ _
    · show (List.set (s1.pages_.set f _) f _)[f]? = some _
      rw [pages_set_self _ f _ _ hget]
      simp only [Page.reset_memory, hid, hdirty]
    · rfl
    · rfl

/-- Instance of the state after a failed disk call in the pool of one frame that holds
the dirty, unpinned page A: a failing write-back during `fetch_page(B)` leaves the frame
dirty and A resident; a failing `read_page` leaves B registered in the page table. -/
theorem disk_failure_state_witness :
    Example.pool_dirty.page_table_ Example.pageB = none ∧
    Example.pool_dirty.fetch_page_faulty Example.pageB false true
      = some (DiskOutcome.raised Example.pool_dirty.find_victim_page.1) ∧
    Example.pool_dirty.find_victim_page.1.pages_ = Example.pool_dirty.pages_ ∧
    Example.pool_dirty.find_victim_page.1.page_table_ = Example.pool_dirty.page_table_ ∧
    (Example.pool_dirty.pages_[0]?).map (fun pg => pg.is_dirty_) = some true ∧
    Example.pool_dirty.page_table_ Example.pageA = some 0 ∧
    ∃ s2 : BufferPoolManager,
      Example.pool_dirty.fetch_page_faulty Example.pageB true false
        = some (DiskOutcome.raised s2) ∧
      s2.page_table_ Example.pageB = some 0 := by
  obtain ⟨h2a, h2b, h2c, _⟩ :=
    (disk_failure_state Example.pool_dirty Example.pageB).2.1
      Example.pool_dirty.find_victim_page.1 0 _ true (by decide) rfl rfl rfl
  obtain ⟨s2, h4a, _, h4b, _⟩ :=
    (disk_failure_state Example.pool_dirty Example.pageB).2.2.2.1
      Example.pool_dirty.find_victim_page.1 0 _ true (by decide) rfl rfl (fun _ => rfl)
  exact ⟨by decide, h2a, h2b, h2c, by decide, by decide, s2, h4a, h4b⟩

/-- C17, counterexample. From the pool of one frame whose frame holds the invalid page
id, the single call `new_page` for file 3 in which `allocate_page` returns
`INVALID_PAGE_ID`, a number whose page id is not resident, reaches a state in which the
page table maps the page id (3, INVALID_PAGE_ID) to frame 0 although the page id held by
frame 0 is not valid: the equivalence of the claim fails. -/
theorem page_table_invariant_counterexample :
    (BufferPoolManager.create 1 Example.disk).Fresh ∧
    Steps Op.Assumed (BufferPoolManager.create 1 Example.disk)
      Example.pool_invalid_allocation ∧
    Example.pool_invalid_allocation.page_table_ { fd := 3, page_no := INVALID_PAGE_ID }
      = some 0 ∧
    ¬ (∀ (p : PageId) (f : frame_id_t),
        Example.pool_invalid_allocation.page_table_ p = some f ↔
          ∃ pg : Page, Example.pool_invalid_allocation.pages_[f]? = some pg ∧ pg.id_ = p ∧
            p.page_no ≠ INVALID_PAGE_ID) := by
  refine ⟨BufferPoolManager.create_fresh 1 Example.disk,
    Steps.single _ _ _ (Op.new_page 3 INVALID_PAGE_ID)
      (show (BufferPoolManager.create 1 Example.disk).page_table_
        { fd := 3, page_no := INVALID_PAGE_ID } = none from rfl) rfl, by decide, ?_⟩
  intro hc
  obtain ⟨_, _, _, hv⟩ := (hc { fd := 3, page_no := INVALID_PAGE_ID } 0).1 (by decide)
  exact hv rfl

/-- C17. The page table invariant: in every state reachable from an initial state whose
frames hold the invalid page id, by `fetch_page` of page ids with a valid page number, by
`new_page` for which `allocate_page` returns a valid page number whose page id is not
resident, and by `unpin_page`, `flush_page`, `delete_page` and `flush_all_pages`, the
page table maps the page id `p` to frame `f` if and only if the page id held by frame `f`
is `p` and is valid; no two distinct page ids map to the same frame; and no frame on the
free list is the image of a page table entry. -/
theorem page_table_invariant (s : BufferPoolManager) (h : s.WFReachable) :
    (∀ (p : PageId) (f : frame_id_t), s.page_table_ p = some f ↔
      ∃ pg : Page, s.pages_[f]? = some pg ∧ pg.id_ = p ∧ p.page_no ≠ INVALID_PAGE_ID) ∧
    (∀ (p q : PageId) (f : frame_id_t), s.page_table_ p = some f → s.page_table_ q = some f →
      p = q) ∧
    (∀ f ∈ s.free_list_, ∀ p : PageId, s.page_table_ p ≠ some f) := by
  have hi := BufferPoolManager.reachable_inv s (BufferPoolManager.wf_reachable_reachable s h)
  have hm := BufferPoolManager.wf_reachable_mapped s h
  refine ⟨?_, ?_, hi.free_unmapped⟩
  · intro p f
    constructor
    · intro hp
      obtain ⟨pg, hpg, hid⟩ := hi.table_get s p f hp
      exact ⟨pg, hpg, hid, hm.keys_valid p f hp⟩
    · rintro ⟨pg, hpg, hid, hv⟩
      have := hm.held_mapped f pg hpg (by rw [hid]; exact hv)
      rwa [hid] at this
  · intro p q f hp hq
    obtain ⟨pg, hpg, hid⟩ := hi.table_get s p f hp
    rw [← hid, ← hi.table_id q f pg hq hpg]

/-- Instance of the page table invariant in the pool of two frames that hold the pages A
and B. -/
theorem page_table_invariant_witness :
    Example.pool_one_evictable.WFReachable ∧
    (∀ (p : PageId) (f : frame_id_t), Example.pool_one_evictable.page_table_ p = some f ↔
      ∃ pg : Page, Example.pool_one_evictable.pages_[f]? = some pg ∧ pg.id_ = p ∧
        p.page_no ≠ INVALID_PAGE_ID) ∧
    (∀ (p q : PageId) (f : frame_id_t), Example.pool_one_evictable.page_table_ p = some f →
      Example.pool_one_evictable.page_table_ q = some f → p = q) ∧
    (∀ f ∈ Example.pool_one_evictable.free_list_, ∀ p : PageId,
      Example.pool_one_evictable.page_table_ p ≠ some f) :=
  ⟨Example.pool_one_evictable_wf_reachable,
    page_table_invariant Example.pool_one_evictable Example.pool_one_evictable_wf_reachable⟩

/-- C18, counterexample. In the pool of two frames, after `fetch_page(A)`,
`unpin_page(A, false)` and `delete_page(A)`, frame 0 is on the free list and no page
table entry maps to it, yet the replacer still tracks it: `Size()` is 1 although no
resident frame has pin count 0. -/
theorem replacer_tracking_counterexample :
    Example.pool_deleted.Reachable ∧
    (BufferPoolManager.create 2 Example.disk).run
      [Op.fetch_page Example.pageA, Op.unpin_page Example.pageA false,
       Op.delete_page Example.pageA] = some Example.pool_deleted ∧
    0 ∈ Example.pool_deleted.free_list_ ∧
    (∀ p : PageId, Example.pool_deleted.page_table_ p ≠ some 0) ∧
    0 ∈ Example.pool_deleted.replacer_.tracked ∧
    Example.pool_deleted.replacer_.Size = 1 ∧
    (List.range Example.pool_deleted.pool_size_).filter Example.pool_deleted.evictable = [] ∧
    ¬ (∀ f : frame_id_t, f ∈ Example.pool_deleted.replacer_.tracked ↔
        (∃ p : PageId, Example.pool_deleted.page_table_ p = some f) ∧
          ∃ pg : Page, Example.pool_deleted.pages_[f]? = some pg ∧ pg.pin_count_ = 0) := by
  have hr := BufferPoolManager.wf_reachable_reachable _ Example.pool_deleted_wf_reachable
  have hi := BufferPoolManager.reachable_inv _ hr
  have hfree : (0 : frame_id_t) ∈ Example.pool_deleted.free_list_ := by decide
  have htr : (0 : frame_id_t) ∈ Example.pool_deleted.replacer_.tracked := by decide
  refine ⟨hr, rfl, hfree, hi.free_unmapped 0 hfree, htr, by decide, by decide, ?_⟩
  intro hc
  obtain ⟨⟨p, hp⟩, _⟩ := (hc 0).1 htr
  exact hi.free_unmapped 0 hfree p hp

/-- C18. The tracking invariant of the replacer of the pool.  In every reachable state a
resident frame with pin count 0 is tracked and a tracked frame has pin count 0.  In
every state reachable by well-formed calls (valid page ids passed to `fetch_page`, valid
and not resident page numbers returned by `allocate_page`) from an initial state whose
frames hold the invalid page id, moreover, a tracked frame is resident or on the free
list: a frame that is not on the free list is tracked if and only if it is resident with
pin count 0, no frame on the free list is resident, and `Size()` is the number of
resident frames with pin count 0 plus the number of frames on the free list that are
still tracked (`delete_page` leaves the replacer as it is). -/
theorem replacer_tracking_invariant (s : BufferPoolManager) (h : s.Reachable) :
    (∀ f : frame_id_t, s.evictable f = true ↔
      (∃ p : PageId, s.page_table_ p = some f) ∧
        ∃ pg : Page, s.pages_[f]? = some pg ∧ pg.pin_count_ = 0) ∧
    (∀ f : frame_id_t, s.evictable f = true → f ∈ s.replacer_.tracked) ∧
    (∀ f ∈ s.replacer_.tracked, ∃ pg : Page, s.pages_[f]? = some pg ∧ pg.pin_count_ = 0) ∧
    (s.WFReachable →
      (∀ f ∈ s.replacer_.tracked, s.evictable f = true ∨ f ∈ s.free_list_) ∧
      (∀ f : frame_id_t, f ∉ s.free_list_ →
        (f ∈ s.replacer_.tracked ↔ s.evictable f = true)) ∧
      (∀ f ∈ s.free_list_, s.evictable f = false) ∧
      s.replacer_.Size = ((List.range s.pool_size_).filter s.evictable).length +
        (s.free_list_.filter (fun f => decide (f ∈ s.replacer_.tracked))).length) := by
  have hi := BufferPoolManager.reachable_inv s h
  have h1 := BufferPoolManager.reachable_evictable_tracked s h
  have hev : ∀ f : frame_id_t, s.evictable f = true → f ∈ s.replacer_.tracked := by
    intro f hf
    obtain ⟨⟨k, hk⟩, pg, hpg, hz⟩ := (hi.evictable_iff s f).1 hf
    exact h1 k f pg hk hpg hz
  have hpin : ∀ f ∈ s.replacer_.tracked,
      ∃ pg : Page, s.pages_[f]? = some pg ∧ pg.pin_count_ = 0 := by
    intro f hf
    obtain ⟨pg, hpg⟩ := pages_get_of_lt s hi.pages_length f (hi.tracked_lt f hf)
    exact ⟨pg, hpg, hi.tracked_unpinned f hf pg hpg⟩
  refine ⟨hi.evictable_iff s, hev, hpin, fun hw => ?_⟩
  have h2 := BufferPoolManager.wf_reachable_tracked_held s hw
  have hheld : ∀ f ∈ s.replacer_.tracked, s.evictable f = true ∨ f ∈ s.free_list_ := by
    intro f hf
    rcases h2 f hf with hk | hfr
    · exact Or.inl ((hi.evictable_iff s f).2 ⟨hk, hpin f hf⟩)
    · exact Or.inr hfr
  refine ⟨hheld, fun f hnf => ⟨fun hf => ?_, hev f⟩, fun f hf => ?_,
    hi.size_formula s h1 h2⟩
  · rcases hheld f hf with he | hfr
    · exact he
    · exact absurd hfr hnf
  · cases hc : s.evictable f with
    | false => rfl
    | true =>
      obtain ⟨⟨k, hk⟩, _⟩ := (hi.evictable_iff s f).1 hc
      exact absurd hk (hi.free_unmapped f hf k)

/-- Instance of the tracking invariant in the pool of two frames after `fetch_page(A)`,
`unpin_page(A, false)` and `delete_page(A)`, in which frame 0 is free and tracked. -/
theorem replacer_tracking_invariant_witness :
    Example.pool_deleted.Reachable ∧ Example.pool_deleted.WFReachable ∧
    (∀ f : frame_id_t, Example.pool_deleted.evictable f = true →
      f ∈ Example.pool_deleted.replacer_.tracked) ∧
    (∀ f : frame_id_t, f ∉ Example.pool_deleted.free_list_ →
      (f ∈ Example.pool_deleted.replacer_.tracked ↔
        Example.pool_deleted.evictable f = true)) ∧
    Example.pool_deleted.replacer_.Size =
      ((List.range Example.pool_deleted.pool_size_).filter
        Example.pool_deleted.evictable).length +
      (Example.pool_deleted.free_list_.filter
        (fun f => decide (f ∈ Example.pool_deleted.replacer_.tracked))).length :=
  ⟨BufferPoolManager.wf_reachable_reachable _ Example.pool_deleted_wf_reachable,
    Example.pool_deleted_wf_reachable,
    (replacer_tracking_invariant Example.pool_deleted
      (BufferPoolManager.wf_reachable_reachable _ Example.pool_deleted_wf_reachable)).2.1,
    ((replacer_tracking_invariant Example.pool_deleted
      (BufferPoolManager.wf_reachable_reachable _ Example.pool_deleted_wf_reachable)).2.2.2
      Example.pool_deleted_wf_reachable).2.1,
    ((replacer_tracking_invariant Example.pool_deleted
      (BufferPoolManager.wf_reachable_reachable _ Example.pool_deleted_wf_reachable)).2.2.2
      Example.pool_deleted_wf_reachable).2.2.2⟩

/-- C19 (the code at the failing input). A replacer constructed with capacity 0 is empty
and its `Size()` equals its capacity; the call `unpin(3)` of the untracked frame 3 then
evaluates `LRUlist_.back()` on the empty list, which is undefined. -/
theorem unpin_capacity_zero_reads_empty_back :
    (LRUReplacer.create 0).LRUlist_ = [] ∧
    (LRUReplacer.create 0).LRUhash_ 3 = none ∧
    (LRUReplacer.create 0).Size = (LRUReplacer.create 0).max_size_ ∧
    (LRUReplacer.create 0).unpin 3 = none :=
  ⟨rfl, rfl, rfl, rfl⟩

/-- C20. Internal consistency of the replacer: in every state reachable from a
constructed replacer by calls of `victim`, `pin` and `unpin`, the list holds no frame id
twice; the keys of the index are exactly the frame ids of the list; the position stored
under a key designates a list element, the only one with this position, and this element
holds the key; `Size()` is the number of distinct tracked frames; and `pin(f)` is defined
and removes exactly the frame `f` from the tracked sequence. -/
theorem replacer_internal_consistency (r : LRUReplacer) (h : r.Reachable) :
    r.tracked.Nodup ∧
    (∀ f : frame_id_t, (∃ it : Nat, r.LRUhash_ f = some it) ↔ f ∈ r.tracked) ∧
    (∀ (f : frame_id_t) (it : Nat), r.LRUhash_ f = some it →
      ({ iter := it, frame := f } : LRUNode) ∈ r.LRUlist_ ∧
      ∀ n ∈ r.LRUlist_, n.iter = it → n = { iter := it, frame := f }) ∧
    r.Size = r.tracked.toFinset.card ∧
    (∀ f : frame_id_t, ∃ r1 : LRUReplacer, r.pin f = some r1 ∧
      r1.tracked = r.tracked.filter (fun g => !decide (g = f)) ∧ f ∉ r1.tracked) := by
  have hc := LRUReplacer.reachable_consistent r h
  refine ⟨hc.frame_nodup, fun f => (LRUReplacer.mem_tracked_iff r hc f).symm, ?_, ?_, ?_⟩
  · intro f it hit
    have hmem := (hc.hash_iff f it).1 hit
    exact ⟨hmem, fun n hn hi => LRUReplacer.node_eq_of_iter r hc n _ hn hmem hi⟩
  · rw [LRUReplacer.size_eq_tracked_length]
    exact (List.toFinset_card_of_nodup (show r.tracked.Nodup from hc.frame_nodup)).symm
  · intro f
    obtain ⟨r1, hp, _, ht, _⟩ := LRUReplacer.pin_spec r hc f
    refine ⟨r1, hp, ht, ?_⟩
    rw [ht, List.mem_filter]
    simp

/-- Instance of the consistency property in the replacer that tracks 2 and 1. -/
theorem replacer_internal_consistency_witness :
    Example.replacer.Reachable ∧
    Example.replacer.tracked.Nodup ∧
    Example.replacer.Size = Example.replacer.tracked.toFinset.card ∧
    ∃ r1 : LRUReplacer, Example.replacer.pin 2 = some r1 ∧
      r1.tracked = Example.replacer.tracked.filter (fun g => !decide (g = 2)) ∧
      2 ∉ r1.tracked :=
  ⟨Example.replacer_reachable,
    (replacer_internal_consistency Example.replacer Example.replacer_reachable).1,
    (replacer_internal_consistency Example.replacer Example.replacer_reachable).2.2.2.1,
    (replacer_internal_consistency Example.replacer Example.replacer_reachable).2.2.2.2 2⟩

end Unibase
